import Mathlib

/-!
# Verification of the decs rollback ECS core

Shallow embedding of the decs engine (bitmask-tree component storage,
per-tick rollback journal, query enumeration, dependency scheduler) and
proofs about it.

Conventions:
* A Rust `u64` mask is a `Nat` kept below `2 ^ 64`; Rust `!m` is `compl64 m`.
* A global slot index `i < 64 ^ 3` splits as in `storage.rs`:
  `chunk_idx = i % 64`, `page_idx = i / 64 % 64`, `storage_idx = i / 4096`.
* `Tick` (`src/tick.rs` is declared in `lib.rs` but absent from the sources;
  it is used as a newtype over `u64` ordered by `<`) is modelled as `Nat`.
-/

namespace Decs

/-- All-ones mask of width `n` (`u64::MAX >> (64 - n)` for `1 ≤ n ≤ 64`). -/
def ones (n : Nat) : Nat := 2 ^ n - 1

/-- Rust `!m` on `u64`: bitwise complement within 64 bits. -/
def compl64 (m : Nat) : Nat := m ^^^ ones 64

/-- Bit test on a mask: `(m >> i) & 1 != 0`. -/
def bget (m i : Nat) : Bool := m.testBit i

/-- `m | (1 << i)`. -/
def bset (m i : Nat) : Nat := m ||| (1 <<< i)

/-- `m & !(1 << i)`. -/
def bclear (m i : Nat) : Nat := m &&& compl64 (1 <<< i)

/-- First bit index `≥ k` (searching `fuel` positions) at which `m` has a set
bit; returns `k + fuel` when none is found. -/
def tzFrom (m : Nat) : Nat → Nat → Nat
  | k, 0 => k
  | k, fuel + 1 => if m.testBit k then k else tzFrom m (k + 1) fuel

/-- `u64::trailing_zeros`: index of the lowest set bit, 64 when `m = 0`. -/
def tz64 (m : Nat) : Nat := tzFrom m 0 64

/-- `u64::trailing_ones`: length of the run of low set bits. -/
def to64 (m : Nat) : Nat := tz64 (compl64 m)

theorem ones_pos (n : Nat) (h : 0 < n) : 0 < ones n := by
  have : (2 : Nat) ^ n ≥ 2 ^ 1 := Nat.pow_le_pow_right (by norm_num) h
  simp only [ones]; omega

theorem testBit_ones (n i : Nat) : (ones n).testBit i = decide (i < n) := by
  simp [ones, Nat.testBit_two_pow_sub_one]

theorem compl64_testBit (m i : Nat) (hm : m < 2 ^ 64) :
    (compl64 m).testBit i = ((!m.testBit i) && decide (i < 64)) := by
  simp only [compl64, Nat.testBit_xor, testBit_ones]
  by_cases hi : i < 64
  · simp [hi]
  · have : m.testBit i = false := Nat.testBit_lt_two_pow (lt_of_lt_of_le hm
      (Nat.pow_le_pow_right (by norm_num) (by omega)))
    simp [hi, this]

theorem tzFrom_ge (m : Nat) : ∀ fuel k, k ≤ tzFrom m k fuel
  | 0, k => by simp [tzFrom]
  | fuel + 1, k => by
    simp only [tzFrom]
    split
    · exact le_refl k
    · exact le_trans (Nat.le_succ k) (tzFrom_ge m fuel (k + 1))

theorem tzFrom_le (m : Nat) : ∀ fuel k, tzFrom m k fuel ≤ k + fuel
  | 0, k => by simp [tzFrom]
  | fuel + 1, k => by
    simp only [tzFrom]
    split
    · omega
    · have := tzFrom_le m fuel (k + 1); omega

theorem tzFrom_min (m : Nat) :
    ∀ fuel k j, k ≤ j → j < tzFrom m k fuel → m.testBit j = false
  | 0, k, j, hk, hj => by simp [tzFrom] at hj; omega
  | fuel + 1, k, j, hk, hj => by
    simp only [tzFrom] at hj
    by_cases hb : m.testBit k
    · simp [hb] at hj; omega
    · simp [hb] at hj
      rcases Nat.eq_or_lt_of_le hk with rfl | hlt
      · simpa using hb
      · exact tzFrom_min m fuel (k + 1) j hlt hj

theorem tzFrom_hit (m : Nat) :
    ∀ fuel k, tzFrom m k fuel < k + fuel → m.testBit (tzFrom m k fuel) = true
  | 0, k, h => by simp [tzFrom] at h
  | fuel + 1, k, h => by
    simp only [tzFrom] at h ⊢
    by_cases hb : m.testBit k
    · simp [hb]
    · simp only [hb] at h ⊢
      simp only [Bool.false_eq_true, if_false] at h ⊢
      exact tzFrom_hit m fuel (k + 1) (by omega)

theorem tz64_min (m j : Nat) (h : j < tz64 m) : m.testBit j = false :=
  tzFrom_min m 64 0 j (Nat.zero_le j) h

theorem tz64_hit (m : Nat) (h : tz64 m < 64) : m.testBit (tz64 m) = true :=
  tzFrom_hit m 64 0 (by simpa using h)

theorem tz64_le (m : Nat) : tz64 m ≤ 64 := tzFrom_le m 64 0

theorem tz64_lt_of_ne (m : Nat) (h0 : m ≠ 0) (hlt : m < 2 ^ 64) :
    tz64 m < 64 := by
  by_contra hge
  have h64 : tz64 m = 64 := le_antisymm (tz64_le m) (by omega)
  have : ∀ j, m.testBit j = false := by
    intro j
    by_cases hj : j < 64
    · exact tz64_min m j (by omega)
    · exact Nat.testBit_lt_two_pow (lt_of_lt_of_le hlt
        (Nat.pow_le_pow_right (by norm_num) (by omega)))
  exact h0 (Nat.eq_of_testBit_eq (fun j => by simp [this j]))

/-- Bits `j < to64 m` of `m` are set. -/
theorem to64_run (m j : Nat) (hm : m < 2 ^ 64) (h : j < to64 m) :
    m.testBit j = true := by
  have hj64 : j < 64 := lt_of_lt_of_le h (tz64_le _)
  have := tz64_min (compl64 m) j h
  rw [compl64_testBit m j hm] at this
  cases hb : m.testBit j
  · rw [hb] at this; simp [hj64] at this
  · rfl

/-- The bit just past the run (when inside the word) is clear. -/
theorem to64_stop (m : Nat) (hm : m < 2 ^ 64) (h : to64 m < 64) :
    m.testBit (to64 m) = false := by
  have := tz64_hit (compl64 m) h
  rw [compl64_testBit m _ hm] at this
  simp only [to64]
  cases hb : m.testBit (tz64 (compl64 m))
  · rfl
  · rw [hb] at this; simp at this

theorem to64_pos (m : Nat) (hm : m < 2 ^ 64) (h : m.testBit 0 = true) :
    0 < to64 m := by
  by_contra h0
  have h1 : to64 m = 0 := by omega
  have := to64_stop m hm (by omega)
  rw [h1] at this; rw [this] at h; simp at h

theorem to64_le (m : Nat) : to64 m ≤ 64 := tz64_le _

/-- Clearing the current run: `mask &= !((u64::MAX >> (64 - run_len)) << start)`. -/
def runClear (m : Nat) : Nat :=
  m &&& compl64 (ones (to64 (m >>> tz64 m)) <<< tz64 m)

theorem shiftRight_lt_64 (m s : Nat) (hm : m < 2 ^ 64) :
    m >>> s < 2 ^ (64 - s) := by
  rw [Nat.shiftRight_eq_div_pow]
  have hpos : 0 < 2 ^ s := Nat.pos_pow_of_pos s (by norm_num)
  rw [Nat.div_lt_iff_lt_mul hpos]
  calc m < 2 ^ 64 := hm
    _ ≤ 2 ^ (64 - s + s) := Nat.pow_le_pow_right (by norm_num) (by omega)
    _ = 2 ^ (64 - s) * 2 ^ s := by rw [Nat.pow_add]

theorem shiftRight_lt_64' (m s : Nat) (hm : m < 2 ^ 64) : m >>> s < 2 ^ 64 :=
  lt_of_lt_of_le (shiftRight_lt_64 m s hm)
    (Nat.pow_le_pow_right (by norm_num) (by omega))

theorem run_pos (m : Nat) (h0 : m ≠ 0) (hm : m < 2 ^ 64) :
    0 < to64 (m >>> tz64 m) := by
  apply to64_pos _ (shiftRight_lt_64' m _ hm)
  rw [Nat.testBit_shiftRight]
  simpa using tz64_hit m (tz64_lt_of_ne m h0 hm)

theorem run_le (m : Nat) (hm : m < 2 ^ 64) :
    to64 (m >>> tz64 m) ≤ 64 - tz64 m := by
  by_contra hgt
  have hbit := to64_run (m >>> tz64 m) (64 - tz64 m)
    (shiftRight_lt_64' m _ hm) (by omega)
  rw [Nat.testBit_shiftRight] at hbit
  have : m.testBit (tz64 m + (64 - tz64 m)) = false := by
    apply Nat.testBit_lt_two_pow
    exact lt_of_lt_of_le hm (Nat.pow_le_pow_right (by norm_num) (by omega))
  rw [this] at hbit; exact Bool.false_ne_true hbit

theorem shifted_ones_lt (start run : Nat) (hs : start ≤ 64)
    (h : run ≤ 64 - start) : ones run <<< start < 2 ^ 64 := by
  rw [Nat.shiftLeft_eq]
  calc ones run * 2 ^ start < 2 ^ run * 2 ^ start := by
        apply (Nat.mul_lt_mul_right (Nat.pos_pow_of_pos start (by norm_num))).mpr
        simp only [ones]
        exact Nat.sub_lt (Nat.pos_pow_of_pos run (by norm_num)) (by norm_num)
    _ = 2 ^ (run + start) := by rw [← Nat.pow_add]
    _ ≤ 2 ^ 64 := Nat.pow_le_pow_right (by norm_num) (by omega)

theorem runClear_testBit (m k : Nat) (h0 : m ≠ 0) (hm : m < 2 ^ 64) :
    (runClear m).testBit k =
      (m.testBit k &&
        !(decide (tz64 m ≤ k ∧ k < tz64 m + to64 (m >>> tz64 m)))) := by
  set start := tz64 m with hstart
  set run := to64 (m >>> tz64 m) with hrun
  have hlt : ones run <<< start < 2 ^ 64 :=
    shifted_ones_lt start run (tz64_le m) (run_le m hm)
  by_cases hk : k < 64
  · rw [runClear, Nat.testBit_and, compl64_testBit _ _ hlt, Nat.testBit_shiftLeft,
      testBit_ones]
    by_cases hks : start ≤ k
    · have : k - start < run ↔ k < start + run := by omega
      simp [hks, hk, this]
    · simp [hks, hk]
  · have hmk : m.testBit k = false := Nat.testBit_lt_two_pow
      (lt_of_lt_of_le hm (Nat.pow_le_pow_right (by norm_num) (by omega)))
    have : (runClear m).testBit k = false := by
      apply Nat.testBit_lt_two_pow
      have := Nat.and_le_left (n := m) (m := compl64 (ones run <<< start))
      calc runClear m ≤ m := this
        _ < 2 ^ 64 := hm
        _ ≤ 2 ^ k := Nat.pow_le_pow_right (by norm_num) (by omega)
    rw [this, hmk]; rfl

theorem runClear_lt (m : Nat) (h0 : m ≠ 0) (hm : m < 2 ^ 64) :
    runClear m < m := by
  have hle : runClear m ≤ m := Nat.and_le_left
  have hne : runClear m ≠ m := by
    intro heq
    have h1 := runClear_testBit m (tz64 m) h0 hm
    rw [heq] at h1
    have h2 : m.testBit (tz64 m) = true := tz64_hit m (tz64_lt_of_ne m h0 hm)
    rw [h2] at h1
    have h3 : (tz64 m ≤ tz64 m ∧ tz64 m < tz64 m + to64 (m >>> tz64 m)) := by
      have := run_pos m h0 hm; omega
    simp [h3] at h1
  omega

/-- The iteration idiom used throughout the source (`storage.rs`,
`decs_macros/src/lib.rs`): find the lowest set bit with `trailing_zeros`,
extend through the run of contiguous ones with `trailing_ones` on the
shifted mask, visit the run, clear the run by mask-subtract.  Returns the
visited indices in visit order. -/
def runBits (m : Nat) : List Nat :=
  if h0 : m = 0 then []
  else if hm : ¬ m < 2 ^ 64 then []
  else
    ((List.range (to64 (m >>> tz64 m))).map (tz64 m + ·)) ++ runBits (runClear m)
decreasing_by
  exact runClear_lt m h0 (by omega)

theorem runBits_zero : runBits 0 = [] := by rw [runBits]; simp

/-- Range/filter decomposition behind one iteration of the run loop. -/
theorem filter_range_split (start run : Nat) (p q : Nat → Bool)
    (hle : start + run ≤ 64)
    (hlow : ∀ k, k < start → p k = false)
    (hrun : ∀ k, start ≤ k → k < start + run → p k = true)
    (hqlow : ∀ k, k < start + run → q k = false)
    (hq : ∀ k, start + run ≤ k → k < 64 → q k = p k) :
    (List.range 64).filter p =
      ((List.range run).map (start + ·)) ++ (List.range 64).filter q := by
  have hsum : 64 = start + run + (64 - (start + run)) := by omega
  rw [hsum, List.range_add, List.range_add]
  simp only [List.filter_append]
  have e1 : (List.range start).filter p = [] := by
    apply List.filter_eq_nil_iff.mpr
    intro k hk
    simp [hlow k (List.mem_range.mp hk)]
  have e2 : ((List.range run).map (start + ·)).filter p =
      (List.range run).map (start + ·) := by
    apply List.filter_eq_self.mpr
    intro k hk
    obtain ⟨j, hj, rfl⟩ := List.mem_map.mp hk
    exact hrun _ (by omega) (by have := List.mem_range.mp hj; omega)
  have e3 : (List.range start).filter q = [] := by
    apply List.filter_eq_nil_iff.mpr
    intro k hk
    simp [hqlow k (by have := List.mem_range.mp hk; omega)]
  have e4 : ((List.range run).map (start + ·)).filter q = [] := by
    apply List.filter_eq_nil_iff.mpr
    intro k hk
    obtain ⟨j, hj, rfl⟩ := List.mem_map.mp hk
    have := List.mem_range.mp hj
    simp [hqlow (start + j) (by omega)]
  have e5 : ((List.range (64 - (start + run))).map (start + run + ·)).filter q =
      ((List.range (64 - (start + run))).map (start + run + ·)).filter p := by
    apply List.filter_congr
    intro k hk
    obtain ⟨j, hj, rfl⟩ := List.mem_map.mp hk
    have := List.mem_range.mp hj
    exact hq _ (by omega) (by omega)
  rw [e1, e2, e3, e4, e5]
  simp

/-- `runBits` enumerates exactly the set bits of a 64-bit mask in
ascending order. -/
theorem runBits_eq_filter (m : Nat) (hm : m < 2 ^ 64) :
    runBits m = (List.range 64).filter (fun k => m.testBit k) := by
  induction m using Nat.strong_induction_on with
  | _ m ih =>
    by_cases h0 : m = 0
    · subst h0; rw [runBits_zero]
      simp
    · rw [runBits]
      simp only [h0, dif_neg, hm, not_true_eq_false, not_false_eq_true,
        not_lt, dite_false, dite_true]
      have hstart64 : tz64 m < 64 := tz64_lt_of_ne m h0 hm
      have hrunle : to64 (m >>> tz64 m) ≤ 64 - tz64 m := run_le m hm
      have ihc := ih (runClear m) (runClear_lt m h0 hm)
        (lt_of_le_of_lt (Nat.and_le_left) hm)
      rw [ihc]
      symm
      apply filter_range_split (tz64 m) (to64 (m >>> tz64 m))
      · omega
      · exact fun k hk => tz64_min m k hk
      · intro k h1 h2
        have := to64_run (m >>> tz64 m) (k - tz64 m)
          (shiftRight_lt_64' m _ hm) (by omega)
        rw [Nat.testBit_shiftRight] at this
        rwa [show tz64 m + (k - tz64 m) = k by omega] at this
      · intro k hk
        rw [runClear_testBit m k h0 hm]
        by_cases hks : tz64 m ≤ k
        · simp [show tz64 m ≤ k ∧ k < tz64 m + to64 (m >>> tz64 m) by omega]
        · simp [tz64_min m k (by omega)]
      · intro k h1 h2
        rw [runClear_testBit m k h0 hm]
        simp [show ¬ (tz64 m ≤ k ∧ k < tz64 m + to64 (m >>> tz64 m)) by omega]

/-! ## The storage tree and the rollback journal (`storage.rs`, `rollback.rs`)

Pointer-level details are embedded as follows: a `*mut Page` / `*mut Chunk`
slot holds either an owned node or the shared empty sentinel; allocation and
free always happen together with the corresponding presence-bit update, so
"pointer is the sentinel" is represented by the bit being clear and the
slot value being the empty node (freed nodes are reset to the empty node).
`MaybeUninit<T>` slots are `Option V` (`none` = uninitialized). -/

/-- Leaf chunk: 64 value slots plus three masks (`storage.rs::Chunk`). -/
structure Chunk (V : Type) where
  presence_mask : Nat
  fullness_mask : Nat
  changed_mask : Nat
  data : Fin 64 → Option V

/-- Interior page: 64 chunks, three masks and a count (`storage.rs::Page`). -/
structure Page (V : Type) where
  presence_mask : Nat
  fullness_mask : Nat
  changed_mask : Nat
  count : Nat
  data : Fin 64 → Chunk V

/-- Journal leaf (`rollback.rs::RollbackChunk`). -/
structure RollbackChunk (V : Type) where
  created_mask : Nat
  changed_mask : Nat
  removed_mask : Nat
  data : Fin 64 → Option V

/-- Journal page (`rollback.rs::RollbackPage`); a chunk exists iff its bit
in `changed_mask` is set. -/
structure RollbackPage (V : Type) where
  changed_mask : Nat
  data : Fin 64 → RollbackChunk V

/-- Per-tick journal (`rollback.rs::RollbackStorage`); a page exists iff its
bit in `changed_mask` is set. -/
structure RollbackStorage (V : Type) where
  changed_mask : Nat
  tick : Nat
  generation_at_tick_start : Nat
  data : Fin 64 → RollbackPage V

/-- Component storage (`storage.rs::Storage`): the tree, the open journal,
the sealed-journal deque (front = oldest) and the entity generation
counter.  Object pools and sentinel pointers carry no observable state. -/
structure Storage (V : Type) where
  presence_mask : Nat
  fullness_mask : Nat
  changed_mask : Nat
  count : Nat
  rollback : RollbackStorage V
  prev : List (RollbackStorage V)
  data : Fin 64 → Page V
  generation : Nat

def emptyChunk (V : Type) : Chunk V :=
  { presence_mask := 0, fullness_mask := 0, changed_mask := 0
    data := fun _ => none }

def emptyPage (V : Type) : Page V :=
  { presence_mask := 0, fullness_mask := 0, changed_mask := 0, count := 0
    data := fun _ => emptyChunk V }

def emptyRollbackChunk (V : Type) : RollbackChunk V :=
  { created_mask := 0, changed_mask := 0, removed_mask := 0
    data := fun _ => none }

def emptyRollbackPage (V : Type) : RollbackPage V :=
  { changed_mask := 0, data := fun _ => emptyRollbackChunk V }

/-- `RollbackStorage::with_tick` / `reset_for_tick`. -/
def freshRollback (V : Type) (t : Nat) : RollbackStorage V :=
  { changed_mask := 0, tick := t, generation_at_tick_start := 0
    data := fun _ => emptyRollbackPage V }

def emptyStorage (V : Type) : Storage V :=
  { presence_mask := 0, fullness_mask := 0, changed_mask := 0, count := 0
    rollback := freshRollback V 0, prev := [], data := fun _ => emptyPage V
    generation := 0 }

/-- Index split used everywhere in `storage.rs`:
`chunk_idx = i % 64`, `page_idx = i / 64 % 64`, `storage_idx = i / 4096`. -/
def cIdx (i : Nat) : Fin 64 := ⟨i % 64, Nat.mod_lt _ (by norm_num)⟩

def pIdx (i : Nat) : Fin 64 := ⟨i / 64 % 64, Nat.mod_lt _ (by norm_num)⟩

def sIdx (i : Nat) (h : i < 262144) : Fin 64 := ⟨i / 4096, by omega⟩

/-- `Storage::get` (storage.rs:121).  The source's sentinel-pointer check
corresponds to the chunk presence bit being clear. -/
def Storage.get (s : Storage V) (i : Nat) : Option V :=
  if h : i < 262144 then
    let chunk := (s.data (sIdx i h)).data (pIdx i)
    if bget chunk.presence_mask (i % 64) then chunk.data (cIdx i) else none
  else none

/-- `RollbackStorage::get_page` (rollback.rs:232). -/
def RollbackStorage.getPage (j : RollbackStorage V) (si : Fin 64) :
    Option (RollbackPage V) :=
  if bget j.changed_mask si.val then some (j.data si) else none

/-- `RollbackPage::get` (rollback.rs:477). -/
def RollbackPage.getChunk (p : RollbackPage V) (pi : Fin 64) :
    Option (RollbackChunk V) :=
  if bget p.changed_mask pi.val then some (p.data pi) else none

/-- `Storage::ensure_rollback_tick` (storage.rs:99): seal the open journal
when the tick advances, keep at most 64 sealed journals. -/
def Storage.ensureRollbackTick (s : Storage V) (ct : Nat) : Storage V :=
  if s.rollback.tick = ct then s
  else
    let merged := s.prev ++ [s.rollback]
    { s with
      rollback := freshRollback V ct
      prev := merged.drop (merged.length - 64) }

/-- `RollbackStorage::get_or_create_page` (rollback.rs:253): a fresh page is
installed when the page bit is clear. -/
def RollbackStorage.pageOrNew (j : RollbackStorage V) (si : Fin 64) :
    RollbackPage V :=
  if bget j.changed_mask si.val then j.data si else emptyRollbackPage V

/-- `RollbackPage::get_or_create_chunk` (rollback.rs:501). -/
def RollbackPage.chunkOrNew (p : RollbackPage V) (pi : Fin 64) :
    RollbackChunk V :=
  if bget p.changed_mask pi.val then p.data pi else emptyRollbackChunk V

/-- The chunk-level case analysis of `Storage::set`'s journal update
(storage.rs:215-278). -/
def RollbackChunk.recordSetC (rc : RollbackChunk V) (ci : Fin 64)
    (wasPresent : Bool) (oldValue : Option V) : RollbackChunk V :=
  if bget rc.created_mask ci.val then
    -- created + modified in the same tick stays created, no value stored
    { rc with
      removed_mask := bclear rc.removed_mask ci.val
      changed_mask := bclear rc.changed_mask ci.val
      created_mask := bset rc.created_mask ci.val }
  else if wasPresent then
    -- change: store the old value only on the first change of the tick
    { rc with
      data :=
        if ¬ bget rc.changed_mask ci.val ∧ ¬ bget rc.removed_mask ci.val then
          match oldValue with
          | some ov => Function.update rc.data ci (some ov)
          | none => rc.data
        else rc.data
      removed_mask := bclear rc.removed_mask ci.val
      created_mask := bclear rc.created_mask ci.val
      changed_mask := bset rc.changed_mask ci.val }
  else if bget rc.removed_mask ci.val then
    -- remove-then-add within the tick becomes a change, value kept
    { rc with
      removed_mask := bclear rc.removed_mask ci.val
      created_mask := bclear rc.created_mask ci.val
      changed_mask := bset rc.changed_mask ci.val }
  else
    -- creation
    { rc with
      removed_mask := bclear rc.removed_mask ci.val
      changed_mask := bclear rc.changed_mask ci.val
      created_mask := bset rc.created_mask ci.val }

/-- The journal-side case analysis of `Storage::set` (storage.rs:215-278),
acting on the open journal; `wasPresent`/`oldValue` come from the tree. -/
def RollbackStorage.recordSet (j : RollbackStorage V) (si pi ci : Fin 64)
    (wasPresent : Bool) (oldValue : Option V) : RollbackStorage V :=
  let rc' := ((j.pageOrNew si).chunkOrNew pi).recordSetC ci wasPresent oldValue
  let p := j.pageOrNew si
  let p' :=
    { p with
      data := Function.update p.data pi rc'
      changed_mask := bset p.changed_mask pi.val }
  { j with
    data := Function.update j.data si p'
    changed_mask := bset j.changed_mask si.val }

/-- Page allocation on demand (`storage.rs:1017-1034`; also the page
creation step of `set`, storage.rs:153-170). -/
def Storage.allocPageIfAbsent (s : Storage V) (si : Fin 64) : Storage V :=
  if bget s.presence_mask si.val then s
  else
    { s with
      data := Function.update s.data si (emptyPage V)
      presence_mask := bset s.presence_mask si.val
      changed_mask := bset s.changed_mask si.val }

/-- Chunk allocation on demand within a page (`storage.rs:1040-1053`). -/
def Page.allocChunkIfAbsent (page : Page V) (pi : Fin 64) : Page V :=
  if bget page.presence_mask pi.val then page
  else
    { page with
      data := Function.update page.data pi (emptyChunk V)
      presence_mask := bset page.presence_mask pi.val
      changed_mask := bset page.changed_mask pi.val }

/-- Leaf slot write shared by `set` (storage.rs:199-202) and `spawn`
(storage.rs:1056-1080): store the value and set the chunk bits. -/
def Storage.writeSlot (s : Storage V) (si pi ci : Fin 64) (v : V) :
    Storage V :=
  let page := s.data si
  let chunk := page.data pi
  let chunk :=
    { chunk with
      presence_mask := bset chunk.presence_mask ci.val
      fullness_mask := bset chunk.fullness_mask ci.val
      changed_mask := bset chunk.changed_mask ci.val
      data := Function.update chunk.data ci (some v) }
  let page := { page with data := Function.update page.data pi chunk }
  { s with data := Function.update s.data si page }

/-- Tail mask/count updates shared by `set` and `spawn`
(storage.rs:281-329 and 1117-1163): page count and masks, then storage
count and masks.  `bump` tells whether the counts increase. -/
def Storage.setMaskPhase (s : Storage V) (si pi : Fin 64)
    (chunkIsFull bump : Bool) : Storage V :=
  let page := s.data si
  let page :=
    { page with
      count := if bump then min (page.count + 1) (2 ^ 32 - 1) else page.count
      presence_mask := bset page.presence_mask pi.val
      fullness_mask :=
        ((if chunkIsFull then bset page.fullness_mask pi.val
          else bclear page.fullness_mask pi.val) &&&
          bset page.presence_mask pi.val)
      changed_mask := bset page.changed_mask pi.val }
  let s :=
    { s with
      data := Function.update s.data si page
      count := if bump then min (s.count + 1) (2 ^ 32 - 1) else s.count }
  let pageIsFull := page.count == 64 * 64
  { s with
    presence_mask := bset s.presence_mask si.val
    fullness_mask :=
      ((if pageIsFull then bset s.fullness_mask si.val
        else bclear s.fullness_mask si.val) &&&
        bset s.presence_mask si.val)
    changed_mask := bset s.changed_mask si.val }

/-- The outcome of an operation that can assert: the message of the panic
(if any) together with the state at the moment the operation stopped. -/
structure OpResult (S : Type) where
  panicMsg : Option String
  state : S

/-- `Storage::set` (storage.rs:145).  `assert!(storage_idx < 64)` fires
before any mutation; the remainder transcribes the tree and journal
updates in source order. -/
def Storage.set (s : Storage V) (ct : Nat) (i : Nat) (v : V) :
    OpResult (Storage V) :=
  if h : ¬ i < 262144 then
    { panicMsg := some "Storage index out of range", state := s }
  else
    let si := sIdx i (by omega)
    let pi := pIdx i
    let ci := cIdx i
    -- create page / chunk if needed (storage.rs:153-188)
    let s := s.allocPageIfAbsent si
    let s :=
      { s with
        data := Function.update s.data si ((s.data si).allocChunkIfAbsent pi) }
    -- leaf write (storage.rs:190-207)
    let wasPresent := bget ((s.data si).data pi).presence_mask ci.val
    let oldValue := if wasPresent then ((s.data si).data pi).data ci else none
    let chunkIsFull := bset ((s.data si).data pi).presence_mask ci.val == ones 64
    let s := s.writeSlot si pi ci v
    -- rotate the journal, then record the diff (storage.rs:211-278)
    let s := s.ensureRollbackTick ct
    let s := { s with rollback := s.rollback.recordSet si pi ci wasPresent oldValue }
    -- count/mask updates at page and storage level (storage.rs:281-329)
    { panicMsg := none, state := s.setMaskPhase si pi chunkIsFull (!wasPresent) }

/-- The chunk-level diff update of `Storage::remove`'s journal part
(storage.rs:484-519). -/
def RollbackChunk.recordRemoveC (rc : RollbackChunk V) (ci : Fin 64)
    (wasCreated : Bool) (oldValue : Option V) : RollbackChunk V :=
  if wasCreated then
    -- add→remove within the tick: no diff, clear all three masks
    { rc with
      created_mask := bclear rc.created_mask ci.val
      changed_mask := bclear rc.changed_mask ci.val
      removed_mask := bclear rc.removed_mask ci.val }
  else
    { rc with
      data :=
        if ¬ bget rc.changed_mask ci.val ∧ ¬ bget rc.removed_mask ci.val
        then Function.update rc.data ci oldValue else rc.data
      created_mask := bclear rc.created_mask ci.val
      changed_mask := bclear rc.changed_mask ci.val
      removed_mask := bset rc.removed_mask ci.val }

/-- The journal-side part of `Storage::remove` (storage.rs:484-541): the
chunk-level diff update followed by the summary-mask update. -/
def RollbackStorage.recordRemove (j : RollbackStorage V) (si pi ci : Fin 64)
    (wasCreated : Bool) (oldValue : Option V) : RollbackStorage V :=
  let rc' := ((j.pageOrNew si).chunkOrNew pi).recordRemoveC ci wasCreated
    oldValue
  if wasCreated then
    let p1 :=
      { j.pageOrNew si with
        data := Function.update (j.pageOrNew si).data pi rc' }
    let j1 := { j with data := Function.update j.data si p1 }
    if bget j1.changed_mask si.val then
      let chunkHasOther :=
        match p1.getChunk pi with
        | some c => (c.created_mask ||| c.changed_mask ||| c.removed_mask) != 0
        | none => false
      if !chunkHasOther then
        let p2 := { p1 with changed_mask := bclear p1.changed_mask pi.val }
        let j2 := { j1 with data := Function.update j1.data si p2 }
        if p2.changed_mask == 0 then
          { j2 with changed_mask := bclear j2.changed_mask si.val }
        else j2
      else j1
    else j1
  else
    let p1 :=
      { j.pageOrNew si with
        data := Function.update (j.pageOrNew si).data pi rc'
        changed_mask := bset (j.pageOrNew si).changed_mask pi.val }
    { j with
      data := Function.update j.data si p1
      changed_mask := bset j.changed_mask si.val }

/-- The leaf part of `Storage::remove` (storage.rs:393-408): read out the
old value, clear the slot's bits, flag the change. -/
def Storage.removeClearSlot (s : Storage V) (si pi ci : Fin 64) : Storage V :=
  let page := s.data si
  let chunk := page.data pi
  let chunk :=
    { chunk with
      presence_mask := bclear chunk.presence_mask ci.val
      fullness_mask := bclear chunk.fullness_mask ci.val
      changed_mask := bset chunk.changed_mask ci.val
      data := Function.update chunk.data ci none }
  let page :=
    { page with
      changed_mask := bset page.changed_mask pi.val
      data := Function.update page.data pi chunk }
  { s with data := Function.update s.data si page }

/-- Page-level part of `Storage::remove` (storage.rs:424-453): masks,
counts, and freeing the chunk when it emptied. -/
def Storage.removePagePhase (s : Storage V) (si pi : Fin 64)
    (chunkHasPresent : Bool) : Storage V :=
  let page := s.data si
  let pPresence :=
    if chunkHasPresent then bset page.presence_mask pi.val
    else bclear page.presence_mask pi.val
  let page :=
    { page with
      presence_mask := pPresence
      fullness_mask := bclear page.fullness_mask pi.val &&& pPresence
      changed_mask := bset page.changed_mask pi.val
      count := page.count - 1 }
  let page :=
    if !chunkHasPresent then
      { page with data := Function.update page.data pi (emptyChunk V) }
    else page
  { s with data := Function.update s.data si page, count := s.count - 1 }

/-- Storage-level part of `Storage::remove` (storage.rs:455-475). -/
def Storage.removeStoragePhase (s : Storage V) (si : Fin 64) : Storage V :=
  let pageHasPresent := (s.data si).presence_mask != 0
  let pageIsFull := (s.data si).count == 64 * 64
  let sPresence :=
    if pageHasPresent then bset s.presence_mask si.val
    else bclear s.presence_mask si.val
  { s with
    presence_mask := sPresence
    fullness_mask :=
      ((if pageIsFull then bset s.fullness_mask si.val
        else bclear s.fullness_mask si.val) &&& sPresence)
    changed_mask := bset s.changed_mask si.val }

/-- `Storage::remove` (storage.rs:363).  Returns whether a value was
removed, together with the new state. -/
def Storage.remove (s : Storage V) (ct i : Nat) : Bool × Storage V :=
  if h : ¬ i < 262144 then (false, s)
  else
    let si := sIdx i (by omega)
    let pi := pIdx i
    let ci := cIdx i
    if ¬ bget s.presence_mask si.val then (false, s)
    else if ¬ bget (s.data si).presence_mask pi.val then (false, s)
    else if ¬ bget ((s.data si).data pi).presence_mask ci.val then (false, s)
    else
      let oldValue := ((s.data si).data pi).data ci
      let s1 := s.removeClearSlot si pi ci
      let chunkHasPresent := ((s1.data si).data pi).presence_mask != 0
      -- add-then-remove within the open tick? (storage.rs:409)
      let wasCreated :=
        if s1.rollback.tick ≠ ct then false
        else
          let rc := (s1.rollback.pageOrNew si).chunkOrNew pi
          bget rc.created_mask ci.val &&
            !(bget rc.changed_mask ci.val || bget rc.removed_mask ci.val)
      let s2 := if wasCreated then s1 else s1.ensureRollbackTick ct
      let s3 := s2.removePagePhase si pi chunkHasPresent
      let pageHasPresent := (s3.data si).presence_mask != 0
      let s4 := s3.removeStoragePhase si
      -- journal chunk and summary updates (storage.rs:484-541)
      let s5 := { s4 with rollback := s4.rollback.recordRemove si pi ci wasCreated oldValue }
      -- free the page when it emptied (storage.rs:544)
      let s6 :=
        if !pageHasPresent then
          { s5 with data := Function.update s5.data si (emptyPage V) }
        else s5
      (true, s6)

/-! ## Entity identifiers and `spawn` (`entity.rs`, `storage.rs:970`) -/

/-- `Entity::new` (entity.rs:13): 21-bit index in the high bits, generation
wrapped to the low 43 bits. -/
def entityNew (index generation : Nat) : Nat :=
  ((index &&& ones 21) <<< 43) ||| (generation &&& ones 43)

/-- `Entity::generation` (entity.rs:43): the low 43 bits. -/
def entityGeneration (e : Nat) : Nat := e &&& ones 43

/-- `Entity::index` (entity.rs:31). -/
def entityIndex (e : Nat) : Nat := (e >>> 43) &&& ones 21

/-- `Entity::none` (entity.rs:21): the reserved all-zero value. -/
def entityNone : Nat := 0

/-- `Storage::<Entity>::first_0_index` (storage.rs:988). -/
def first0Index (mask : Nat) : Option Nat :=
  if mask = ones 64 then none else some (to64 mask)

/-- The generation bump at the top of `spawn` (storage.rs:1004-1008):
wrapping 64-bit increment, with 0 skipped on wrap of the full counter. -/
def spawnGeneration (g : Nat) : Nat :=
  if (g + 1) % 2 ^ 64 = 0 then 1 else (g + 1) % 2 ^ 64

/-- The journal-side part of `Storage::<Entity>::spawn`
(storage.rs:1085-1114). -/
def RollbackStorage.recordSpawn (j : RollbackStorage V) (si pi ci : Fin 64) :
    RollbackStorage V :=
  let rc := (j.pageOrNew si).chunkOrNew pi
  let wasRemoved := bget rc.removed_mask ci.val
  let rc' :=
    if wasRemoved then
      -- remove-then-spawn within the tick is a change; old value already stored
      { rc with
        removed_mask := bclear rc.removed_mask ci.val
        created_mask := bclear rc.created_mask ci.val
        changed_mask := bset rc.changed_mask ci.val }
    else
      { rc with
        removed_mask := bclear rc.removed_mask ci.val
        changed_mask := bclear rc.changed_mask ci.val
        created_mask := bset rc.created_mask ci.val }
  let p1 :=
    { j.pageOrNew si with
      data := Function.update (j.pageOrNew si).data pi rc'
      changed_mask := bset (j.pageOrNew si).changed_mask pi.val }
  { j with
    data := Function.update j.data si p1
    changed_mask := bset j.changed_mask si.val }

/-- `Storage::<Entity>::spawn` (storage.rs:1000).  Entities are modelled by
their `u64` encoding.  Each `?` early return keeps the mutations made so
far (the generation bump, and any nodes allocated along the way); under
the storage invariants the inner searches cannot fail after the top-level
fullness check passes, and an out-of-word search result stops with the
state mutated so far. -/
def Storage.spawn (s : Storage Nat) (ct : Nat) : Option Nat × Storage Nat :=
  -- increment the global generation, wrapping at 64 bits and skipping 0
  let generation := spawnGeneration s.generation
  let s := { s with generation := generation }
  match first0Index s.fullness_mask with
  | none => (none, s)
  | some siN =>
    if hsi : ¬ siN < 64 then (none, s)
    else
      let si : Fin 64 := ⟨siN, by omega⟩
      let s := s.allocPageIfAbsent si
      match first0Index (s.data si).fullness_mask with
      | none => (none, s)
      | some piN =>
        if hpi : ¬ piN < 64 then (none, s)
        else
          let pi : Fin 64 := ⟨piN, by omega⟩
          let s :=
            { s with
              data := Function.update s.data si ((s.data si).allocChunkIfAbsent pi) }
          match first0Index ((s.data si).data pi).presence_mask with
          | none => (none, s)
          | some ciN =>
            if hci : ¬ ciN < 64 then (none, s)
            else
              let ci : Fin 64 := ⟨ciN, by omega⟩
              let chunkIsFull :=
                bset ((s.data si).data pi).presence_mask ciN == ones 64
              let globalIndex := siN * (64 * 64) + piN * 64 + ciN
              let entity := entityNew globalIndex generation
              let s := s.writeSlot si pi ci entity
              -- journal rotation and diff (storage.rs:1083-1114)
              let s := s.ensureRollbackTick ct
              let s := { s with rollback := s.rollback.recordSpawn si pi ci }
              -- counts and masks (storage.rs:1117-1163)
              (some entity, s.setMaskPhase si pi chunkIsFull true)

/-! ## Rollback (`storage.rs:568-817`) and `clear_changed_masks`

The source iterates every mask with the run idiom; here each loop is a
fold over `runBits` of the same mask, and the `if h : k < 64` guards are
the bounds that array indexing enforces in the source (a mask below
`2 ^ 64` only ever produces indices below 64). -/

/-- Apply `g` at index `k` of a 64-entry table (no-op out of range). -/
def updAt (f : Fin 64 → α) (k : Nat) (g : α → α) : Fin 64 → α :=
  if h : k < 64 then Function.update f ⟨k, h⟩ (g (f ⟨k, h⟩)) else f

/-- `Page::clear_changed_masks` (storage.rs:1274). -/
def Page.clearChangedMasks (p : Page V) : Page V :=
  let d := (runBits (p.changed_mask &&& p.presence_mask)).foldl
    (fun d k => updAt d k (fun c => { c with changed_mask := 0 })) p.data
  { p with data := d, changed_mask := 0 }

/-- `Storage::clear_changed_masks` (storage.rs:823). -/
def Storage.clearChangedMasks (s : Storage V) : Storage V :=
  let d := (runBits (s.changed_mask &&& s.presence_mask)).foldl
    (fun d k => updAt d k Page.clearChangedMasks) s.data
  { s with data := d, changed_mask := 0 }

/-- The chronological chain of journals newer than the target
(storage.rs:572-590): sealed journals first (oldest to newest), capped at
32 entries, then the open journal if it still fits. -/
def rollbackChain (prev : List (RollbackStorage V)) (cur : RollbackStorage V)
    (target : Nat) : List (RollbackStorage V) :=
  let pchain := (prev.filter (fun j => target < j.tick)).take 32
  if target < cur.tick ∧ pchain.length < 32 then pchain ++ [cur] else pchain

/-- Journal leaf for `(si, pi)` when both summary bits are set
(storage.rs:686-689). -/
def chainChunk (j : RollbackStorage V) (si pi : Fin 64) :
    Option (RollbackChunk V) :=
  match j.getPage si with
  | some rp => rp.getChunk pi
  | none => none

/-- Restore one slot from the journal's stored old value
(storage.rs:698-712): drop the live value or count the new one, clone the
old value in, set presence and fullness. -/
def restoreSlot (rc : RollbackChunk V) (st : Chunk V × Nat × Nat) (k : Nat) :
    Chunk V × Nat × Nat :=
  if h : k < 64 then
    let (c, pc, sc) := st
    let (pc, sc) :=
      if bget c.presence_mask k then (pc, sc)
      else (min (pc + 1) (2 ^ 32 - 1), min (sc + 1) (2 ^ 32 - 1))
    let c :=
      { c with
        data := Function.update c.data ⟨k, h⟩ (rc.data ⟨k, h⟩)
        presence_mask := bset c.presence_mask k
        fullness_mask := bset c.fullness_mask k }
    (c, pc, sc)
  else st

/-- Remove one slot that only existed after the target tick
(storage.rs:720-733). -/
def removePendingSlot (st : Chunk V × Nat × Nat) (k : Nat) :
    Chunk V × Nat × Nat :=
  if h : k < 64 then
    let (c, pc, sc) := st
    let was := bget c.presence_mask k
    let c :=
      { c with
        presence_mask := bclear c.presence_mask k
        fullness_mask := bclear c.fullness_mask k
        data := if was then Function.update c.data ⟨k, h⟩ none else c.data }
    if was then (c, pc - 1, sc - 1) else (c, pc, sc)
  else st

/-- One journal of the per-chunk scan (storage.rs:684-696): restore the
first stored old value per slot (`processed`) and collect slots first
seen as `created` (`pending_remove`). -/
def chunkScanStep (si pi : Fin 64)
    (acc : (Chunk V × Nat × Nat) × Nat × Nat) (j : RollbackStorage V) :
    (Chunk V × Nat × Nat) × Nat × Nat :=
  match chainChunk j si pi with
  | some rc =>
    let st := acc.1
    let processed := acc.2.1
    let pending := acc.2.2
    let toRestore := (rc.changed_mask ||| rc.removed_mask) &&&
      compl64 processed
    let st := (runBits toRestore).foldl (restoreSlot rc) st
    let processed := processed ||| toRestore
    let pending := pending ||| (rc.created_mask &&& compl64 processed)
    (st, processed, pending)
  | none => acc

/-- Per-chunk rollback (storage.rs:682-735): scan the chain oldest to
newest, then apply the collected removals in one pass.  The state carries
the chunk together with the page and storage counts, which the source
updates in place. -/
def chunkRollback (chain : List (RollbackStorage V)) (si pi : Fin 64)
    (st : Chunk V × Nat × Nat) : Chunk V × Nat × Nat :=
  let step := chain.foldl (chunkScanStep si pi) (st, 0, 0)
  (runBits step.2.2).foldl removePendingSlot step.1

/-- Per-page rollback (storage.rs:615-771): union of the chain's page
masks, chunk allocation on demand, per-chunk rollback, then the chunk
free / fullness fix.  Threads the storage count through. -/
def pageRollback (chain : List (RollbackStorage V)) (si : Fin 64)
    (page : Page V) (sc : Nat) : Page V × Nat :=
  let unionPageMask := chain.foldl
    (fun u j =>
      match j.getPage si with
      | some rp => u ||| rp.changed_mask
      | none => u) 0
  (runBits unionPageMask).foldl
    (fun (acc : Page V × Nat) k =>
      if h : k < 64 then
        let (page, sc) := acc
        let pi : Fin 64 := ⟨k, h⟩
        let page :=
          if bget page.presence_mask k then page
          else
            { page with
              data := Function.update page.data pi (emptyChunk V)
              presence_mask := bset page.presence_mask k }
        let cr := chunkRollback chain si pi (page.data pi, page.count, sc)
        let c := cr.1
        let page :=
          { page with data := Function.update page.data pi c, count := cr.2.1 }
        let page :=
          if bget page.presence_mask k then
            if c.presence_mask == 0 then
              { page with
                data := Function.update page.data pi (emptyChunk V)
                presence_mask := bclear page.presence_mask k
                fullness_mask := bclear page.fullness_mask k }
            else if c.presence_mask == ones 64 then
              { page with fullness_mask := bset page.fullness_mask k }
            else { page with fullness_mask := bclear page.fullness_mask k }
          else page
        (page, cr.2.2)
      else acc)
    (page, sc)

/-- `Storage::rollback` (storage.rs:568).  Restores every slot recorded in
the chained journals, restores the generation counter saved in the open
journal, clears the tree's changed masks, re-tags the open journal with
the target tick, and prunes every sealed journal newer than the target. -/
def Storage.rollbackTo (s : Storage V) (target : Nat) : Storage V :=
  let chain := rollbackChain s.prev s.rollback target
  let unionStorageMask := chain.foldl (fun u j => u ||| j.changed_mask) 0
  let s := (runBits unionStorageMask).foldl
    (fun (s : Storage V) k =>
      if h : k < 64 then
        let si : Fin 64 := ⟨k, h⟩
        let s :=
          if bget s.presence_mask k then s
          else
            { s with
              data := Function.update s.data si (emptyPage V)
              presence_mask := bset s.presence_mask k }
        let pr := pageRollback chain si (s.data si) s.count
        let page := pr.1
        let s := { s with data := Function.update s.data si page, count := pr.2 }
        if page.presence_mask == 0 then
          { s with
            data := Function.update s.data si (emptyPage V)
            presence_mask := bclear s.presence_mask k
            fullness_mask := bclear s.fullness_mask k }
        else if page.count == 64 * 64 then
          { s with fullness_mask := bset s.fullness_mask k }
        else { s with fullness_mask := bclear s.fullness_mask k }
      else s)
    s
  let s := { s with generation := s.rollback.generation_at_tick_start }
  let s := s.clearChangedMasks
  let s := { s with fullness_mask := s.fullness_mask &&& s.presence_mask }
  let s := { s with rollback := { s.rollback with tick := target } }
  { s with prev := s.prev.filter (fun j => ¬ target < j.tick) }

/-! ## Structural invariants (spec §3 I1–I6, `Storage::verify_invariants`) -/

/-- Occupied slots of a 64-bit mask. -/
def popcount64 (m : Nat) : Nat :=
  ((List.range 64).filter (fun k => m.testBit k)).length

/-- Leaf invariants: I2 (`fullness = presence`), I6 (a slot is initialized
iff its presence bit is set), and the mask is a `u64`. -/
def Chunk.inv (c : Chunk V) : Prop :=
  c.presence_mask < 2 ^ 64 ∧
  c.fullness_mask = c.presence_mask ∧
  ∀ k : Fin 64, (c.data k).isSome = bget c.presence_mask k.val

/-- Page invariants: I1, I3 (fullness bit ⇔ chunk saturated), I4 (presence
bit ⇔ chunk occupied), I5 (count = Σ chunk populations), leaves
recursively. -/
def Page.inv (p : Page V) : Prop :=
  p.presence_mask < 2 ^ 64 ∧ p.fullness_mask < 2 ^ 64 ∧
  p.fullness_mask &&& compl64 p.presence_mask = 0 ∧
  (∀ pi : Fin 64,
    (p.data pi).inv ∧
    (bget p.presence_mask pi.val ↔ (p.data pi).presence_mask ≠ 0) ∧
    (bget p.fullness_mask pi.val ↔ (p.data pi).presence_mask = ones 64)) ∧
  p.count = ∑ pi : Fin 64, popcount64 (p.data pi).presence_mask

/-- Storage invariants: I1, I3 (fullness bit ⇔ page saturated, 64·64
slots), I4 (presence bit ⇔ page occupied), I5 (count = Σ page counts),
pages recursively. -/
def Storage.inv (s : Storage V) : Prop :=
  s.presence_mask < 2 ^ 64 ∧ s.fullness_mask < 2 ^ 64 ∧
  s.fullness_mask &&& compl64 s.presence_mask = 0 ∧
  (∀ si : Fin 64,
    (s.data si).inv ∧
    (bget s.presence_mask si.val ↔ (s.data si).count ≠ 0) ∧
    (bget s.fullness_mask si.val ↔ (s.data si).count = 64 * 64)) ∧
  s.count = ∑ si : Fin 64, (s.data si).count

/-- Well-formedness of a journal needed by rollback: whenever a leaf
`changed`/`removed` bit is set, an old value is stored (spec J2), and the
summary bits cover the leaf bits (spec J3). -/
def RollbackStorage.inv (j : RollbackStorage V) : Prop :=
  ∀ si pi : Fin 64,
    let rc := (j.data si).data pi
    (∀ k : Fin 64,
      ((bget rc.changed_mask k.val || bget rc.removed_mask k.val) →
        (rc.data k).isSome) ∧
      ((bget rc.created_mask k.val || bget rc.changed_mask k.val ||
          bget rc.removed_mask k.val) →
        (bget ((j.data si).changed_mask) pi.val ∧ bget j.changed_mask si.val)))

/-! ## Query enumeration (`decs_macros/src/lib.rs`, generated `run`)

The generated `run` walks three nested mask loops.  `required` is the
list of required storages (always nonempty, head = `storage_0`),
`excluded` the `None=[...]` storages, and `changedReq` marks which of the
required storages carry a `Changed=[...]` constraint (the macro folds
`Changed` types into the required set, lib.rs:190-196). -/

/-- Top-level mask (lib.rs:525): AND of required `presence_mask`, minus
the OR of excluded `fullness_mask`. -/
def queryStorageMask (required excluded : List (Storage V)) : Nat :=
  match required with
  | [] => 0
  | r0 :: rest =>
    (rest.foldl (fun m t => m &&& t.presence_mask) r0.presence_mask) &&&
      compl64 (excluded.foldl (fun m t => m ||| t.fullness_mask) 0)

/-- Page-level mask (lib.rs:533-538): AND of required page presences, AND
of changed-required page changed masks, minus the OR of excluded page
fullness. -/
def queryPageMask (required excluded : List (Storage V))
    (changedReq : List Bool) (si : Fin 64) : Nat :=
  match required with
  | [] => 0
  | r0 :: rest =>
    let m := (rest.foldl (fun m t => m &&& (t.data si).presence_mask)
      (r0.data si).presence_mask)
    let m := ((r0 :: rest).zip changedReq).foldl
      (fun m tc => if tc.2 then m &&& (tc.1.data si).changed_mask else m) m
    m &&& compl64 (excluded.foldl (fun m t => m ||| (t.data si).fullness_mask) 0)

/-- Item-level mask (lib.rs:549-557): AND of required chunk presences, AND
of changed-required chunk changed masks, minus the OR of excluded chunk
presences. -/
def queryItemMask (required excluded : List (Storage V))
    (changedReq : List Bool) (si pi : Fin 64) : Nat :=
  match required with
  | [] => 0
  | r0 :: rest =>
    let m := (rest.foldl (fun m t => m &&& ((t.data si).data pi).presence_mask)
      ((r0.data si).data pi).presence_mask)
    let m := (required.zip changedReq).foldl
      (fun m tc => if tc.2 then m &&& ((tc.1.data si).data pi).changed_mask else m) m
    m &&& compl64
      (excluded.foldl (fun m t => m ||| ((t.data si).data pi).presence_mask) 0)

/-- The slot indices visited by the generated `System::run`
(lib.rs:522-583), in visit order. -/
def queryRun (required excluded : List (Storage V)) (changedReq : List Bool) :
    List Nat :=
  (runBits (queryStorageMask required excluded)).flatMap (fun sk =>
    if hs : sk < 64 then
      let si : Fin 64 := ⟨sk, hs⟩
      (runBits (queryPageMask required excluded changedReq si)).flatMap (fun pk =>
        if hp : pk < 64 then
          let pi : Fin 64 := ⟨pk, hp⟩
          (runBits (queryItemMask required excluded changedReq si pi)).map
            (fun ck => sk * 4096 + pk * 64 + ck)
        else [])
    else [])

/-- Leaf presence of slot `i` in a storage (what `Get` observes). -/
def slotPresent (t : Storage V) (i : Nat) : Bool :=
  if h : i < 262144 then
    bget ((t.data (sIdx i h)).data (pIdx i)).presence_mask (i % 64)
  else false

/-- Leaf changed flag of slot `i`. -/
def slotChanged (t : Storage V) (i : Nat) : Bool :=
  if h : i < 262144 then
    bget ((t.data (sIdx i h)).data (pIdx i)).changed_mask (i % 64)
  else false

/-- The predicate of P6: present in every required storage, absent in
every excluded one, changed in every changed-required one. -/
def queryPred (required excluded : List (Storage V)) (changedReq : List Bool)
    (i : Nat) : Bool :=
  required.all (fun t => slotPresent t i) &&
  excluded.all (fun t => !slotPresent t i) &&
  (required.zip changedReq).all (fun tc => !tc.2 || slotChanged tc.1 i)

/-- Summary consistency a populated required storage provides: a chunk
with a present slot is flagged in the page presence and the page in the
storage presence. -/
def reqSummary (t : Storage V) : Prop :=
  ∀ si pi : Fin 64, ((t.data si).data pi).presence_mask ≠ 0 →
    bget (t.data si).presence_mask pi.val ∧ bget t.presence_mask si.val

/-- Summary consistency for a changed-required storage: a chunk holding a
changed slot is flagged in the page's changed mask (the generated `run`
prunes with page-level changed masks only, lib.rs:385-395). -/
def chgSummary (t : Storage V) : Prop :=
  ∀ si pi : Fin 64, ((t.data si).data pi).changed_mask ≠ 0 →
    bget (t.data si).changed_mask pi.val

/-- Summary soundness an excluded storage provides: a fullness bit only
over fully saturated subtrees. -/
def exclFull (t : Storage V) : Prop :=
  ∀ si : Fin 64,
    (bget t.fullness_mask si.val →
      ∀ pi k : Fin 64, bget ((t.data si).data pi).presence_mask k.val) ∧
    ∀ pi : Fin 64, bget (t.data si).fullness_mask pi.val →
      ∀ k : Fin 64, bget ((t.data si).data pi).presence_mask k.val

/-- The `u64` bounds the masks of a real storage satisfy. -/
def maskWF (t : Storage V) : Prop :=
  t.presence_mask < 2 ^ 64 ∧
  ∀ si : Fin 64, (t.data si).presence_mask < 2 ^ 64 ∧
    (t.data si).changed_mask < 2 ^ 64 ∧
    ∀ pi : Fin 64, ((t.data si).data pi).presence_mask < 2 ^ 64 ∧
      ((t.data si).data pi).changed_mask < 2 ^ 64

instance (t : Storage V) : Decidable (reqSummary t) := by
  unfold reqSummary
  exact inferInstance

instance (t : Storage V) : Decidable (chgSummary t) := by
  unfold chgSummary
  exact inferInstance

instance (t : Storage V) : Decidable (exclFull t) := by
  unfold exclFull
  exact inferInstance

instance (t : Storage V) : Decidable (maskWF t) := by
  unfold maskWF
  exact inferInstance

/-! ## Scheduler (`scheduler.rs`)

Systems and groups are identified by their `TypeId`, modelled as `Nat`.
`HashMap` iteration order in the source only affects the order in which
edges are discovered, never the resulting edge set (edges are
deduplicated), nor wavefront membership; the model fixes a canonical
discovery order (type ids in order of first appearance). -/

/-- A registered system: its own type id, declared reads/writes (component
type ids), before/after targets (system type ids) and optional parent
group (group type id). -/
structure SysDecl where
  sid : Nat
  reads : List Nat
  writes : List Nat
  before : List Nat
  after : List Nat
  parent : Option Nat

/-- A scheduling group: its type id, before/after targets (group type ids)
and optional parent group. -/
structure GroupDecl where
  gid : Nat
  gbefore : List Nat
  gafter : List Nat
  gparent : Option Nat

/-- Read/write conflict between two systems (scheduler.rs:75-89). -/
def hasConflict (a b : SysDecl) : Bool :=
  a.writes.any (fun t => b.writes.contains t) ||
  a.writes.any (fun t => b.reads.contains t) ||
  b.writes.any (fun t => a.reads.contains t)

instance : Inhabited SysDecl :=
  ⟨{ sid := 0, reads := [], writes := [], before := [], after := []
     parent := none }⟩

/-- Indices of the systems whose type id is `t` (scheduler.rs:57-60), in
registration order. -/
def indexByType (sys : List SysDecl) (t : Nat) : List Nat :=
  (List.range sys.length).filter (fun i => (sys.getD i default).sid == t)

def findGroup (env : List GroupDecl) (g : Nat) : Option GroupDecl :=
  env.find? (fun d => d.gid == g)

/-- Ancestor chain of a group (scheduler.rs:127-139); the fuel bounds the
parent chain by the environment size (the source would loop forever on a
cyclic parent chain). -/
def ancestorsFrom (env : List GroupDecl) : Nat → Nat → List GroupDecl
  | _, 0 => []
  | g, fuel + 1 =>
    match findGroup env g with
    | some d =>
      d :: (match d.gparent with
            | some p => ancestorsFrom env p fuel
            | none => [])
    | none => []

/-- All group ancestors of a system. -/
def sysGroups (env : List GroupDecl) (s : SysDecl) : List GroupDecl :=
  match s.parent with
  | some g => ancestorsFrom env g (env.length + 1)
  | none => []

/-- Member systems of a group, `systems_by_group` (scheduler.rs:125-140). -/
def systemsByGroup (env : List GroupDecl) (sys : List SysDecl) (g : Nat) :
    List Nat :=
  (List.range sys.length).filter
    (fun i => (sysGroups env (sys.getD i default)).any (fun d => d.gid == g))

/-- `DependencyGraph::add_edge` (scheduler.rs:239): bounds-checked and
deduplicated. -/
def addEdge (n : Nat) (es : List (Nat × Nat)) (e : Nat × Nat) :
    List (Nat × Nat) :=
  if e.1 < n ∧ e.2 < n ∧ ¬ es.contains e then es ++ [e] else es

/-- The structural invariant `add_edge` maintains: the edge list is
duplicate-free and every endpoint is a valid system index. -/
def edgeInv (n : Nat) (es : List (Nat × Nat)) : Prop :=
  es.Nodup ∧ ∀ e ∈ es, e.1 < n ∧ e.2 < n

/-- Invariant of the `group edges × constrained edges` accumulator: the
edge list is well-formed and every constrained edge was also recorded in
the graph. -/
@[reducible] def gePairInv (n : Nat)
    (acc : List (Nat × Nat) × List (Nat × Nat)) : Prop :=
  edgeInv n acc.1 ∧ ∀ c ∈ acc.2, c ∈ acc.1

/-- System-level before/after edges, added only on conflict
(scheduler.rs:92-111). -/
def beforeAfterEdges (sys : List SysDecl) (es : List (Nat × Nat)) :
    List (Nat × Nat) :=
  (List.range sys.length).foldl
    (fun es i =>
      let a := sys.getD i default
      let es := a.before.foldl
        (fun es bt =>
          (indexByType sys bt).foldl
            (fun es j =>
              if i ≠ j ∧ hasConflict a (sys.getD j default) then
                addEdge sys.length es (i, j)
              else es) es) es
      a.after.foldl
        (fun es at_ =>
          (indexByType sys at_).foldl
            (fun es j =>
              if i ≠ j ∧ hasConflict (sys.getD j default) a then
                addEdge sys.length es (j, i)
              else es) es) es) es

/-- Group-implied edges, also the `constrained_edges` set
(scheduler.rs:141-166). -/
def groupEdges (env : List GroupDecl) (sys : List SysDecl)
    (es : List (Nat × Nat)) : List (Nat × Nat) × List (Nat × Nat) :=
  (List.range sys.length).foldl
    (fun (acc : List (Nat × Nat) × List (Nat × Nat)) i =>
      let a := sys.getD i default
      (sysGroups env a).foldl
        (fun acc g =>
          let acc := g.gbefore.foldl
            (fun (acc : List (Nat × Nat) × List (Nat × Nat)) bt =>
              (systemsByGroup env sys bt).foldl
                (fun acc j =>
                  if i ≠ j ∧ hasConflict a (sys.getD j default) then
                    (addEdge sys.length acc.1 (i, j), acc.2 ++ [(i, j)])
                  else acc) acc) acc
          g.gafter.foldl
            (fun (acc : List (Nat × Nat) × List (Nat × Nat)) at_ =>
              (systemsByGroup env sys at_).foldl
                (fun acc j =>
                  if i ≠ j ∧ hasConflict (sys.getD j default) a then
                    (addEdge sys.length acc.1 (j, i), acc.2 ++ [(j, i)])
                  else acc) acc) acc) acc)
    (es, [])

/-- Component type ids written by some system, in first-appearance order
(the `writes_by_type` key set). -/
def writeTypes (sys : List SysDecl) : List Nat :=
  (sys.flatMap (fun s => s.writes)).dedup

/-- Writers / readers of a component type, in registration order
(scheduler.rs:113-122). -/
def writersOf (sys : List SysDecl) (t : Nat) : List Nat :=
  (List.range sys.length).filter (fun i => (sys.getD i default).writes.contains t)

def readersOf (sys : List SysDecl) (t : Nat) : List Nat :=
  (List.range sys.length).filter (fun i => (sys.getD i default).reads.contains t)

/-- Writer→reader edges plus the writer serialization chain, skipping
edges that would contradict a recorded group edge (scheduler.rs:169-191). -/
def writerEdges (sys : List SysDecl) (constrained : List (Nat × Nat))
    (es : List (Nat × Nat)) : List (Nat × Nat) :=
  (writeTypes sys).foldl
    (fun es t =>
      let writers := writersOf sys t
      let readers := readersOf sys t
      let es := writers.foldl
        (fun es w =>
          readers.foldl
            (fun es r =>
              if w ≠ r ∧ ¬ constrained.contains (r, w) then
                addEdge sys.length es (w, r)
              else es) es) es
      if writers.length > 1 then
        (List.range (writers.length - 1)).foldl
          (fun es k =>
            let a := writers.getD k 0
            let b := writers.getD (k + 1) 0
            if ¬ constrained.contains (b, a) then addEdge sys.length es (a, b)
            else es) es
      else es) es

/-- The full edge set of `Scheduler::compute_wavefronts`
(scheduler.rs:47-193). -/
def buildEdges (env : List GroupDecl) (sys : List SysDecl) :
    List (Nat × Nat) :=
  let es := beforeAfterEdges sys []
  let ge := groupEdges env sys es
  writerEdges sys ge.2 ge.1

/-- Successor list of `u` in the dependency graph (`adjacency[u]`,
scheduler.rs:239-243). -/
def adjOf (edges : List (Nat × Nat)) (u : Nat) : List Nat :=
  (edges.filter (fun e => e.1 == u)).map (fun e => e.2)

/-- `in_degree[v]` as maintained by `add_edge` (scheduler.rs:239-243). -/
def indegOf (edges : List (Nat × Nat)) (v : Nat) : Nat :=
  (edges.filter (fun e => e.2 == v)).length

/-- Successor decrement of Kahn's algorithm (scheduler.rs:277-283). -/
def kahnDec (acc2 : (Nat → Nat) × List Nat) (v : Nat) : (Nat → Nat) × List Nat :=
  if acc2.1 v > 0 then
    ((fun x => if x = v then acc2.1 v - 1 else acc2.1 x),
     if acc2.1 v - 1 = 0 then acc2.2 ++ [v] else acc2.2)
  else acc2

/-- Processing of one popped node (scheduler.rs:274-285): emit it into the
level and decrement its successors. -/
def kahnStep (adj : Nat → List Nat)
    (acc : List Nat × (Nat → Nat) × List Nat) (node : Nat) :
    List Nat × (Nat → Nat) × List Nat :=
  let step := (adj node).foldl kahnDec (acc.2.1, acc.2.2)
  (acc.1 ++ [node], step.1, step.2)

/-- One round of Kahn's algorithm (scheduler.rs:271-289): pop the whole
queue, emit it as a level, decrement successors and collect the next
queue. -/
def kahnRound (indeg : Nat → Nat) (adj : Nat → List Nat) (queue : List Nat) :
    List Nat × (Nat → Nat) × List Nat :=
  queue.foldl (kahnStep adj) ([], indeg, [])

/-- The `while visited < n` loop of `topological_levels`
(scheduler.rs:257-290).  The Boolean records whether the queue ran dry
with nodes unvisited (the cyclic remainder was emitted as one terminal
level); the fuel `n + 1` always suffices since every non-terminal
iteration visits at least one node. -/
def kahnLoop (n : Nat) (adj : Nat → List Nat) :
    Nat → (Nat → Nat) → List Nat → Nat → List (List Nat) →
      List (List Nat) × Bool
  | 0, _, _, _, levels => (levels, true)
  | fuel + 1, indeg, queue, visited, levels =>
    if visited < n then
      if queue.isEmpty then
        let rem := (List.range n).filter (fun i => indeg i > 0)
        (if rem.isEmpty then levels else levels ++ [rem], true)
      else
        let r := kahnRound indeg adj queue
        kahnLoop n adj fuel r.2.1 r.2.2 (visited + queue.length)
          (if r.1.isEmpty then levels else levels ++ [r.1])
    else (levels, false)

/-- `DependencyGraph::topological_levels` (scheduler.rs:248).  Returns the
wavefronts and whether a cyclic remainder was emitted. -/
def topologicalLevels (n : Nat) (edges : List (Nat × Nat)) :
    List (List Nat) × Bool :=
  kahnLoop n (adjOf edges) (n + 1) (indegOf edges)
    ((List.range n).filter (fun i => indegOf edges i = 0)) 0 []

/-- `Scheduler::compute_wavefronts` (scheduler.rs:47). -/
def computeWavefronts (env : List GroupDecl) (sys : List SysDecl) :
    List (List Nat) × Bool :=
  topologicalLevels sys.length (buildEdges env sys)

/-- Index of the first wavefront containing system `v` (observation
function on the scheduler output). -/
def wavefrontIdx (L : List (List Nat)) (v : Nat) : Nat :=
  L.findIdx (fun l => l.contains v)

/-- Number of edges into `v` whose source has not yet been processed
(the quantity `in_degree[v]` tracks during `topological_levels`). -/
def countRem (edges : List (Nat × Nat)) (P : List Nat) (v : Nat) : Nat :=
  edges.countP (fun e => e.2 == v && !(decide (e.1 ∈ P)))

/-- Three systems that all write component type 10; the third sits in
group 100 which is declared `Before = [group 200]`, the second in group
200.  The group edge (2,1) is recorded as constrained, so the writer
chain skips its (1,2) link. -/
def threeWriterSystems : List SysDecl :=
  [{ sid := 1, reads := [], writes := [10], before := [], after := []
     parent := none },
   { sid := 2, reads := [], writes := [10], before := [], after := []
     parent := some 200 },
   { sid := 3, reads := [], writes := [10], before := [], after := []
     parent := some 100 }]

def threeWriterGroups : List GroupDecl :=
  [{ gid := 100, gbefore := [200], gafter := [], gparent := none },
   { gid := 200, gbefore := [], gafter := [], gparent := none }]

/-! ## Operation sequences across ticks (drivers for P2–P4) -/

/-- A storage operation. -/
inductive Op (V : Type) where
  | set (i : Nat) (v : V)
  | del (i : Nat)

/-- Apply one operation at tick `ct` (a panicking `set` is arrested at the
panic state, which the valid-index hypotheses rule out). -/
def Storage.applyOp (s : Storage V) (ct : Nat) : Op V → Storage V
  | .set i v => (Storage.set s ct i v).state
  | .del i => (Storage.remove s ct i).2

/-- Run the operations of one tick, then every tick of a program in
order. -/
def Storage.runTick (s : Storage V) (p : Nat × List (Op V)) : Storage V :=
  p.2.foldl (fun s o => s.applyOp p.1 o) s

def Storage.runProg (s : Storage V) (prog : List (Nat × List (Op V))) :
    Storage V :=
  prog.foldl Storage.runTick s

/-- Reference per-slot semantics of one operation. -/
def applyPure (st : Nat → Option V) : Op V → Nat → Option V
  | .set i v, j => if i < 262144 ∧ j = i then some v else st j
  | .del i, j => if i < 262144 ∧ j = i then none else st j

def runPureTick (st : Nat → Option V) (p : Nat × List (Op V)) :
    Nat → Option V :=
  p.2.foldl applyPure st

/-- The per-slot state at the end of tick `t`: all operations of ticks
`≤ t` applied to the empty state. -/
def endAt (prog : List (Nat × List (Op V))) (t : Nat) : Nat → Option V :=
  (prog.filter (fun p => p.1 ≤ t)).foldl runPureTick (fun _ => none)

/-- Ticks strictly increasing and positive, all indices in range. -/
def ProgWF (prog : List (Nat × List (Op V))) : Prop :=
  List.Chain' (· < ·) (0 :: prog.map (fun p => p.1)) ∧
  ∀ p ∈ prog, ∀ o ∈ p.2,
    match o with
    | Op.set i _ => i < 262144
    | Op.del i => i < 262144

/-! ## Per-slot rollback bookkeeping

Observation functions and the invariant pack used to verify `rollback`
(P2–P4).  Everything is per-slot: `slotObs` is what `get` reads from a
chunk, `chainOutcome` is the first-wins outcome of a journal chain for
one slot, and `Tracks` relates a live storage to the per-slot history of
the executed ticks. -/

/-- The value `get` observes in a chunk slot. -/
def slotObs (c : Chunk V) (k : Fin 64) : Option V :=
  if bget c.presence_mask k.val then c.data k else none

/-- Leaf record bits of a journal at global slot `i`. -/
def recCr (j : RollbackStorage V) (i : Nat) (h : i < 262144) : Bool :=
  bget (((j.data (sIdx i h)).data (pIdx i)).created_mask) (i % 64)

def recCh (j : RollbackStorage V) (i : Nat) (h : i < 262144) : Bool :=
  bget (((j.data (sIdx i h)).data (pIdx i)).changed_mask) (i % 64)

def recRm (j : RollbackStorage V) (i : Nat) (h : i < 262144) : Bool :=
  bget (((j.data (sIdx i h)).data (pIdx i)).removed_mask) (i % 64)

/-- The stored old value of a journal at global slot `i`. -/
def recVal (j : RollbackStorage V) (i : Nat) (h : i < 262144) : Option V :=
  ((j.data (sIdx i h)).data (pIdx i)).data (cIdx i)

/-- Spec §4.2: meaning of one journal's record at one slot, relative to
the state `a` at the journal's tick start and the state `b` at its end
(or the current state, for the open journal). -/
def recSpec (j : RollbackStorage V) (i : Nat) (h : i < 262144)
    (a b : Option V) : Prop :=
  (¬ recCr j i h ∧ ¬ recCh j i h ∧ ¬ recRm j i h → b = a) ∧
  (recCr j i h → a = none ∧ b.isSome = true) ∧
  (recCh j i h → recVal j i h = a ∧ a.isSome = true ∧ b.isSome = true) ∧
  (recRm j i h → recVal j i h = a ∧ a.isSome = true ∧ b = none)

/-- Journal well-formedness: masks are 64-bit, each slot is in at most one
of the three states, `changed`/`removed` slots store a value (J2), leaf
diffs are covered by the summary bits (J3), and each summary bit is
justified by a diff below it (exact summaries). -/
def RollbackStorage.wfJ (j : RollbackStorage V) : Prop :=
  j.changed_mask < 2 ^ 64 ∧
  ∀ si : Fin 64,
    (j.data si).changed_mask < 2 ^ 64 ∧
    (bget j.changed_mask si.val →
      ∃ pi : Fin 64, bget (j.data si).changed_mask pi.val) ∧
    ∀ pi : Fin 64,
      ((j.data si).data pi).created_mask < 2 ^ 64 ∧
      ((j.data si).data pi).changed_mask < 2 ^ 64 ∧
      ((j.data si).data pi).removed_mask < 2 ^ 64 ∧
      (bget (j.data si).changed_mask pi.val →
        ∃ k : Fin 64,
          bget ((j.data si).data pi).created_mask k.val ∨
          bget ((j.data si).data pi).changed_mask k.val ∨
          bget ((j.data si).data pi).removed_mask k.val) ∧
      ∀ k : Fin 64,
        (bget ((j.data si).data pi).created_mask k.val →
          ¬ bget ((j.data si).data pi).changed_mask k.val ∧
          ¬ bget ((j.data si).data pi).removed_mask k.val) ∧
        (bget ((j.data si).data pi).changed_mask k.val →
          ¬ bget ((j.data si).data pi).removed_mask k.val) ∧
        ((bget ((j.data si).data pi).changed_mask k.val ∨
          bget ((j.data si).data pi).removed_mask k.val) →
          (((j.data si).data pi).data k).isSome = true) ∧
        ((bget ((j.data si).data pi).created_mask k.val ∨
          bget ((j.data si).data pi).changed_mask k.val ∨
          bget ((j.data si).data pi).removed_mask k.val) →
          bget (j.data si).changed_mask pi.val ∧
          bget j.changed_mask si.val)

/-- Tree-side glue: absent interior nodes are the empty nodes (the
source's sentinel pointers) and leaf data is initialized exactly on
presence (I6). -/
def Storage.treeWF (s : Storage V) : Prop :=
  ∀ si : Fin 64,
    (¬ bget s.presence_mask si.val → s.data si = emptyPage V) ∧
    ∀ pi : Fin 64,
      (¬ bget (s.data si).presence_mask pi.val →
        (s.data si).data pi = emptyChunk V) ∧
      ∀ k : Fin 64,
        (((s.data si).data pi).data k).isSome =
          bget ((s.data si).data pi).presence_mask k.val

/-- One executed tick in the per-slot history: the state at its start,
its tick number, and the state at its end. -/
structure TickSpan (V : Type) where
  pre : Nat → Option V
  tk : Nat
  post : Nat → Option V

instance : Inhabited (TickSpan V) :=
  ⟨{ pre := fun _ => none, tk := 0, post := fun _ => none }⟩

/-- Journal-side invariant: the open journal and the sealed deque
classified against the per-slot history of executed ticks. -/
def JTrack (rb : RollbackStorage V) (prev : List (RollbackStorage V))
    (hist : List (TickSpan V)) (st0 stc : Nat → Option V) (tcur : Nat) :
    Prop :=
  rb.tick = tcur ∧
  rb.wfJ ∧
  (∀ i : Nat, ∀ h : i < 262144, recSpec rb i h (st0 i) (stc i)) ∧
  prev.length = hist.length ∧
  (∀ k : Nat, k < hist.length →
    (prev.getD k (freshRollback V 0)).tick = (hist.getD k default).tk ∧
    (prev.getD k (freshRollback V 0)).wfJ ∧
    (∀ i : Nat, ∀ h : i < 262144,
      recSpec (prev.getD k (freshRollback V 0)) i h
        ((hist.getD k default).pre i) ((hist.getD k default).post i))) ∧
  (∀ k : Nat, k + 1 < hist.length → ∀ i : Nat, i < 262144 →
    (hist.getD k default).post i = (hist.getD (k + 1) default).pre i) ∧
  (hist ≠ [] → ∀ i : Nat, i < 262144 →
    (hist.getD (hist.length - 1) default).post i = st0 i) ∧
  List.Chain' (· < ·) (hist.map (fun e => e.tk) ++ [tcur])

/-- The rollback invariant pack: current contents, tree glue, and the
journals (open and sealed) classified against their ticks. -/
def Tracks (s : Storage V) (hist : List (TickSpan V))
    (st0 stc : Nat → Option V) (tcur : Nat) : Prop :=
  (∀ i : Nat, ∀ h : i < 262144, s.get i = stc i) ∧
  s.treeWF ∧
  JTrack s.rollback s.prev hist st0 stc tcur

/-- First-wins per-slot outcome of applying a journal chain (oldest
first) to a slot currently holding `cur` (spec §4.3). -/
def chainOutcome (chain : List (RollbackStorage V)) (i : Nat)
    (h : i < 262144) (cur : Option V) : Option V :=
  match chain with
  | [] => cur
  | j :: rest =>
    if recCr j i h then none
    else if recCh j i h || recRm j i h then recVal j i h
    else chainOutcome rest i h cur

/-- Executable validity of an operation list against a per-slot state:
indices in range and every `Remove` targets a live slot. -/
def opsOK (stc : Nat → Option V) : List (Op V) → Bool
  | [] => true
  | o :: rest =>
    (match o with
     | Op.set i _ => decide (i < 262144)
     | Op.del i => decide (i < 262144) && (stc i).isSome) &&
    opsOK (applyPure stc o) rest

/-- Executable validity of a program: ticks nonempty and each operation
valid in sequence. -/
def progOK (stc : Nat → Option V) : List (Nat × List (Op V)) → Bool
  | [] => true
  | p :: rest =>
    !p.2.isEmpty && opsOK stc p.2 && progOK (runPureTick stc p) rest

/-- One executed tick of the per-slot history, mirroring
`ensure_rollback_tick`: on a tick change the open span is sealed (front
evicted past 64 entries) and a new span opens. -/
def progStep (acc : List (TickSpan V) × (Nat → Option V) ×
    (Nat → Option V) × Nat) (p : Nat × List (Op V)) :
    List (TickSpan V) × (Nat → Option V) × (Nat → Option V) × Nat :=
  if acc.2.2.2 = p.1 then (acc.1, acc.2.1, runPureTick acc.2.2.1 p, acc.2.2.2)
  else
    ((acc.1 ++ [({ pre := acc.2.1, tk := acc.2.2.2, post := acc.2.2.1 } :
        TickSpan V)]).drop (acc.1.length + 1 - 64), acc.2.2.1,
      runPureTick acc.2.2.1 p, p.1)

/-- The per-slot history the executed program leaves behind: sealed spans,
the open tick's start state, the current state, and the open tick. -/
def progSpans (prog : List (Nat × List (Op V))) :
    List (TickSpan V) × (Nat → Option V) × (Nat → Option V) × Nat :=
  prog.foldl progStep ([], (fun _ => none), (fun _ => none), 0)

/-! ## C6: out-of-range `Set` -/

/-- C6 counterexample: `Set` with index `64³` does not return a structured
`OutOfRange` error — it panics (`assert!`, storage.rs:150, active in
release builds as well; no error kind exists anywhere in the sources). -/
theorem set_oob_panics_concrete :
    ((emptyStorage Nat).set 1 262144 0).panicMsg =
      some "Storage index out of range" := by
  rw [Storage.set]
  simp

/-- **C6 (amended)**: for every index `≥ 64³`, `Set` fails by panicking
with "Storage index out of range" (an `assert!`, so it panics in release
mode too, rather than returning a structured error), and the storage and
journal are left unchanged (the assert fires before any mutation). -/
theorem set_out_of_range_panics (s : Storage V) (ct i : Nat) (v : V)
    (h : 262144 ≤ i) :
    (s.set ct i v).panicMsg = some "Storage index out of range" ∧
    (s.set ct i v).state = s := by
  rw [Storage.set]
  simp [show ¬ i < 262144 by omega]

theorem set_out_of_range_panics_witness :
    ((emptyStorage Nat).set 1 262144 5).panicMsg =
        some "Storage index out of range" ∧
      ((emptyStorage Nat).set 1 262144 5).state = emptyStorage Nat :=
  set_out_of_range_panics (emptyStorage Nat) 1 262144 5 (by omega)

/-! ## C10: `spawn` on a saturated storage -/

/-- **C10**: when every slot is occupied (top-level `fullness_mask` all
ones), `spawn` returns no entity and leaves the tree untouched, but the
generation counter has been bumped and is not restored: the state is
exactly the input with `generation := spawnGeneration generation`, and
the counter actually changed. -/
theorem spawn_full_bumps_generation (s : Storage Nat) (ct : Nat)
    (hfull : s.fullness_mask = ones 64) (hg : s.generation < 2 ^ 64) :
    (s.spawn ct).1 = none ∧
    (s.spawn ct).2 = { s with generation := spawnGeneration s.generation } ∧
    (s.spawn ct).2.generation ≠ s.generation := by
  have hnone : first0Index s.fullness_mask = none := by
    simp [first0Index, hfull]
  have hs : s.spawn ct =
      (none, { s with generation := spawnGeneration s.generation }) := by
    rw [Storage.spawn]
    simp only [hnone]
  refine ⟨by rw [hs], by rw [hs], ?_⟩
  rw [hs]
  show spawnGeneration s.generation ≠ s.generation
  rw [spawnGeneration]
  split
  · rename_i h0
    intro h1
    rw [← h1] at h0
    omega
  · rename_i h0
    intro h1
    rcases Nat.lt_or_ge (s.generation + 1) (2 ^ 64) with hlt | hge
    · rw [Nat.mod_eq_of_lt hlt] at h1; omega
    · have : s.generation + 1 = 2 ^ 64 := by omega
      rw [this] at h0 h1
      simp at h0

theorem spawn_full_bumps_generation_witness :
    ((({ emptyStorage Nat with fullness_mask := ones 64 }).spawn 1).1 = none ∧
      (({ emptyStorage Nat with fullness_mask := ones 64 }).spawn 1).2 =
        { { emptyStorage Nat with fullness_mask := ones 64 } with
          generation := spawnGeneration
            ({ emptyStorage Nat with fullness_mask := ones 64 }).generation } ∧
      (({ emptyStorage Nat with fullness_mask := ones 64 }).spawn 1).2.generation ≠
        ({ emptyStorage Nat with fullness_mask := ones 64 }).generation) :=
  spawn_full_bumps_generation { emptyStorage Nat with fullness_mask := ones 64 }
    1 rfl (by norm_num [emptyStorage])

/-! ## C8: spawned generations and the 43-bit wrap -/

/-- Every entity handed out by `spawn` is `entityNew idx g` with `g` the
bumped generation counter. -/
theorem spawn_some_shape (s : Storage Nat) (ct : Nat) (e : Nat)
    (h : (s.spawn ct).1 = some e) :
    ∃ idx, e = entityNew idx (spawnGeneration s.generation) := by
  rw [Storage.spawn] at h
  simp only at h
  split at h
  · simp at h
  · split at h
    · simp at h
    · split at h
      · simp at h
      · split at h
        · simp at h
        · split at h
          · simp at h
          · split at h
            · simp at h
            · simp only [Prod.fst] at h
              exact ⟨_, (Option.some_inj.mp h).symm⟩

theorem and_ones_eq_mod (x k : Nat) : x &&& ones k = x % 2 ^ k := by
  rw [ones, Nat.and_pow_two_sub_one_eq_mod]

/-- The generation field of a freshly built entity is the generation
wrapped to 43 bits (`entity.rs:13-18`). -/
theorem entityGeneration_entityNew (idx g : Nat) :
    entityGeneration (entityNew idx g) = g % 2 ^ 43 := by
  apply Nat.eq_of_testBit_eq
  intro k
  simp only [entityGeneration, entityNew, ones, Nat.testBit_and,
    Nat.testBit_or, Nat.testBit_shiftLeft, Nat.testBit_two_pow_sub_one,
    Nat.testBit_mod_two_pow]
  by_cases hk : k < 43
  · simp [hk, show ¬ 43 ≤ k by omega]
  · simp [hk, show ¬ k < 43 by omega]

/-- C8 counterexample: with prior counter `2 ^ 43 - 1` the skip-0 check
(which tests the full 64-bit counter) does not fire, the generation wraps
to 0 in the 43-bit field, and `spawn` on an empty storage returns exactly
the reserved all-zero "none" entity. -/
theorem spawn_issues_generation_zero :
    (({ emptyStorage Nat with generation := 2 ^ 43 - 1 }).spawn 1).1 =
        some entityNone ∧
      entityGeneration entityNone = 0 := by
  constructor
  · rfl
  · rfl

/-- **C8 (amended)**: every entity returned by `spawn` carries generation
`spawnGeneration counter` wrapped to 43 bits; it is nonzero — and the
entity is distinct from the reserved all-zero value — provided the bumped
64-bit counter is not a nonzero multiple of `2 ^ 43` (the skip-0 check
applies to the full 64-bit counter, so generation 0 is issued exactly
when the counter's low 43 bits wrap to zero). -/
theorem spawn_generation_nonzero (s : Storage Nat) (ct : Nat) (e : Nat)
    (hg : ((s.generation + 1) % 2 ^ 64) % 2 ^ 43 ≠ 0 ∨
      (s.generation + 1) % 2 ^ 64 = 0)
    (h : (s.spawn ct).1 = some e) :
    entityGeneration e ≠ 0 ∧ e ≠ entityNone := by
  obtain ⟨idx, rfl⟩ := spawn_some_shape s ct e h
  have hgen : entityGeneration (entityNew idx (spawnGeneration s.generation)) =
      spawnGeneration s.generation % 2 ^ 43 := entityGeneration_entityNew _ _
  have hne : spawnGeneration s.generation % 2 ^ 43 ≠ 0 := by
    rw [spawnGeneration]
    rcases hg with hg | hg
    · have h0 : ¬ (s.generation + 1) % 2 ^ 64 = 0 := by
        intro hz
        apply hg
        rw [hz]
        norm_num
      rw [if_neg h0]
      exact hg
    · rw [if_pos hg]
      norm_num
  refine ⟨by rw [hgen]; exact hne, ?_⟩
  intro heq
  rw [heq] at hgen
  exact hne (by rw [← hgen]; rfl)

theorem spawn_generation_nonzero_witness :
    entityGeneration (entityNew 0 (spawnGeneration 0)) ≠ 0 ∧
      entityNew 0 (spawnGeneration 0) ≠ entityNone :=
  spawn_generation_nonzero (emptyStorage Nat) 1 (entityNew 0 (spawnGeneration 0))
    (by norm_num [emptyStorage]) (by rfl)

/-! ## C2: query enumeration machinery -/

theorem testBit_foldl_and (l : List α) (f : α → Nat) (m0 k : Nat) :
    (l.foldl (fun m t => m &&& f t) m0).testBit k =
      (m0.testBit k && l.all (fun t => (f t).testBit k)) := by
  induction l generalizing m0 with
  | nil => simp
  | cons x xs ih => simp [ih, Nat.testBit_and, Bool.and_assoc]

theorem testBit_foldl_or (l : List α) (f : α → Nat) (m0 k : Nat) :
    (l.foldl (fun m t => m ||| f t) m0).testBit k =
      (m0.testBit k || l.any (fun t => (f t).testBit k)) := by
  induction l generalizing m0 with
  | nil => simp
  | cons x xs ih => simp [ih, Nat.testBit_or, Bool.or_assoc]

theorem testBit_foldl_and_if (l : List α) (P : α → Bool) (f : α → Nat)
    (m0 k : Nat) :
    (l.foldl (fun m t => if P t then m &&& f t else m) m0).testBit k =
      (m0.testBit k && l.all (fun t => !P t || (f t).testBit k)) := by
  induction l generalizing m0 with
  | nil => simp
  | cons x xs ih =>
    by_cases hp : P x
    · simp [hp, ih, Nat.testBit_and, Bool.and_assoc]
    · simp [hp, ih]

theorem foldl_and_le (l : List α) (f : α → Nat) (m0 : Nat) :
    l.foldl (fun m t => m &&& f t) m0 ≤ m0 := by
  induction l generalizing m0 with
  | nil => exact Nat.le.refl
  | cons x xs ih => exact le_trans (ih (m0 &&& f x)) Nat.and_le_left

theorem foldl_and_if_le (l : List α) (P : α → Bool) (f : α → Nat) (m0 : Nat) :
    l.foldl (fun m t => if P t then m &&& f t else m) m0 ≤ m0 := by
  induction l generalizing m0 with
  | nil => exact Nat.le.refl
  | cons x xs ih =>
    rw [List.foldl_cons]
    by_cases hp : P x
    · rw [if_pos hp]
      exact le_trans (ih (m0 &&& f x)) Nat.and_le_left
    · rw [if_neg hp]
      exact ih m0

theorem compl64_testBit_lt (x k : Nat) (hk : k < 64) :
    (compl64 x).testBit k = !x.testBit k := by
  simp [compl64, Nat.testBit_xor, testBit_ones, hk]

theorem range_mul_flatMap (a b : Nat) :
    List.range (a * b) =
      (List.range a).flatMap (fun s => (List.range b).map (s * b + ·)) := by
  induction a with
  | zero => simp
  | succ a ih =>
    rw [Nat.succ_mul, List.range_add, ih, List.range_succ, List.flatMap_append]
    simp

theorem flatMap_filter_eq (l : List Nat) (q : Nat → Bool) (F G : Nat → List β)
    (h1 : ∀ x ∈ l, q x = true → F x = G x)
    (h2 : ∀ x ∈ l, q x = false → G x = []) :
    (l.filter q).flatMap F = l.flatMap G := by
  induction l with
  | nil => simp
  | cons x xs ih =>
    rw [List.flatMap_cons]
    by_cases hq : q x
    · rw [List.filter_cons_of_pos hq, List.flatMap_cons,
        h1 x (List.mem_cons_self x xs) hq]
      rw [ih (fun y hy => h1 y (List.mem_cons_of_mem x hy))
        (fun y hy => h2 y (List.mem_cons_of_mem x hy))]
    · rw [List.filter_cons_of_neg (by simpa using hq),
        h2 x (List.mem_cons_self x xs) (by simpa using hq)]
      rw [ih (fun y hy => h1 y (List.mem_cons_of_mem x hy))
        (fun y hy => h2 y (List.mem_cons_of_mem x hy))]
      simp

theorem queryStorageMask_testBit (r0 : Storage V)
    (rest excluded : List (Storage V)) (k : Nat) (hk : k < 64) :
    (queryStorageMask (r0 :: rest) excluded).testBit k =
      ((r0 :: rest).all (fun t => t.presence_mask.testBit k) &&
        !excluded.any (fun t => t.fullness_mask.testBit k)) := by
  rw [queryStorageMask]
  rw [Nat.testBit_and, testBit_foldl_and, compl64_testBit_lt _ _ hk,
    testBit_foldl_or]
  simp [Bool.and_assoc]

theorem queryPageMask_testBit (r0 : Storage V)
    (rest excluded : List (Storage V)) (changedReq : List Bool) (si : Fin 64)
    (k : Nat) (hk : k < 64) :
    (queryPageMask (r0 :: rest) excluded changedReq si).testBit k =
      ((r0 :: rest).all (fun t => (t.data si).presence_mask.testBit k) &&
        ((r0 :: rest).zip changedReq).all
          (fun tc => !tc.2 || (tc.1.data si).changed_mask.testBit k) &&
        !excluded.any (fun t => (t.data si).fullness_mask.testBit k)) := by
  rw [queryPageMask]
  rw [Nat.testBit_and, testBit_foldl_and_if, testBit_foldl_and,
    compl64_testBit_lt _ _ hk, testBit_foldl_or]
  simp [Bool.and_assoc]

theorem queryItemMask_testBit (r0 : Storage V)
    (rest excluded : List (Storage V)) (changedReq : List Bool)
    (si pi : Fin 64) (k : Nat) (hk : k < 64) :
    (queryItemMask (r0 :: rest) excluded changedReq si pi).testBit k =
      ((r0 :: rest).all (fun t => ((t.data si).data pi).presence_mask.testBit k) &&
        ((r0 :: rest).zip changedReq).all
          (fun tc => !tc.2 || ((tc.1.data si).data pi).changed_mask.testBit k) &&
        !excluded.any (fun t => ((t.data si).data pi).presence_mask.testBit k)) := by
  rw [queryItemMask]
  rw [Nat.testBit_and, testBit_foldl_and_if, testBit_foldl_and,
    compl64_testBit_lt _ _ hk, testBit_foldl_or]
  simp [Bool.and_assoc]

theorem slotPresent_decomp (t : Storage V) (si pi : Fin 64) (c : Nat)
    (hc : c < 64) :
    slotPresent t (si.val * 4096 + pi.val * 64 + c) =
      ((t.data si).data pi).presence_mask.testBit c := by
  have hsi := si.isLt
  have hpi := pi.isLt
  have hi : si.val * 4096 + pi.val * 64 + c < 262144 := by omega
  rw [slotPresent, dif_pos hi]
  have h1 : sIdx (si.val * 4096 + pi.val * 64 + c) hi = si :=
    Fin.ext (by simp only [sIdx]; omega)
  have h2 : pIdx (si.val * 4096 + pi.val * 64 + c) = pi :=
    Fin.ext (by simp only [pIdx]; omega)
  have h3 : (si.val * 4096 + pi.val * 64 + c) % 64 = c := by omega
  rw [h1, h2, h3, bget]

theorem slotChanged_decomp (t : Storage V) (si pi : Fin 64) (c : Nat)
    (hc : c < 64) :
    slotChanged t (si.val * 4096 + pi.val * 64 + c) =
      ((t.data si).data pi).changed_mask.testBit c := by
  have hsi := si.isLt
  have hpi := pi.isLt
  have hi : si.val * 4096 + pi.val * 64 + c < 262144 := by omega
  rw [slotChanged, dif_pos hi]
  have h1 : sIdx (si.val * 4096 + pi.val * 64 + c) hi = si :=
    Fin.ext (by simp only [sIdx]; omega)
  have h2 : pIdx (si.val * 4096 + pi.val * 64 + c) = pi :=
    Fin.ext (by simp only [pIdx]; omega)
  have h3 : (si.val * 4096 + pi.val * 64 + c) % 64 = c := by omega
  rw [h1, h2, h3, bget]

/-- At chunk level the generated mask decides the P6 predicate exactly. -/
theorem queryItemMask_pred (r0 : Storage V)
    (rest excluded : List (Storage V)) (changedReq : List Bool)
    (si pi : Fin 64) (c : Nat) (hc : c < 64) :
    (queryItemMask (r0 :: rest) excluded changedReq si pi).testBit c =
      queryPred (r0 :: rest) excluded changedReq
        (si.val * 4096 + pi.val * 64 + c) := by
  have hp : (fun (t : Storage V) =>
        slotPresent t (si.val * 4096 + pi.val * 64 + c)) =
      (fun t => ((t.data si).data pi).presence_mask.testBit c) :=
    funext fun t => slotPresent_decomp t si pi c hc
  have hpn : (fun (t : Storage V) =>
        !slotPresent t (si.val * 4096 + pi.val * 64 + c)) =
      (fun t => !((t.data si).data pi).presence_mask.testBit c) :=
    funext fun t => by rw [slotPresent_decomp t si pi c hc]
  have hcg : (fun (tc : Storage V × Bool) =>
        (!tc.2 || slotChanged tc.1 (si.val * 4096 + pi.val * 64 + c))) =
      (fun tc => (!tc.2 || ((tc.1.data si).data pi).changed_mask.testBit c)) :=
    funext fun tc => by rw [slotChanged_decomp tc.1 si pi c hc]
  rw [queryItemMask_testBit r0 rest excluded changedReq si pi c hc, queryPred,
    hp, hpn, hcg]
  apply Bool.eq_iff_iff.mpr
  simp only [Bool.and_eq_true, List.all_eq_true, Bool.not_eq_true',
    List.any_eq_false, Bool.not_eq_true]
  constructor
  · rintro ⟨⟨h1, h2⟩, h3⟩
    exact ⟨⟨h1, fun t ht => by rw [h3 t ht]⟩, h2⟩
  · rintro ⟨⟨h1, h2⟩, h3⟩
    refine ⟨⟨h1, h3⟩, fun t ht => ?_⟩
    have := h2 t ht
    revert this
    cases ((t.data si).data pi).presence_mask.testBit c <;> simp

theorem testBit_ne_zero {m k : Nat} (h : m.testBit k = true) : m ≠ 0 := by
  intro h0
  rw [h0, Nat.zero_testBit] at h
  exact Bool.false_ne_true h

/-- A slot satisfying the predicate forces its page bit in the page-level
mask (completeness of the interior pruning). -/
theorem queryPred_page_bit (r0 : Storage V) (rest excluded : List (Storage V))
    (changedReq : List Bool) (si pi : Fin 64) (c : Nat) (hc : c < 64)
    (hwfR : ∀ t ∈ r0 :: rest, reqSummary t)
    (hwfC : ∀ tc ∈ (r0 :: rest).zip changedReq, tc.2 = true → chgSummary tc.1)
    (hwfE : ∀ t ∈ excluded, exclFull t)
    (hpred : queryPred (r0 :: rest) excluded changedReq
      (si.val * 4096 + pi.val * 64 + c) = true) :
    (queryPageMask (r0 :: rest) excluded changedReq si).testBit pi.val = true := by
  rw [queryPageMask_testBit _ _ _ _ _ _ pi.isLt]
  rw [queryPred] at hpred
  simp only [Bool.and_eq_true, List.all_eq_true, Bool.not_eq_true',
    List.any_eq_false, Bool.or_eq_true, Bool.not_eq_true] at hpred ⊢
  obtain ⟨⟨hreq, hexc⟩, hchg⟩ := hpred
  refine ⟨⟨?_, ?_⟩, ?_⟩
  · intro t ht
    have h1 := hreq t ht
    rw [slotPresent_decomp t si pi c hc] at h1
    exact ((hwfR t ht) si pi (testBit_ne_zero h1)).1
  · intro tc htc
    cases h2 : tc.2 with
    | false => left; rfl
    | true =>
      right
      have h1 := hchg tc htc
      rcases h1 with h1 | h1
      · rw [h2] at h1; exact absurd h1 (by simp)
      · rw [slotChanged_decomp tc.1 si pi c hc] at h1
        exact (hwfC tc htc h2) si pi (testBit_ne_zero h1)
  · intro t ht
    cases hfb : (t.data si).fullness_mask.testBit pi.val with
    | false => rfl
    | true =>
      have h1 := ((hwfE t ht) si).2 pi (by rw [bget]; exact hfb) ⟨c, hc⟩
      rw [bget] at h1
      have h2 := hexc t ht
      rw [slotPresent_decomp t si pi c hc] at h2
      rw [h2] at h1
      exact absurd h1 (by simp)

/-- A slot satisfying the predicate forces its storage bit in the
top-level mask. -/
theorem queryPred_storage_bit (r0 : Storage V)
    (rest excluded : List (Storage V)) (changedReq : List Bool)
    (si pi : Fin 64) (c : Nat) (hc : c < 64)
    (hwfR : ∀ t ∈ r0 :: rest, reqSummary t)
    (hwfE : ∀ t ∈ excluded, exclFull t)
    (hpred : queryPred (r0 :: rest) excluded changedReq
      (si.val * 4096 + pi.val * 64 + c) = true) :
    (queryStorageMask (r0 :: rest) excluded).testBit si.val = true := by
  rw [queryStorageMask_testBit _ _ _ _ si.isLt]
  rw [queryPred] at hpred
  simp only [Bool.and_eq_true, List.all_eq_true, Bool.not_eq_true',
    List.any_eq_false, Bool.not_eq_true] at hpred ⊢
  obtain ⟨⟨hreq, hexc⟩, _⟩ := hpred
  refine ⟨?_, ?_⟩
  · intro t ht
    have h1 := hreq t ht
    rw [slotPresent_decomp t si pi c hc] at h1
    exact ((hwfR t ht) si pi (testBit_ne_zero h1)).2
  · intro t ht
    cases hfb : t.fullness_mask.testBit si.val with
    | false => rfl
    | true =>
      have h1 := ((hwfE t ht) si).1 (by rw [bget]; exact hfb) pi ⟨c, hc⟩
      rw [bget] at h1
      have h2 := hexc t ht
      rw [slotPresent_decomp t si pi c hc] at h2
      rw [h2] at h1
      exact absurd h1 (by simp)

theorem queryPageMask_lt (r0 : Storage V) (rest excluded : List (Storage V))
    (changedReq : List Bool) (si : Fin 64) (hb : maskWF r0) :
    queryPageMask (r0 :: rest) excluded changedReq si < 2 ^ 64 := by
  simp only [queryPageMask]
  exact lt_of_le_of_lt
    (le_trans Nat.and_le_left
      (le_trans (foldl_and_if_le _ _ _ _) (foldl_and_le _ _ _)))
    ((hb.2 si).1)

theorem queryItemMask_lt (r0 : Storage V) (rest excluded : List (Storage V))
    (changedReq : List Bool) (si pi : Fin 64) (hb : maskWF r0) :
    queryItemMask (r0 :: rest) excluded changedReq si pi < 2 ^ 64 := by
  simp only [queryItemMask]
  exact lt_of_le_of_lt
    (le_trans Nat.and_le_left
      (le_trans (foldl_and_if_le _ _ _ _) (foldl_and_le _ _ _)))
    (((hb.2 si).2.2 pi).1)

theorem query_run_item_level (r0 : Storage V)
    (rest excluded : List (Storage V)) (changedReq : List Bool)
    (si : Fin 64) (pk : Nat) (hp : pk < 64) (hb : maskWF r0) :
    (runBits (queryItemMask (r0 :: rest) excluded changedReq si ⟨pk, hp⟩)).map
        (fun ck => si.val * 4096 + pk * 64 + ck) =
      ((List.range 64).filter (fun c => queryPred (r0 :: rest) excluded
          changedReq (si.val * 4096 + pk * 64 + c))).map
        (fun ck => si.val * 4096 + pk * 64 + ck) := by
  rw [runBits_eq_filter _
    (queryItemMask_lt r0 rest excluded changedReq si ⟨pk, hp⟩ hb)]
  congr 1
  apply List.filter_congr
  intro c hc
  have h := queryItemMask_pred r0 rest excluded changedReq si ⟨pk, hp⟩ c
    (List.mem_range.mp hc)
  exact h

theorem query_run_page_level (r0 : Storage V)
    (rest excluded : List (Storage V)) (changedReq : List Bool) (si : Fin 64)
    (hb : maskWF r0)
    (hwfR : ∀ t ∈ r0 :: rest, reqSummary t)
    (hwfC : ∀ tc ∈ (r0 :: rest).zip changedReq, tc.2 = true → chgSummary tc.1)
    (hwfE : ∀ t ∈ excluded, exclFull t) :
    (runBits (queryPageMask (r0 :: rest) excluded changedReq si)).flatMap
        (fun pk =>
          if hp : pk < 64 then
            (runBits (queryItemMask (r0 :: rest) excluded changedReq si
                ⟨pk, hp⟩)).map (fun ck => si.val * 4096 + pk * 64 + ck)
          else []) =
      ((List.range 4096).filter (fun r => queryPred (r0 :: rest) excluded
          changedReq (si.val * 4096 + r))).map (si.val * 4096 + ·) := by
  have hr : List.range 4096 =
      (List.range 64).flatMap (fun a => (List.range 64).map (a * 64 + ·)) := by
    rw [show (4096 : Nat) = 64 * 64 from rfl]
    exact range_mul_flatMap 64 64
  rw [hr, List.filter_flatMap, List.map_flatMap]
  rw [runBits_eq_filter _ (queryPageMask_lt r0 rest excluded changedReq si hb)]
  apply flatMap_filter_eq
  · intro pk hpk hbit
    have hp : pk < 64 := List.mem_range.mp hpk
    rw [dif_pos hp]
    have hpfun : (fun c => queryPred (r0 :: rest) excluded changedReq
          (si.val * 4096 + pk * 64 + c)) =
        ((fun r => queryPred (r0 :: rest) excluded changedReq
          (si.val * 4096 + r)) ∘ (fun c => pk * 64 + c)) := by
      funext c
      simp only [Function.comp_apply]
      have he : si.val * 4096 + pk * 64 + c = si.val * 4096 + (pk * 64 + c) := by
        omega
      rw [he]
    have hffun : (fun ck => si.val * 4096 + pk * 64 + ck) =
        ((fun x => si.val * 4096 + x) ∘ (fun c => pk * 64 + c)) := by
      funext c
      simp only [Function.comp_apply]
      omega
    rw [List.filter_map, List.map_map,
      query_run_item_level r0 rest excluded changedReq si pk hp hb, hpfun,
      hffun]
  · intro pk hpk hbit
    have hp : pk < 64 := List.mem_range.mp hpk
    apply List.eq_nil_iff_forall_not_mem.mpr
    intro x hx
    simp only [List.mem_map, List.mem_filter, List.mem_range] at hx
    obtain ⟨y, ⟨hy, hq⟩, rfl⟩ := hx
    obtain ⟨c, hc, rfl⟩ := hy
    have hdec : si.val * 4096 + (pk * 64 + c) =
        si.val * 4096 + (⟨pk, hp⟩ : Fin 64).val * 64 + c := by
      show _ = si.val * 4096 + pk * 64 + c
      omega
    rw [hdec] at hq
    have hbit' := queryPred_page_bit r0 rest excluded changedReq si ⟨pk, hp⟩ c
      hc hwfR hwfC hwfE hq
    have : (⟨pk, hp⟩ : Fin 64).val = pk := rfl
    rw [this] at hbit'
    rw [hbit'] at hbit
    exact absurd hbit (by simp)

/-- **C2**: for a query with required storages `r0 :: rest`, excluded
storages `excluded`, and changed-required flags `changedReq` over
populated storages (summary masks consistent with the leaves), the
generated `run` visits exactly the slots that are present in every
required storage, absent in every excluded storage and flagged changed in
every changed-required storage — and it visits them in ascending slot
order (ascending storage, then page, then chunk index). -/
theorem query_run_exact (r0 : Storage V) (rest excluded : List (Storage V))
    (changedReq : List Bool) (hb : maskWF r0)
    (hwfR : ∀ t ∈ r0 :: rest, reqSummary t)
    (hwfC : ∀ tc ∈ (r0 :: rest).zip changedReq, tc.2 = true → chgSummary tc.1)
    (hwfE : ∀ t ∈ excluded, exclFull t) :
    queryRun (r0 :: rest) excluded changedReq =
      (List.range 262144).filter
        (queryPred (r0 :: rest) excluded changedReq) ∧
    List.Sorted (· < ·) (queryRun (r0 :: rest) excluded changedReq) := by
  have hSM : queryStorageMask (r0 :: rest) excluded < 2 ^ 64 := by
    simp only [queryStorageMask]
    exact lt_of_le_of_lt (le_trans Nat.and_le_left (foldl_and_le _ _ _)) hb.1
  have hmain : queryRun (r0 :: rest) excluded changedReq =
      (List.range 262144).filter
        (queryPred (r0 :: rest) excluded changedReq) := by
    rw [queryRun, runBits_eq_filter _ hSM,
      show (262144 : Nat) = 64 * 4096 from rfl, range_mul_flatMap,
      List.filter_flatMap]
    apply flatMap_filter_eq
    · intro sk hsk hbit
      have hs : sk < 64 := List.mem_range.mp hsk
      rw [dif_pos hs]
      rw [List.filter_map]
      have := query_run_page_level r0 rest excluded changedReq ⟨sk, hs⟩ hb
        hwfR hwfC hwfE
      simp only at this
      rw [this]
      rfl
    · intro sk hsk hbit
      have hs : sk < 64 := List.mem_range.mp hsk
      apply List.eq_nil_iff_forall_not_mem.mpr
      intro x hx
      simp only [List.mem_filter, List.mem_map, List.mem_range] at hx
      obtain ⟨⟨r, hr, rfl⟩, hq⟩ := hx
      have hdec : sk * 4096 + r =
          (⟨sk, hs⟩ : Fin 64).val * 4096 +
            (⟨r / 64, by omega⟩ : Fin 64).val * 64 + r % 64 := by
        show sk * 4096 + r = sk * 4096 + r / 64 * 64 + r % 64
        omega
      rw [hdec] at hq
      have hbit' := queryPred_storage_bit r0 rest excluded changedReq ⟨sk, hs⟩
        ⟨r / 64, by omega⟩ (r % 64) (by omega) hwfR hwfE hq
      have hv : (⟨sk, hs⟩ : Fin 64).val = sk := rfl
      rw [hv] at hbit'
      rw [hbit'] at hbit
      exact absurd hbit (by simp)
  refine ⟨hmain, ?_⟩
  rw [hmain]
  exact List.Pairwise.sublist (List.filter_sublist _) (List.pairwise_lt_range _)

theorem query_run_exact_witness :
    queryRun [((emptyStorage Nat).set 1 5 7).state] [] [false] =
      (List.range 262144).filter
        (queryPred [((emptyStorage Nat).set 1 5 7).state] [] [false]) ∧
    List.Sorted (· < ·)
      (queryRun [((emptyStorage Nat).set 1 5 7).state] [] [false]) :=
  query_run_exact ((emptyStorage Nat).set 1 5 7).state [] [] [false]
    (by decide) (by decide) (by decide) (by decide)

/-! ## C9: scheduler counterexample -/

/-- C9 counterexample: with `threeWriterSystems` under
`threeWriterGroups`, Kahn's algorithm completes without any cycle, yet
systems 0 and 2 — which both write component type 10 — land in the same
(first) wavefront: the writer serialization chain only links adjacent
writers, and the recorded group edge (2,1) suppressed the (1,2) link. -/
theorem scheduler_conflicting_writers_share_wavefront :
    (computeWavefronts threeWriterGroups threeWriterSystems).2 = false ∧
    ((computeWavefronts threeWriterGroups threeWriterSystems).1.getD 0
      []).contains 0 = true ∧
    ((computeWavefronts threeWriterGroups threeWriterSystems).1.getD 0
      []).contains 2 = true ∧
    ((threeWriterSystems.getD 0 default).writes.contains 10 &&
      (threeWriterSystems.getD 2 default).writes.contains 10) = true := by
  decide

/-! ## C9: Kahn level separation — generic list lemmas -/

lemma foldl_invariant {β σ : Type} (P : σ → Prop) (f : σ → β → σ) :
    ∀ (l : List β), (∀ s b, b ∈ l → P s → P (f s b)) →
      ∀ s, P s → P (l.foldl f s)
  | [], _, _, hs => hs
  | b :: l, h, s, hs =>
    foldl_invariant P f l (fun s u hu => h s u (List.mem_cons_of_mem b hu))
      (f s b) (h s b (List.mem_cons_self b l) hs)

lemma foldl_visits {β σ : Type} (Q : σ → Prop) (f : σ → β → σ) (b₀ : β)
    (mono : ∀ s b, Q s → Q (f s b)) (est : ∀ s, Q (f s b₀)) :
    ∀ (l : List β), b₀ ∈ l → ∀ s, Q (l.foldl f s)
  | b :: l, hmem, s => by
    rcases List.mem_cons.mp hmem with h | h
    · exact foldl_invariant Q f l (fun s u _ => mono s u) (f s b)
        (h ▸ est s)
    · exact foldl_visits Q f b₀ mono est l h (f s b)

lemma countRem_eq_zero_iff (edges : List (Nat × Nat)) (P : List Nat)
    (v : Nat) :
    countRem edges P v = 0 ↔ ∀ e ∈ edges, e.2 = v → e.1 ∈ P := by
  unfold countRem
  rw [List.countP_eq_zero]
  constructor
  · intro h e he hev
    by_contra hnot
    exact h e he (by simp [hev, hnot])
  · intro h e he
    by_cases hev : e.2 = v
    · simp [hev, h e he hev]
    · simp [hev]

lemma countRem_pos_iff (edges : List (Nat × Nat)) (P : List Nat) (v : Nat) :
    0 < countRem edges P v ↔ ∃ e ∈ edges, e.2 = v ∧ e.1 ∉ P := by
  rw [Nat.pos_iff_ne_zero, Ne, countRem_eq_zero_iff]
  push_neg
  rfl

lemma countRem_mono (edges : List (Nat × Nat)) {P Q : List Nat}
    (h : ∀ x, x ∈ P → x ∈ Q) (v : Nat) :
    countRem edges Q v ≤ countRem edges P v := by
  unfold countRem
  refine List.countP_mono_left (fun e _ hb => ?_)
  simp only [Bool.and_eq_true, Bool.not_eq_true', decide_eq_false_iff_not]
    at hb ⊢
  exact ⟨hb.1, fun hp => hb.2 (h _ hp)⟩

lemma countRem_append_node (node v : Nat) (edges : List (Nat × Nat))
    (hnd : edges.Nodup) (P : List Nat) (hnP : node ∉ P) :
    countRem edges (P ++ [node]) v
      = countRem edges P v - (if (node, v) ∈ edges then 1 else 0) := by
  have hpt : ∀ e : Nat × Nat, e ≠ (node, v) →
      (e.2 == v && !(decide (e.1 ∈ P ++ [node])))
        = (e.2 == v && !(decide (e.1 ∈ P))) := by
    intro e hne
    by_cases h1 : e.1 = node
    · by_cases h2 : e.2 = v
      · exact absurd (Prod.ext h1 h2) hne
      · simp [show (e.2 == v) = false by simp [h2]]
    · simp [List.mem_append, h1]
  by_cases hmem : (node, v) ∈ edges
  · obtain ⟨s, t, rfl⟩ := List.append_of_mem hmem
    rw [List.nodup_append] at hnd
    have hs : (node, v) ∉ s := fun h =>
      hnd.2.2 h (List.mem_cons_self _ _)
    have ht : (node, v) ∉ t := (List.nodup_cons.mp hnd.2.1).1
    unfold countRem
    rw [List.countP_append, List.countP_append, List.countP_cons,
      List.countP_cons]
    have hcs : List.countP
        (fun e => e.2 == v && !(decide (e.1 ∈ P ++ [node]))) s
        = List.countP (fun e => e.2 == v && !(decide (e.1 ∈ P))) s :=
      List.countP_congr (fun e he => by rw [hpt e (fun h => hs (h ▸ he))])
    have hct : List.countP
        (fun e => e.2 == v && !(decide (e.1 ∈ P ++ [node]))) t
        = List.countP (fun e => e.2 == v && !(decide (e.1 ∈ P))) t :=
      List.countP_congr (fun e he => by rw [hpt e (fun h => ht (h ▸ he))])
    have hm1 : ((node, v).2 == v && !(decide ((node, v).1 ∈ P ++ [node])))
        = false := by
      simp [List.mem_append]
    have hm2 : ((node, v).2 == v && !(decide ((node, v).1 ∈ P))) = true := by
      simp [hnP]
    rw [hcs, hct, hm1, hm2]
    simp [hmem]
  · unfold countRem
    rw [List.countP_congr (fun e he =>
      by rw [hpt e (fun h => hmem (h ▸ he))])]
    simp [hmem]

lemma findIdx_append_of_found {α : Type} (p : α → Bool) :
    ∀ (l₁ l₂ : List α), l₁.findIdx p < l₁.length →
      (l₁ ++ l₂).findIdx p = l₁.findIdx p
  | [], _, h => absurd h (by simp)
  | a :: l₁, l₂, h => by
    rw [List.cons_append, List.findIdx_cons, List.findIdx_cons]
    cases hp : p a
    · simp only [cond_false]
      rw [List.findIdx_cons] at h
      simp only [hp, cond_false, List.length_cons] at h
      rw [findIdx_append_of_found p l₁ l₂ (by omega)]
    · simp

lemma findIdx_append_of_none {α : Type} (p : α → Bool) :
    ∀ (l₁ l₂ : List α), (∀ a ∈ l₁, p a = false) →
      (l₁ ++ l₂).findIdx p = l₁.length + l₂.findIdx p
  | [], l₂, _ => by simp
  | a :: l₁, l₂, h => by
    rw [List.cons_append, List.findIdx_cons]
    have hp := h a (List.mem_cons_self a l₁)
    simp only [hp, cond_false]
    rw [findIdx_append_of_none p l₁ l₂
      (fun u hu => h u (List.mem_cons_of_mem a hu))]
    simp [List.length_cons]
    omega

lemma foldl_kahnDec_spec :
    ∀ (succs : List Nat) (indeg : Nat → Nat) (q : List Nat),
    succs.Nodup → (∀ v ∈ succs, 0 < indeg v) →
    (∀ x, (succs.foldl kahnDec (indeg, q)).1 x
        = if x ∈ succs then indeg x - 1 else indeg x) ∧
    (succs.foldl kahnDec (indeg, q)).2
        = q ++ succs.filter (fun v => indeg v - 1 == 0)
  | [], indeg, q, _, _ => ⟨fun x => by simp, by simp⟩
  | v :: rest, indeg, q, hnd, hpos => by
    have hv : 0 < indeg v := hpos v (List.mem_cons_self v rest)
    have hstep : kahnDec (indeg, q) v
        = ((fun x => if x = v then indeg v - 1 else indeg x),
           if indeg v - 1 = 0 then q ++ [v] else q) := by
      unfold kahnDec
      simp only [if_pos hv]
    rw [List.foldl_cons, hstep]
    have hvr : v ∉ rest := (List.nodup_cons.mp hnd).1
    have hnd2 : rest.Nodup := (List.nodup_cons.mp hnd).2
    have hpos2 : ∀ u ∈ rest,
        0 < (fun x => if x = v then indeg v - 1 else indeg x) u := by
      intro u hu
      have hne : u ≠ v := fun h => hvr (h ▸ hu)
      simpa [hne] using hpos u (List.mem_cons_of_mem v hu)
    obtain ⟨h1, h2⟩ := foldl_kahnDec_spec rest _ _ hnd2 hpos2
    constructor
    · intro x
      rw [h1 x]
      by_cases hxv : x = v
      · subst hxv
        simp [hvr]
      · by_cases hxr : x ∈ rest <;> simp [hxv, hxr]
    · rw [h2]
      have hfeq : rest.filter
          (fun u => (if u = v then indeg v - 1 else indeg u) - 1 == 0)
          = rest.filter (fun u => indeg u - 1 == 0) := by
        refine List.filter_congr (fun u hu => ?_)
        have hne : u ≠ v := fun h => hvr (h ▸ hu)
        simp [hne]
      rw [hfeq]
      by_cases h0 : indeg v - 1 = 0
      · rw [if_pos h0, List.filter_cons,
          if_pos (by simp [h0] : (indeg v - 1 == 0) = true)]
        simp
      · rw [if_neg h0, List.filter_cons,
          if_neg (by simp [h0] : ¬ (indeg v - 1 == 0) = true)]

lemma mem_adjOf (edges : List (Nat × Nat)) (node v : Nat) :
    v ∈ adjOf edges node ↔ (node, v) ∈ edges := by
  unfold adjOf
  simp only [List.mem_map, List.mem_filter, beq_iff_eq]
  constructor
  · rintro ⟨e, ⟨he, h1⟩, h2⟩
    exact (Prod.ext h1 h2 : e = (node, v)) ▸ he
  · intro h
    exact ⟨(node, v), ⟨h, rfl⟩, rfl⟩

lemma adjOf_nodup (edges : List (Nat × Nat)) (hnd : edges.Nodup)
    (node : Nat) : (adjOf edges node).Nodup := by
  refine List.Nodup.map_on ?_ (hnd.filter _)
  intro a ha b hb hab
  have h1 : a.1 = node := by simpa using (List.mem_filter.mp ha).2
  have h2 : b.1 = node := by simpa using (List.mem_filter.mp hb).2
  exact Prod.ext (h1.trans h2.symm) hab

lemma kahnRound_go (edges : List (Nat × Nat)) (hnd : edges.Nodup)
    (P₀ : List Nat) :
    ∀ (rest done lvl : List Nat) (indeg : Nat → Nat) (nq : List Nat),
    (done ++ rest).Nodup →
    (∀ v ∈ done ++ rest, v ∉ P₀) →
    (∀ v, indeg v = countRem edges (P₀ ++ done) v) →
    (∀ v, v ∈ nq ↔ (countRem edges (P₀ ++ done) v = 0 ∧
        0 < countRem edges P₀ v)) →
    nq.Nodup →
    (rest.foldl (kahnStep (adjOf edges)) (lvl, indeg, nq)).1
        = lvl ++ rest ∧
    (∀ v, (rest.foldl (kahnStep (adjOf edges)) (lvl, indeg, nq)).2.1 v
        = countRem edges (P₀ ++ done ++ rest) v) ∧
    (∀ v, v ∈ (rest.foldl (kahnStep (adjOf edges)) (lvl, indeg, nq)).2.2 ↔
        (countRem edges (P₀ ++ done ++ rest) v = 0 ∧
         0 < countRem edges P₀ v)) ∧
    (rest.foldl (kahnStep (adjOf edges)) (lvl, indeg, nq)).2.2.Nodup := by
  intro rest
  induction rest with
  | nil =>
    intro done lvl indeg nq hnd1 hP hindeg hnq hnqnd
    simp only [List.foldl_nil, List.append_nil]
    exact ⟨by trivial, hindeg, hnq, hnqnd⟩
  | cons node rest ih =>
    intro done lvl indeg nq hnd1 hP hindeg hnq hnqnd
    have hnode_done : node ∉ done := by
      intro h
      have := (List.nodup_append.mp hnd1).2.2 h
      exact this (List.mem_cons_self node rest)
    have hnode_P₀ : node ∉ P₀ :=
      hP node (List.mem_append_right _ (List.mem_cons_self node rest))
    have hnode_Pd : node ∉ P₀ ++ done := by
      intro h
      rcases List.mem_append.mp h with h | h
      · exact hnode_P₀ h
      · exact hnode_done h
    have hpos : ∀ v ∈ adjOf edges node, 0 < indeg v := by
      intro v hv
      rw [hindeg v, countRem_pos_iff]
      exact ⟨(node, v), (mem_adjOf edges node v).mp hv, rfl, hnode_Pd⟩
    obtain ⟨h1, h2⟩ := foldl_kahnDec_spec (adjOf edges node) indeg nq
      (adjOf_nodup edges hnd node) hpos
    rw [List.foldl_cons]
    have hstep : kahnStep (adjOf edges) (lvl, indeg, nq) node
        = (lvl ++ [node],
           ((adjOf edges node).foldl kahnDec (indeg, nq)).1,
           ((adjOf edges node).foldl kahnDec (indeg, nq)).2) := rfl
    rw [hstep]
    have hindeg2 : ∀ v, ((adjOf edges node).foldl kahnDec (indeg, nq)).1 v
        = countRem edges (P₀ ++ (done ++ [node])) v := by
      intro v
      rw [h1 v, ← List.append_assoc,
        countRem_append_node node v edges hnd _ hnode_Pd]
      by_cases hv : v ∈ adjOf edges node
      · rw [if_pos hv, hindeg v,
          if_pos ((mem_adjOf edges node v).mp hv)]
      · rw [if_neg hv, hindeg v,
          if_neg (fun h => hv ((mem_adjOf edges node v).mpr h)),
          Nat.sub_zero]
    have hsub : ∀ x, x ∈ P₀ ++ done → x ∈ (P₀ ++ done) ++ [node] :=
      fun x hx => List.mem_append_left _ hx
    have hcnt1 : ∀ v, (node, v) ∈ edges →
        0 < countRem edges (P₀ ++ done) v := by
      intro v hv
      exact (countRem_pos_iff edges _ v).mpr ⟨(node, v), hv, rfl, hnode_Pd⟩
    have hnq2 : ∀ v, v ∈ ((adjOf edges node).foldl kahnDec (indeg, nq)).2 ↔
        (countRem edges (P₀ ++ (done ++ [node])) v = 0 ∧
         0 < countRem edges P₀ v) := by
      intro v
      rw [h2, List.mem_append, List.mem_filter]
      have hcapp : countRem edges (P₀ ++ (done ++ [node])) v
          = countRem edges (P₀ ++ done) v
            - (if (node, v) ∈ edges then 1 else 0) := by
        rw [← List.append_assoc]
        exact countRem_append_node node v edges hnd _ hnode_Pd
      constructor
      · rintro (hv | ⟨hv, hz⟩)
        · obtain ⟨hz0, hpos0⟩ := (hnq v).mp hv
          refine ⟨?_, hpos0⟩
          omega
        · have hadj := (mem_adjOf edges node v).mp hv
          have hge := hcnt1 v hadj
          have hle : indeg v - 1 = 0 := by simpa using hz
          rw [hindeg v] at hle
          have h01 : countRem edges (P₀ ++ done) v = 1 := by omega
          constructor
          · rw [hcapp, if_pos hadj, h01]
          · have := countRem_mono edges (P := P₀) (Q := P₀ ++ done)
              (fun x hx => List.mem_append_left done hx) v
            omega
      · rintro ⟨hz, hpos0⟩
        by_cases h0 : countRem edges (P₀ ++ done) v = 0
        · exact Or.inl ((hnq v).mpr ⟨h0, hpos0⟩)
        · refine Or.inr ?_
          rw [hcapp] at hz
          have hadj : (node, v) ∈ edges := by
            by_contra hne
            rw [if_neg hne] at hz
            omega
          have h01 : countRem edges (P₀ ++ done) v = 1 := by
            rw [if_pos hadj] at hz
            omega
          refine ⟨(mem_adjOf edges node v).mpr hadj, ?_⟩
          simp [hindeg v, h01]
      done
    have hnqnd2 : ((adjOf edges node).foldl kahnDec (indeg, nq)).2.Nodup := by
      rw [h2]
      refine List.Nodup.append hnqnd ((adjOf_nodup edges hnd node).filter _) ?_
      intro v hv hvf
      obtain ⟨hz0, _⟩ := (hnq v).mp hv
      have hvadj := (List.mem_filter.mp hvf).1
      have hge := hcnt1 v ((mem_adjOf edges node v).mp hvadj)
      omega
    have hnd1b : ((done ++ [node]) ++ rest).Nodup := by
      have : (done ++ [node]) ++ rest = done ++ (node :: rest) := by simp
      rw [this]
      exact hnd1
    have hPb : ∀ v ∈ (done ++ [node]) ++ rest, v ∉ P₀ := by
      intro v hv
      refine hP v ?_
      have : (done ++ [node]) ++ rest = done ++ (node :: rest) := by simp
      rw [this] at hv
      exact hv
    obtain ⟨g1, g2, g3, g4⟩ := ih (done ++ [node]) (lvl ++ [node])
      _ _ hnd1b hPb hindeg2 hnq2 hnqnd2
    have hleq : P₀ ++ (done ++ [node]) ++ rest
        = P₀ ++ done ++ (node :: rest) := by simp
    refine ⟨?_, ?_, ?_, g4⟩
    · rw [g1]
      simp
    · intro v
      rw [g2 v, hleq]
    · intro v
      rw [g3 v, hleq]

lemma kahnRound_spec (edges : List (Nat × Nat)) (hnd : edges.Nodup)
    (P queue : List Nat) (indeg : Nat → Nat)
    (hqnd : queue.Nodup) (hdisj : ∀ v ∈ queue, v ∉ P)
    (hindeg : ∀ v, indeg v = countRem edges P v) :
    (kahnRound indeg (adjOf edges) queue).1 = queue ∧
    (∀ v, (kahnRound indeg (adjOf edges) queue).2.1 v
        = countRem edges (P ++ queue) v) ∧
    (∀ v, v ∈ (kahnRound indeg (adjOf edges) queue).2.2 ↔
        (countRem edges (P ++ queue) v = 0 ∧ 0 < countRem edges P v)) ∧
    (kahnRound indeg (adjOf edges) queue).2.2.Nodup := by
  unfold kahnRound
  have hres := kahnRound_go edges hnd P queue [] [] indeg []
    (by simpa using hqnd) (by simpa using hdisj)
    (fun v => by simpa using hindeg v)
    (fun v => by
      simp only [List.append_nil, List.not_mem_nil, false_iff]
      rintro ⟨h0, hp⟩
      omega)
    List.nodup_nil
  obtain ⟨g1, g2, g3, g4⟩ := hres
  have hle : P ++ [] ++ queue = P ++ queue := by simp
  rw [hle] at g2 g3
  exact ⟨by simpa using g1, g2, g3, g4⟩

lemma nodup_bounded_full (P : List Nat) (n : Nat) (hnd : P.Nodup)
    (hbd : ∀ v ∈ P, v < n) (hlen : n ≤ P.length) :
    ∀ v, v < n → v ∈ P := by
  intro v hv
  have hsub : P.toFinset ⊆ Finset.range n := by
    intro x hx
    exact Finset.mem_range.mpr (hbd x (List.mem_toFinset.mp hx))
  have hcard : (Finset.range n).card ≤ P.toFinset.card := by
    rw [Finset.card_range, List.toFinset_card_of_nodup hnd]
    exact hlen
  have heq := Finset.eq_of_subset_of_card_le hsub hcard
  exact List.mem_toFinset.mp (heq ▸ Finset.mem_range.mpr hv)

lemma findIdx_lt_of_mem {α : Type} (p : α → Bool) :
    ∀ (l : List α) (a : α), a ∈ l → p a = true → l.findIdx p < l.length
  | b :: l, a, hmem, hp => by
    rw [List.findIdx_cons]
    cases hpb : p b
    · simp only [cond_false, List.length_cons]
      rcases List.mem_cons.mp hmem with h | h
      · exact absurd hp (by rw [← h] at hpb; simp [hpb])
      · have := findIdx_lt_of_mem p l a h hp
        omega
    · simp

lemma wavefrontIdx_append_old (levels : List (List Nat))
    (queue : List Nat) (v : Nat)
    (h : wavefrontIdx levels v < levels.length) :
    wavefrontIdx (levels ++ [queue]) v = wavefrontIdx levels v :=
  findIdx_append_of_found _ levels [queue] h

lemma wavefrontIdx_append_new (levels : List (List Nat))
    (queue : List Nat) (v : Nat)
    (hnot : ∀ l ∈ levels, v ∉ l) (hv : v ∈ queue) :
    wavefrontIdx (levels ++ [queue]) v = levels.length := by
  unfold wavefrontIdx
  rw [findIdx_append_of_none _ levels [queue]
    (fun l hl => by simpa using hnot l hl)]
  rw [List.findIdx_cons]
  have hc : queue.contains v = true := by simpa using hv
  rw [hc]
  simp

lemma wavefrontIdx_lt_of_mem_join (levels : List (List Nat)) (v : Nat)
    (h : v ∈ levels.join) :
    wavefrontIdx levels v < levels.length := by
  obtain ⟨l, hl, hv⟩ := List.mem_join.mp h
  exact findIdx_lt_of_mem _ levels l hl (by simpa using hv)

lemma kahnLoop_spec (n : Nat) (edges : List (Nat × Nat))
    (hnd : edges.Nodup) (hbd : ∀ e ∈ edges, e.1 < n ∧ e.2 < n) :
    ∀ (fuel : Nat) (P : List Nat) (indeg : Nat → Nat) (queue : List Nat)
      (levels : List (List Nat)),
    P.Nodup → queue.Nodup → (∀ v ∈ queue, v ∉ P) →
    (∀ v ∈ P, v < n) → (∀ v ∈ queue, v < n) →
    (∀ v ∈ P, countRem edges P v = 0) →
    (∀ v ∈ queue, countRem edges P v = 0) →
    (∀ v, v < n → v ∉ P → countRem edges P v = 0 → v ∈ queue) →
    (∀ v, indeg v = countRem edges P v) →
    levels.join = P →
    (∀ e ∈ edges, e.2 ∈ P →
        wavefrontIdx levels e.1 < wavefrontIdx levels e.2) →
    (∀ v ∈ P, wavefrontIdx levels v < levels.length) →
    (kahnLoop n (adjOf edges) fuel indeg queue P.length levels).2 = false →
    (∀ v, v < n →
      v ∈ (kahnLoop n (adjOf edges) fuel indeg queue
        P.length levels).1.join) ∧
    (∀ e ∈ edges,
      wavefrontIdx
          (kahnLoop n (adjOf edges) fuel indeg queue P.length levels).1 e.1
        < wavefrontIdx
          (kahnLoop n (adjOf edges) fuel indeg queue P.length levels).1
            e.2) := by
  intro fuel
  induction fuel with
  | zero =>
    intro P indeg queue levels _ _ _ _ _ _ _ _ _ _ _ _ hflag
    simp [kahnLoop] at hflag
  | succ fuel ih =>
    intro P indeg queue levels hPnd hqnd hdisj hPbd hqbd hPz hqz hcomp
      hindeg hjoin hWF hWFb hflag
    by_cases hvn : P.length < n
    · rw [kahnLoop, if_pos hvn] at hflag ⊢
      cases hqe : queue.isEmpty with
      | true =>
        rw [if_pos hqe] at hflag
        simp at hflag
      | false =>
        rw [if_neg (by simp [hqe])] at hflag ⊢
        dsimp only at hflag ⊢
        obtain ⟨r1, r2, r3, r4⟩ :=
          kahnRound_spec edges hnd P queue indeg hqnd hdisj hindeg
        rw [r1, hqe] at hflag ⊢
        simp only [Bool.false_eq_true, if_false] at hflag ⊢
        have hqne : ∀ v ∈ queue, v ∉ P ∧ countRem edges P v = 0 :=
          fun v hv => ⟨hdisj v hv, hqz v hv⟩
        have hdisjPQ : List.Disjoint P queue :=
          fun a ha hq => hdisj a hq ha
        have hPQnd : (P ++ queue).Nodup :=
          List.Nodup.append hPnd hqnd hdisjPQ
        have hsubPQ : ∀ x, x ∈ P → x ∈ P ++ queue :=
          fun x hx => List.mem_append_left _ hx
        have hPQz : ∀ v ∈ P ++ queue, countRem edges (P ++ queue) v = 0 := by
          intro v hv
          have hle := countRem_mono edges (P := P) (Q := P ++ queue) hsubPQ v
          rcases List.mem_append.mp hv with h | h
          · have := hPz v h
            omega
          · have := hqz v h
            omega
        have hnqdisj : ∀ v ∈ (kahnRound indeg (adjOf edges) queue).2.2,
            v ∉ P ++ queue := by
          intro v hv hmem
          obtain ⟨_, hpos⟩ := (r3 v).mp hv
          rcases List.mem_append.mp hmem with h | h
          · have := hPz v h
            omega
          · have := hqz v h
            omega
        have hnqbd : ∀ v ∈ (kahnRound indeg (adjOf edges) queue).2.2,
            v < n := by
          intro v hv
          obtain ⟨_, hpos⟩ := (r3 v).mp hv
          obtain ⟨e, he, hev, _⟩ := (countRem_pos_iff edges P v).mp hpos
          exact hev ▸ (hbd e he).2
        have hPQbd : ∀ v ∈ P ++ queue, v < n := by
          intro v hv
          rcases List.mem_append.mp hv with h | h
          · exact hPbd v h
          · exact hqbd v h
        have hcomp2 : ∀ v, v < n → v ∉ P ++ queue →
            countRem edges (P ++ queue) v = 0 →
            v ∈ (kahnRound indeg (adjOf edges) queue).2.2 := by
          intro v hv hnm h0
          by_cases hp : countRem edges P v = 0
          · have : v ∈ queue :=
              hcomp v hv (fun h => hnm (List.mem_append_left _ h)) hp
            exact absurd (List.mem_append_right _ this) hnm
          · exact (r3 v).mpr ⟨h0, by omega⟩
        have hjoin2 : (levels ++ [queue]).join = P ++ queue := by
          simp [hjoin]
        have hnewIdx : ∀ v ∈ queue,
            wavefrontIdx (levels ++ [queue]) v = levels.length := by
          intro v hv
          refine wavefrontIdx_append_new levels queue v ?_ hv
          intro l hl hvl
          exact hdisj v hv (hjoin ▸ List.mem_join.mpr ⟨l, hl, hvl⟩)
        have hWF2 : ∀ e ∈ edges, e.2 ∈ P ++ queue →
            wavefrontIdx (levels ++ [queue]) e.1
              < wavefrontIdx (levels ++ [queue]) e.2 := by
          intro e he hmem
          rcases List.mem_append.mp hmem with h | h
          · have hord := hWF e he h
            have hb2 := hWFb e.2 h
            rw [wavefrontIdx_append_old levels queue e.1 (by omega),
              wavefrontIdx_append_old levels queue e.2 hb2]
            exact hord
          · have he1 : e.1 ∈ P :=
              (countRem_eq_zero_iff edges P e.2).mp (hqz e.2 h) e he rfl
            rw [wavefrontIdx_append_old levels queue e.1 (hWFb e.1 he1),
              hnewIdx e.2 h]
            exact hWFb e.1 he1
        have hWFb2 : ∀ v ∈ P ++ queue,
            wavefrontIdx (levels ++ [queue]) v
              < (levels ++ [queue]).length := by
          intro v hv
          rw [List.length_append, List.length_singleton]
          rcases List.mem_append.mp hv with h | h
          · rw [wavefrontIdx_append_old levels queue v (hWFb v h)]
            have := hWFb v h
            omega
          · rw [hnewIdx v h]
            omega
        have hlen : P.length + queue.length = (P ++ queue).length := by
          simp
        rw [hlen] at hflag ⊢
        exact ih (P ++ queue) _ _ (levels ++ [queue]) hPQnd r4 hnqdisj
          hPQbd hnqbd hPQz (fun v hv => ((r3 v).mp hv).1) hcomp2 r2
          hjoin2 hWF2 hWFb2 hflag
    · rw [kahnLoop, if_neg hvn] at hflag ⊢
      have hfull := nodup_bounded_full P n hPnd hPbd (Nat.le_of_not_lt hvn)
      constructor
      · intro v hv
        exact hjoin ▸ hfull v hv
      · intro e he
        exact hWF e he (hfull e.2 (hbd e he).2)

lemma addEdge_invariant (n : Nat) (es : List (Nat × Nat)) (e : Nat × Nat)
    (h : edgeInv n es) : edgeInv n (addEdge n es e) := by
  unfold addEdge
  split
  case isTrue hc =>
    refine ⟨List.Nodup.append h.1 (List.nodup_singleton e) ?_, ?_⟩
    · intro a ha hae
      rw [List.mem_singleton.mp hae] at ha
      exact hc.2.2 (by simpa using ha)
    · intro a ha
      rcases List.mem_append.mp ha with h1 | h1
      · exact h.2 a h1
      · rw [List.mem_singleton.mp h1]
        exact ⟨hc.1, hc.2.1⟩
  case isFalse => exact h

lemma addEdge_subset (n : Nat) (es : List (Nat × Nat)) (e x : Nat × Nat)
    (h : x ∈ es) : x ∈ addEdge n es e := by
  unfold addEdge
  split
  · exact List.mem_append_left _ h
  · exact h

lemma addEdge_mem (n : Nat) (es : List (Nat × Nat)) (e : Nat × Nat)
    (h1 : e.1 < n) (h2 : e.2 < n) : e ∈ addEdge n es e := by
  unfold addEdge
  split
  case isTrue => exact List.mem_append_right _ (List.mem_singleton_self e)
  case isFalse hc =>
    by_contra hne
    exact hc ⟨h1, h2, by simpa using hne⟩

lemma mem_if_addEdge {c : Prop} [Decidable c] (n : Nat)
    (es : List (Nat × Nat)) (e x : Nat × Nat) (hx : x ∈ es) :
    x ∈ (if c then addEdge n es e else es) := by
  split
  · exact addEdge_subset n es e x hx
  · exact hx

lemma inv_if_addEdge {c : Prop} [Decidable c] (n : Nat)
    (es : List (Nat × Nat)) (e : Nat × Nat) (h : edgeInv n es) :
    edgeInv n (if c then addEdge n es e else es) := by
  split
  · exact addEdge_invariant n es e h
  · exact h

lemma beforeAfterEdges_subset (sys : List SysDecl) (es : List (Nat × Nat))
    (x : Nat × Nat) (hx : x ∈ es) : x ∈ beforeAfterEdges sys es := by
  unfold beforeAfterEdges
  refine foldl_invariant (fun s => x ∈ s) _ _ (fun es0 i _ hs => ?_) es hx
  dsimp only
  refine foldl_invariant (fun s => x ∈ s) _ _
    (fun es1 at1 _ hs1 =>
      foldl_invariant (fun s => x ∈ s) _ _
        (fun es2 j _ hs2 => mem_if_addEdge _ _ _ _ hs2) _ hs1) _ ?_
  exact foldl_invariant (fun s => x ∈ s) _ _
    (fun es1 bt _ hs1 =>
      foldl_invariant (fun s => x ∈ s) _ _
        (fun es2 j _ hs2 => mem_if_addEdge _ _ _ _ hs2) _ hs1) _ hs

lemma beforeAfterEdges_invariant (sys : List SysDecl)
    (es : List (Nat × Nat)) (h : edgeInv sys.length es) :
    edgeInv sys.length (beforeAfterEdges sys es) := by
  unfold beforeAfterEdges
  refine foldl_invariant (edgeInv sys.length) _ _ (fun es0 i _ hs => ?_)
    es h
  dsimp only
  refine foldl_invariant (edgeInv sys.length) _ _
    (fun es1 at1 _ hs1 =>
      foldl_invariant (edgeInv sys.length) _ _
        (fun es2 j _ hs2 => inv_if_addEdge _ _ _ hs2) _ hs1) _ ?_
  exact foldl_invariant (edgeInv sys.length) _ _
    (fun es1 bt _ hs1 =>
      foldl_invariant (edgeInv sys.length) _ _
        (fun es2 j _ hs2 => inv_if_addEdge _ _ _ hs2) _ hs1) _ hs

lemma groupEdges_invariant (env : List GroupDecl) (sys : List SysDecl)
    (es : List (Nat × Nat)) (h : edgeInv sys.length es) :
    gePairInv sys.length (groupEdges env sys es) := by
  unfold groupEdges
  refine foldl_invariant (gePairInv sys.length) _ _
    (fun acc i hi hacc => ?_) (es, [])
    ⟨h, fun c hc => absurd hc (List.not_mem_nil c)⟩
  dsimp only
  have hiN : i < sys.length := List.mem_range.mp hi
  refine foldl_invariant (gePairInv sys.length) _ _
    (fun acc1 g _ hacc1 => ?_) _ hacc
  dsimp only
  refine foldl_invariant (gePairInv sys.length) _ _
    (fun acc2 at1 _ hacc2 => ?_) _ ?_
  · refine foldl_invariant (gePairInv sys.length) _ _
      (fun acc3 j hj hacc3 => ?_) _ hacc2
    have hjN : j < sys.length :=
      List.mem_range.mp (List.mem_filter.mp hj).1
    split
    · refine ⟨addEdge_invariant _ _ _ hacc3.1, ?_⟩
      intro c hc
      rcases List.mem_append.mp hc with h1 | h1
      · exact addEdge_subset _ _ _ _ (hacc3.2 c h1)
      · rw [List.mem_singleton.mp h1]
        exact addEdge_mem _ _ _ hjN hiN
    · exact hacc3
  · refine foldl_invariant (gePairInv sys.length) _ _
      (fun acc2 bt _ hacc2 =>
        foldl_invariant (gePairInv sys.length) _ _
          (fun acc3 j hj hacc3 => ?_) _ hacc2) _ hacc1
    have hjN : j < sys.length :=
      List.mem_range.mp (List.mem_filter.mp hj).1
    split
    · refine ⟨addEdge_invariant _ _ _ hacc3.1, ?_⟩
      intro c hc
      rcases List.mem_append.mp hc with h1 | h1
      · exact addEdge_subset _ _ _ _ (hacc3.2 c h1)
      · rw [List.mem_singleton.mp h1]
        exact addEdge_mem _ _ _ hiN hjN
    · exact hacc3

lemma writerEdges_subset (sys : List SysDecl)
    (constrained es : List (Nat × Nat)) (x : Nat × Nat) (hx : x ∈ es) :
    x ∈ writerEdges sys constrained es := by
  unfold writerEdges
  refine foldl_invariant (fun s => x ∈ s) _ _ (fun es0 t _ hs => ?_) es hx
  dsimp only
  have hdfold : x ∈ (writersOf sys t).foldl
      (fun es w => (readersOf sys t).foldl
        (fun es r =>
          if w ≠ r ∧ ¬ constrained.contains (r, w) then
            addEdge sys.length es (w, r)
          else es) es) es0 :=
    foldl_invariant (fun s => x ∈ s) _ _
      (fun es1 w _ hs1 =>
        foldl_invariant (fun s => x ∈ s) _ _
          (fun es2 r _ hs2 => mem_if_addEdge _ _ _ _ hs2) _ hs1) _ hs
  split
  · exact foldl_invariant (fun s => x ∈ s) _ _
      (fun es2 k _ hs2 => mem_if_addEdge _ _ _ _ hs2) _ hdfold
  · exact hdfold

lemma writerEdges_invariant (sys : List SysDecl)
    (constrained es : List (Nat × Nat)) (h : edgeInv sys.length es) :
    edgeInv sys.length (writerEdges sys constrained es) := by
  unfold writerEdges
  refine foldl_invariant (edgeInv sys.length) _ _ (fun es0 t _ hs => ?_)
    es h
  dsimp only
  have hdfold : edgeInv sys.length ((writersOf sys t).foldl
      (fun es w => (readersOf sys t).foldl
        (fun es r =>
          if w ≠ r ∧ ¬ constrained.contains (r, w) then
            addEdge sys.length es (w, r)
          else es) es) es0) :=
    foldl_invariant (edgeInv sys.length) _ _
      (fun es1 w _ hs1 =>
        foldl_invariant (edgeInv sys.length) _ _
          (fun es2 r _ hs2 => inv_if_addEdge _ _ _ hs2) _ hs1) _ hs
  split
  · exact foldl_invariant (edgeInv sys.length) _ _
      (fun es2 k _ hs2 => inv_if_addEdge _ _ _ hs2) _ hdfold
  · exact hdfold

lemma buildEdges_invariant (env : List GroupDecl) (sys : List SysDecl) :
    edgeInv sys.length (buildEdges env sys) := by
  unfold buildEdges
  exact writerEdges_invariant sys _ _
    (groupEdges_invariant env sys _
      (beforeAfterEdges_invariant sys []
        ⟨List.nodup_nil, fun e he => absurd he (List.not_mem_nil e)⟩)).1

lemma countRem_nil_eq_indegOf (edges : List (Nat × Nat)) (v : Nat) :
    countRem edges [] v = indegOf edges v := by
  unfold countRem indegOf
  rw [List.countP_eq_length_filter]
  congr 1
  refine List.filter_congr (fun e _ => ?_)
  simp

lemma topologicalLevels_spec (n : Nat) (edges : List (Nat × Nat))
    (hnd : edges.Nodup) (hbd : ∀ e ∈ edges, e.1 < n ∧ e.2 < n)
    (hflag : (topologicalLevels n edges).2 = false) :
    (∀ v, v < n → v ∈ (topologicalLevels n edges).1.join) ∧
    (∀ e ∈ edges,
      wavefrontIdx (topologicalLevels n edges).1 e.1
        < wavefrontIdx (topologicalLevels n edges).1 e.2) := by
  unfold topologicalLevels at hflag ⊢
  exact kahnLoop_spec n edges hnd hbd (n + 1) [] (indegOf edges) _ []
    List.nodup_nil
    ((List.nodup_range n).filter _)
    (fun v _ => List.not_mem_nil v)
    (fun v hv => absurd hv (List.not_mem_nil v))
    (fun v hv => List.mem_range.mp (List.mem_filter.mp hv).1)
    (fun v hv => absurd hv (List.not_mem_nil v))
    (fun v hv => by
      rw [countRem_nil_eq_indegOf]
      exact of_decide_eq_true (List.mem_filter.mp hv).2)
    (fun v hv _ h0 => List.mem_filter.mpr
      ⟨List.mem_range.mpr hv,
       decide_eq_true (by rw [countRem_nil_eq_indegOf] at h0; exact h0)⟩)
    (fun v => (countRem_nil_eq_indegOf edges v).symm)
    rfl
    (fun e _ h2 => absurd h2 (List.not_mem_nil _))
    (fun v hv => absurd hv (List.not_mem_nil v))
    hflag

lemma getD_mem_of_lt (l : List Nat) (k : Nat) (h : k < l.length) :
    l.getD k 0 ∈ l := by
  rw [List.getD_eq_getElem l 0 h]
  exact List.getElem_mem h

lemma constrained_mem_edges (env : List GroupDecl) (sys : List SysDecl)
    (c : Nat × Nat)
    (hc : c ∈ (groupEdges env sys (beforeAfterEdges sys [])).2) :
    c ∈ buildEdges env sys := by
  unfold buildEdges
  refine writerEdges_subset sys _ _ c ?_
  refine (groupEdges_invariant env sys _ ?_).2 c hc
  exact beforeAfterEdges_invariant sys []
    ⟨List.nodup_nil, fun e he => absurd he (List.not_mem_nil e)⟩

lemma writer_reader_edge (env : List GroupDecl) (sys : List SysDecl)
    (t w r : Nat) (hw : w ∈ writersOf sys t) (hr : r ∈ readersOf sys t)
    (hwr : w ≠ r) :
    (w, r) ∈ buildEdges env sys ∨ (r, w) ∈ buildEdges env sys := by
  by_cases hc :
      (groupEdges env sys (beforeAfterEdges sys [])).2.contains (r, w)
  · exact Or.inr (constrained_mem_edges env sys (r, w) (by simpa using hc))
  · left
    have hwN : w < sys.length :=
      List.mem_range.mp (List.mem_filter.mp hw).1
    have hrN : r < sys.length :=
      List.mem_range.mp (List.mem_filter.mp hr).1
    have ht : t ∈ writeTypes sys := by
      unfold writeTypes
      rw [List.mem_dedup]
      refine List.mem_flatMap.mpr ⟨sys.getD w default, ?_, ?_⟩
      · rcases Nat.lt_or_ge w sys.length with h | h
        · rw [List.getD_eq_getElem sys default h]
          exact List.getElem_mem h
        · exact absurd hwN (Nat.not_lt_of_ge h)
      · have := (List.mem_filter.mp hw).2
        simpa using this
    unfold buildEdges writerEdges
    refine foldl_visits (fun s => (w, r) ∈ s) _ t
      (fun s b hs => ?_) (fun s => ?_) _ ht _
    · dsimp only
      have hdfold : (w, r) ∈ (writersOf sys b).foldl
          (fun es w1 => (readersOf sys b).foldl
            (fun es r1 =>
              if w1 ≠ r1 ∧
                  ¬ (groupEdges env sys
                      (beforeAfterEdges sys [])).2.contains (r1, w1) then
                addEdge sys.length es (w1, r1)
              else es) es) s :=
        foldl_invariant (fun s => (w, r) ∈ s) _ _
          (fun es1 w1 _ hs1 =>
            foldl_invariant (fun s => (w, r) ∈ s) _ _
              (fun es2 r1 _ hs2 => mem_if_addEdge _ _ _ _ hs2) _ hs1) _ hs
      split
      · exact foldl_invariant (fun s => (w, r) ∈ s) _ _
          (fun es2 k _ hs2 => mem_if_addEdge _ _ _ _ hs2) _ hdfold
      · exact hdfold
    · dsimp only
      have hdfold : (w, r) ∈ (writersOf sys t).foldl
          (fun es w1 => (readersOf sys t).foldl
            (fun es r1 =>
              if w1 ≠ r1 ∧
                  ¬ (groupEdges env sys
                      (beforeAfterEdges sys [])).2.contains (r1, w1) then
                addEdge sys.length es (w1, r1)
              else es) es) s := by
        refine foldl_visits (fun s => (w, r) ∈ s) _ w
          (fun s2 b2 hs2 =>
            foldl_invariant (fun s => (w, r) ∈ s) _ _
              (fun es2 r1 _ hs3 => mem_if_addEdge _ _ _ _ hs3) _ hs2)
          (fun s2 => ?_) _ hw s
        refine foldl_visits (fun s => (w, r) ∈ s) _ r
          (fun s3 b3 hs3 => mem_if_addEdge _ _ _ _ hs3)
          (fun s3 => ?_) _ hr s2
        rw [if_pos ⟨hwr, hc⟩]
        exact addEdge_mem _ _ _ hwN hrN
      split
      · exact foldl_invariant (fun s => (w, r) ∈ s) _ _
          (fun es2 k _ hs2 => mem_if_addEdge _ _ _ _ hs2) _ hdfold
      · exact hdfold

lemma adjacent_writer_edge (env : List GroupDecl) (sys : List SysDecl)
    (t k : Nat) (hk : k + 1 < (writersOf sys t).length) :
    ((writersOf sys t).getD k 0, (writersOf sys t).getD (k + 1) 0)
        ∈ buildEdges env sys ∨
    ((writersOf sys t).getD (k + 1) 0, (writersOf sys t).getD k 0)
        ∈ buildEdges env sys := by
  have haw : (writersOf sys t).getD k 0 ∈ writersOf sys t :=
    getD_mem_of_lt _ k (by omega)
  have hbw : (writersOf sys t).getD (k + 1) 0 ∈ writersOf sys t :=
    getD_mem_of_lt _ (k + 1) hk
  have haN : (writersOf sys t).getD k 0 < sys.length :=
    List.mem_range.mp (List.mem_filter.mp haw).1
  have hbN : (writersOf sys t).getD (k + 1) 0 < sys.length :=
    List.mem_range.mp (List.mem_filter.mp hbw).1
  by_cases hc : (groupEdges env sys (beforeAfterEdges sys [])).2.contains
      ((writersOf sys t).getD (k + 1) 0, (writersOf sys t).getD k 0)
  · exact Or.inr (constrained_mem_edges env sys _ (by simpa using hc))
  · left
    have ht : t ∈ writeTypes sys := by
      unfold writeTypes
      rw [List.mem_dedup]
      refine List.mem_flatMap.mpr ⟨sys.getD ((writersOf sys t).getD k 0)
        default, ?_, ?_⟩
      · rw [List.getD_eq_getElem sys default haN]
        exact List.getElem_mem haN
      · have := (List.mem_filter.mp haw).2
        simpa using this
    unfold buildEdges writerEdges
    refine foldl_visits
      (fun s => ((writersOf sys t).getD k 0,
        (writersOf sys t).getD (k + 1) 0) ∈ s) _ t
      (fun s b hs => ?_) (fun s => ?_) _ ht _
    · dsimp only
      have hdfold : ((writersOf sys t).getD k 0,
          (writersOf sys t).getD (k + 1) 0) ∈ (writersOf sys b).foldl
          (fun es w1 => (readersOf sys b).foldl
            (fun es r1 =>
              if w1 ≠ r1 ∧
                  ¬ (groupEdges env sys
                      (beforeAfterEdges sys [])).2.contains (r1, w1) then
                addEdge sys.length es (w1, r1)
              else es) es) s :=
        foldl_invariant
          (fun s => ((writersOf sys t).getD k 0,
            (writersOf sys t).getD (k + 1) 0) ∈ s) _ _
          (fun es1 w1 _ hs1 =>
            foldl_invariant
              (fun s => ((writersOf sys t).getD k 0,
                (writersOf sys t).getD (k + 1) 0) ∈ s) _ _
              (fun es2 r1 _ hs2 => mem_if_addEdge _ _ _ _ hs2) _ hs1) _ hs
      split
      · exact foldl_invariant
          (fun s => ((writersOf sys t).getD k 0,
            (writersOf sys t).getD (k + 1) 0) ∈ s) _ _
          (fun es2 k2 _ hs2 => mem_if_addEdge _ _ _ _ hs2) _ hdfold
      · exact hdfold
    · dsimp only
      rw [if_pos (by omega : (writersOf sys t).length > 1)]
      refine foldl_visits
        (fun s => ((writersOf sys t).getD k 0,
          (writersOf sys t).getD (k + 1) 0) ∈ s) _ k
        (fun s3 b3 hs3 => mem_if_addEdge _ _ _ _ hs3)
        (fun s3 => ?_) _ (List.mem_range.mpr (by omega)) _
      dsimp only
      rw [if_pos hc]
      exact addEdge_mem _ _ _ haN hbN

/-- C9 (amended): whenever Kahn's algorithm completes without flagging a
cyclic remainder, every system is placed in some wavefront and every
recorded dependency edge — conflict-gated before/after edges, group
edges, writer→reader edges and the adjacent-writer serialization chain —
is respected strictly across wavefronts.  In particular a writer and a
reader of the same component type never share a wavefront, and two
*adjacent* writers (in registration order) never share a wavefront.  Two
non-adjacent writers of the same type may share a wavefront
(`scheduler_conflicting_writers_share_wavefront`), so the claim's blanket
write-conflict separation does not hold. -/
theorem scheduler_wavefronts_respect_deps (env : List GroupDecl)
    (sys : List SysDecl) (L : List (List Nat))
    (hL : computeWavefronts env sys = (L, false)) :
    (∀ v, v < sys.length → v ∈ L.join) ∧
    (∀ e ∈ buildEdges env sys, wavefrontIdx L e.1 < wavefrontIdx L e.2) ∧
    (∀ t w r, w ∈ writersOf sys t → r ∈ readersOf sys t → w ≠ r →
        wavefrontIdx L w ≠ wavefrontIdx L r) ∧
    (∀ t k, k + 1 < (writersOf sys t).length →
        wavefrontIdx L ((writersOf sys t).getD k 0)
          ≠ wavefrontIdx L ((writersOf sys t).getD (k + 1) 0)) := by
  have hinv := buildEdges_invariant env sys
  unfold computeWavefronts at hL
  have hflag : (topologicalLevels sys.length (buildEdges env sys)).2
      = false := by
    rw [hL]
  have hL1 : (topologicalLevels sys.length (buildEdges env sys)).1 = L := by
    rw [hL]
  obtain ⟨hall, hord⟩ := topologicalLevels_spec sys.length
    (buildEdges env sys) hinv.1 hinv.2 hflag
  rw [hL1] at hall hord
  refine ⟨hall, hord, ?_, ?_⟩
  · intro t w r hw hr hwr
    rcases writer_reader_edge env sys t w r hw hr hwr with h | h
    · exact Nat.ne_of_lt (hord (w, r) h)
    · exact (Nat.ne_of_lt (hord (r, w) h)).symm
  · intro t k hk
    rcases adjacent_writer_edge env sys t k hk with h | h
    · exact Nat.ne_of_lt (hord _ h)
    · exact (Nat.ne_of_lt (hord _ h)).symm

theorem scheduler_wavefronts_respect_deps_witness :
    (∀ v, v < threeWriterSystems.length → v ∈ [[0, 2], [1]].join) ∧
    (∀ e ∈ buildEdges threeWriterGroups threeWriterSystems,
        wavefrontIdx [[0, 2], [1]] e.1 < wavefrontIdx [[0, 2], [1]] e.2) ∧
    (∀ t w r, w ∈ writersOf threeWriterSystems t →
        r ∈ readersOf threeWriterSystems t → w ≠ r →
        wavefrontIdx [[0, 2], [1]] w ≠ wavefrontIdx [[0, 2], [1]] r) ∧
    (∀ t k, k + 1 < (writersOf threeWriterSystems t).length →
        wavefrontIdx [[0, 2], [1]]
            ((writersOf threeWriterSystems t).getD k 0)
          ≠ wavefrontIdx [[0, 2], [1]]
            ((writersOf threeWriterSystems t).getD (k + 1) 0)) :=
  scheduler_wavefronts_respect_deps threeWriterGroups threeWriterSystems
    [[0, 2], [1]] (by decide)

/-! ## C1/C4/C5/C7: per-slot rollback verification — bit helpers -/

lemma shiftLeft_one (k : Nat) : 1 <<< k = 2 ^ k := by
  rw [Nat.shiftLeft_eq, one_mul]

lemma bget_bset (m k j : Nat) :
    bget (bset m k) j = (bget m j || decide (j = k)) := by
  unfold bget bset
  rw [Nat.testBit_or, shiftLeft_one]
  congr 1
  rw [Nat.testBit_two_pow]
  by_cases h : j = k
  · simp [h]
  · simp [h]
    omega

lemma bget_bclear (m k j : Nat) (hk : k < 64) (hj : j < 64) :
    bget (bclear m k) j = (bget m j && !decide (j = k)) := by
  unfold bget bclear
  rw [Nat.testBit_and]
  congr 1
  rw [compl64_testBit _ _ (by
    rw [shiftLeft_one]
    exact Nat.pow_lt_pow_right (by norm_num) hk)]
  rw [shiftLeft_one, Nat.testBit_two_pow]
  by_cases h : j = k
  · simp [h]
  · simp [h, hj]
    omega

lemma bset_lt64 (m k : Nat) (hm : m < 2 ^ 64) (hk : k < 64) :
    bset m k < 2 ^ 64 := by
  unfold bset
  exact Nat.or_lt_two_pow hm
    (by rw [shiftLeft_one]; exact Nat.pow_lt_pow_right (by norm_num) hk)

lemma bclear_lt64 (m k : Nat) (hk : k < 64) : bclear m k < 2 ^ 64 := by
  unfold bclear
  calc m &&& compl64 (1 <<< k) ≤ compl64 (1 <<< k) := Nat.and_le_right
  _ < 2 ^ 64 := by
      unfold compl64
      refine Nat.xor_lt_two_pow ?_ ?_
      · rw [shiftLeft_one]
        exact Nat.pow_lt_pow_right (by norm_num) hk
      · unfold ones
        have : 0 < 2 ^ 64 := Nat.pos_pow_of_pos 64 (by norm_num)
        omega

lemma or_lt64 (a b : Nat) (ha : a < 2 ^ 64) (hb : b < 2 ^ 64) :
    a ||| b < 2 ^ 64 := Nat.or_lt_two_pow ha hb

lemma mask_ne_zero_iff (m : Nat) (hm : m < 2 ^ 64) :
    m ≠ 0 ↔ ∃ k : Fin 64, m.testBit k.val = true := by
  constructor
  · intro h0
    have hlt := tz64_lt_of_ne m h0 hm
    exact ⟨⟨tz64 m, hlt⟩, tz64_hit m hlt⟩
  · rintro ⟨k, hk⟩
    exact testBit_ne_zero hk

lemma mem_runBits (m : Nat) (hm : m < 2 ^ 64) (k : Nat) :
    k ∈ runBits m ↔ (k < 64 ∧ m.testBit k = true) := by
  rw [runBits_eq_filter m hm, List.mem_filter, List.mem_range]

lemma runBits_nodup (m : Nat) (hm : m < 2 ^ 64) : (runBits m).Nodup := by
  rw [runBits_eq_filter m hm]
  exact (List.nodup_range 64).filter _

/-! Index-path helpers: the split of a global slot index and when two
indices share tree nodes. -/

lemma idx_recompose (i : Nat) (h : i < 262144) :
    4096 * (i / 4096) + 64 * (i / 64 % 64) + i % 64 = i := by omega

lemma idx_eq_of_paths (i j : Nat) (hi : i < 262144) (hj : j < 262144)
    (hs : i / 4096 = j / 4096) (hp : i / 64 % 64 = j / 64 % 64)
    (hc : i % 64 = j % 64) : i = j := by omega

lemma sIdx_val (i : Nat) (h : i < 262144) : (sIdx i h).val = i / 4096 := rfl

lemma pIdx_val (i : Nat) : (pIdx i).val = i / 64 % 64 := rfl

lemma cIdx_val (i : Nat) : (cIdx i).val = i % 64 := rfl

lemma getD_drop {α : Type} (l : List α) (d : α) :
    ∀ (m k : Nat), (l.drop m).getD k d = l.getD (m + k) d := by
  induction l with
  | nil => intro m k; simp
  | cons a l ih =>
    intro m k
    cases m with
    | zero => simp
    | succ m =>
      rw [List.drop_succ_cons, ih m k]
      have : m + 1 + k = (m + k) + 1 := by omega
      rw [this]
      rfl

/-! Journal record updates, chunk level. -/

lemma chunkOrNew_bits (j : RollbackStorage V) (hwf : j.wfJ)
    (si pi : Fin 64) (k : Fin 64) :
    (bget ((j.pageOrNew si).chunkOrNew pi).created_mask k.val
      = bget ((j.data si).data pi).created_mask k.val) ∧
    (bget ((j.pageOrNew si).chunkOrNew pi).changed_mask k.val
      = bget ((j.data si).data pi).changed_mask k.val) ∧
    (bget ((j.pageOrNew si).chunkOrNew pi).removed_mask k.val
      = bget ((j.data si).data pi).removed_mask k.val) ∧
    ((bget ((j.data si).data pi).created_mask k.val = true ∨
      bget ((j.data si).data pi).changed_mask k.val = true ∨
      bget ((j.data si).data pi).removed_mask k.val = true) →
      ((j.pageOrNew si).chunkOrNew pi).data k
        = ((j.data si).data pi).data k) := by
  obtain ⟨hjm, hsi⟩ := hwf
  obtain ⟨hpm, hjust, hpi⟩ := hsi si
  obtain ⟨hb1, hb2, hb3, hjust2, hk⟩ := hpi pi
  have hsum := (hk k).2.2.2
  unfold RollbackStorage.pageOrNew RollbackPage.chunkOrNew
  by_cases hgs : bget j.changed_mask si.val
  · simp only [hgs, if_true]
    by_cases hgp : bget (j.data si).changed_mask pi.val
    · simp only [hgp, if_true]
      exact ⟨by trivial, by trivial, by trivial, fun _ => by trivial⟩
    · simp only [hgp, if_false, Bool.false_eq_true]
      have hz : ∀ b : Bool,
          (b = true →
            bget (j.data si).changed_mask pi.val ∧
            bget j.changed_mask si.val) → b = false := by
        intro b hb
        cases hhb : b
        · rfl
        · exact absurd (hb hhb).1 hgp
      have h1 : bget ((j.data si).data pi).created_mask k.val = false :=
        hz _ (fun hb => hsum (Or.inl hb))
      have h2 : bget ((j.data si).data pi).changed_mask k.val = false :=
        hz _ (fun hb => hsum (Or.inr (Or.inl hb)))
      have h3 : bget ((j.data si).data pi).removed_mask k.val = false :=
        hz _ (fun hb => hsum (Or.inr (Or.inr hb)))
      refine ⟨?_, ?_, ?_, ?_⟩
      · rw [h1]; simp [emptyRollbackChunk, bget]
      · rw [h2]; simp [emptyRollbackChunk, bget]
      · rw [h3]; simp [emptyRollbackChunk, bget]
      · rintro (hb | hb | hb) <;> simp [hb] at h1 h2 h3
  · simp only [hgs, if_false, Bool.false_eq_true]
    have hz : ∀ b : Bool,
        (b = true →
          bget (j.data si).changed_mask pi.val ∧
          bget j.changed_mask si.val) → b = false := by
      intro b hb
      cases hhb : b
      · rfl
      · exact absurd (hb hhb).2 hgs
    have h1 : bget ((j.data si).data pi).created_mask k.val = false :=
      hz _ (fun hb => hsum (Or.inl hb))
    have h2 : bget ((j.data si).data pi).changed_mask k.val = false :=
      hz _ (fun hb => hsum (Or.inr (Or.inl hb)))
    have h3 : bget ((j.data si).data pi).removed_mask k.val = false :=
      hz _ (fun hb => hsum (Or.inr (Or.inr hb)))
    refine ⟨?_, ?_, ?_, ?_⟩
    · rw [h1]; simp [emptyRollbackPage, emptyRollbackChunk, bget]
    · rw [h2]; simp [emptyRollbackPage, emptyRollbackChunk, bget]
    · rw [h3]; simp [emptyRollbackPage, emptyRollbackChunk, bget]
    · rintro (hb | hb | hb) <;> simp [hb] at h1 h2 h3

lemma recordSetC_other (rc : RollbackChunk V) (ci : Fin 64) (wp : Bool)
    (ov : Option V) (k : Fin 64) (hk : k ≠ ci) :
    (bget (rc.recordSetC ci wp ov).created_mask k.val
      = bget rc.created_mask k.val) ∧
    (bget (rc.recordSetC ci wp ov).changed_mask k.val
      = bget rc.changed_mask k.val) ∧
    (bget (rc.recordSetC ci wp ov).removed_mask k.val
      = bget rc.removed_mask k.val) ∧
    (rc.recordSetC ci wp ov).data k = rc.data k := by
  have hkv : k.val ≠ ci.val := fun hv => hk (Fin.ext hv)
  have hks : k.val < 64 := k.isLt
  have hcs : ci.val < 64 := ci.isLt
  unfold RollbackChunk.recordSetC
  split
  · simp [bget_bset, bget_bclear _ _ _ hcs hks, hkv]
  · split
    · refine ⟨?_, ?_, ?_, ?_⟩
      · simp [bget_bclear _ _ _ hcs hks, hkv]
      · simp [bget_bset, hkv]
      · simp [bget_bclear _ _ _ hcs hks, hkv]
      · simp only []
        split
        · cases ov
          · rfl
          · exact Function.update_noteq hk _ _
        · rfl
    · split
      · simp [bget_bset, bget_bclear _ _ _ hcs hks, hkv]
      · simp [bget_bset, bget_bclear _ _ _ hcs hks, hkv]

lemma recordSetC_self (rc : RollbackChunk V) (ci : Fin 64) (wp : Bool)
    (ov : Option V) (hov : wp = true → ov.isSome = true) :
    (bget (rc.recordSetC ci wp ov).created_mask ci.val
      = (bget rc.created_mask ci.val ||
         (!wp && !bget rc.removed_mask ci.val))) ∧
    (bget (rc.recordSetC ci wp ov).changed_mask ci.val
      = (!bget rc.created_mask ci.val &&
         (wp || bget rc.removed_mask ci.val))) ∧
    (bget (rc.recordSetC ci wp ov).removed_mask ci.val = false) ∧
    ((rc.recordSetC ci wp ov).data ci =
      if (!bget rc.created_mask ci.val && wp &&
          !bget rc.changed_mask ci.val && !bget rc.removed_mask ci.val)
          = true
      then ov else rc.data ci) := by
  have hcs : ci.val < 64 := ci.isLt
  unfold RollbackChunk.recordSetC
  by_cases hcr : bget rc.created_mask ci.val
  · simp [hcr, bget_bset, bget_bclear _ _ _ hcs hcs]
  · by_cases hwp : wp
    · obtain ⟨w, hw⟩ := Option.isSome_iff_exists.mp (hov hwp)
      subst hw
      by_cases hch : bget rc.changed_mask ci.val
      · simp [hcr, hwp, hch, bget_bset, bget_bclear _ _ _ hcs hcs]
      · by_cases hrm : bget rc.removed_mask ci.val
        · simp [hcr, hwp, hch, hrm, bget_bset, bget_bclear _ _ _ hcs hcs]
        · simp [hcr, hwp, hch, hrm, bget_bset, bget_bclear _ _ _ hcs hcs,
            Function.update_same]
    · by_cases hrm : bget rc.removed_mask ci.val
      · simp [hcr, hwp, hrm, bget_bset, bget_bclear _ _ _ hcs hcs]
      · simp [hcr, hwp, hrm, bget_bset, bget_bclear _ _ _ hcs hcs]

lemma recordSetC_lt (rc : RollbackChunk V) (ci : Fin 64) (wp : Bool)
    (ov : Option V) (h1 : rc.created_mask < 2 ^ 64)
    (h2 : rc.changed_mask < 2 ^ 64) (h3 : rc.removed_mask < 2 ^ 64) :
    (rc.recordSetC ci wp ov).created_mask < 2 ^ 64 ∧
    (rc.recordSetC ci wp ov).changed_mask < 2 ^ 64 ∧
    (rc.recordSetC ci wp ov).removed_mask < 2 ^ 64 := by
  have hcs : ci.val < 64 := ci.isLt
  unfold RollbackChunk.recordSetC
  split
  · exact ⟨bset_lt64 _ _ h1 hcs, bclear_lt64 _ _ hcs, bclear_lt64 _ _ hcs⟩
  · split
    · exact ⟨bclear_lt64 _ _ hcs, bset_lt64 _ _ h2 hcs, bclear_lt64 _ _ hcs⟩
    · split
      · exact ⟨bclear_lt64 _ _ hcs, bset_lt64 _ _ h2 hcs,
          bclear_lt64 _ _ hcs⟩
      · exact ⟨bset_lt64 _ _ h1 hcs, bclear_lt64 _ _ hcs,
          bclear_lt64 _ _ hcs⟩

lemma recordSet_proj (j : RollbackStorage V) (hwf : j.wfJ) (i : Nat)
    (h : i < 262144) (wp : Bool) (ov : Option V)
    (hov : wp = true → ov.isSome = true) (r : RollbackStorage V)
    (hr : r = j.recordSet (sIdx i h) (pIdx i) (cIdx i) wp ov) :
    (∀ s2 : Fin 64, s2 ≠ sIdx i h → r.data s2 = j.data s2) ∧
    (∀ s2 : Fin 64,
      bget r.changed_mask s2.val
        = (bget j.changed_mask s2.val || decide (s2 = sIdx i h))) ∧
    (∀ p2 : Fin 64,
      bget (r.data (sIdx i h)).changed_mask p2.val
        = (bget (j.data (sIdx i h)).changed_mask p2.val ||
           decide (p2 = pIdx i))) ∧
    (∀ i2 : Nat, ∀ h2 : i2 < 262144, i2 ≠ i →
      recCr r i2 h2 = recCr j i2 h2 ∧
      recCh r i2 h2 = recCh j i2 h2 ∧
      recRm r i2 h2 = recRm j i2 h2 ∧
      ((recCh j i2 h2 = true ∨ recRm j i2 h2 = true) →
        recVal r i2 h2 = recVal j i2 h2)) ∧
    (recCr r i h = (recCr j i h || (!wp && !recRm j i h))) ∧
    (recCh r i h = (!recCr j i h && (wp || recRm j i h))) ∧
    (recRm r i h = false) ∧
    ((recCh j i h = true ∨ recRm j i h = true) →
      recVal r i h = recVal j i h) ∧
    ((!recCr j i h && wp && !recCh j i h && !recRm j i h) = true →
      recVal r i h = ov) ∧
    r.changed_mask < 2 ^ 64 ∧
    (∀ s2 : Fin 64, (r.data s2).changed_mask < 2 ^ 64) ∧
    (∀ s2 p2 : Fin 64,
      (r.data s2).data p2 = ((j.data s2).data p2) ∨
      ((r.data s2).data p2).created_mask < 2 ^ 64 ∧
      ((r.data s2).data p2).changed_mask < 2 ^ 64 ∧
      ((r.data s2).data p2).removed_mask < 2 ^ 64) := by
  obtain ⟨hjm, hsi⟩ := hwf
  have hwf2 : j.wfJ := ⟨hjm, hsi⟩
  have hgate := chunkOrNew_bits j hwf2 (sIdx i h) (pIdx i)
  have hds : r.data (sIdx i h)
      = { j.pageOrNew (sIdx i h) with
          data := Function.update (j.pageOrNew (sIdx i h)).data (pIdx i)
            (((j.pageOrNew (sIdx i h)).chunkOrNew (pIdx i)).recordSetC
              (cIdx i) wp ov)
          changed_mask :=
            bset (j.pageOrNew (sIdx i h)).changed_mask (pIdx i).val } := by
    rw [hr]
    unfold RollbackStorage.recordSet
    simp [Function.update_same]
  have hdo : ∀ s2 : Fin 64, s2 ≠ sIdx i h → r.data s2 = j.data s2 := by
    intro s2 hne
    rw [hr]
    unfold RollbackStorage.recordSet
    simp only []
    exact Function.update_noteq hne _ _
  have hcm : r.changed_mask = bset j.changed_mask (sIdx i h).val := by
    rw [hr]
    unfold RollbackStorage.recordSet
    simp only []
  have hpageOrNew_ch : ∀ p2 : Fin 64,
      bget (j.pageOrNew (sIdx i h)).changed_mask p2.val
        = bget (j.data (sIdx i h)).changed_mask p2.val := by
    intro p2
    unfold RollbackStorage.pageOrNew
    by_cases hgs : bget j.changed_mask (sIdx i h).val
    · simp [hgs]
    · simp only [hgs, Bool.false_eq_true, if_false]
      cases hold : bget (j.data (sIdx i h)).changed_mask p2.val
      · simp [emptyRollbackPage, bget]
      · obtain ⟨k, hk⟩ := (hsi (sIdx i h)).2.2 p2 |>.2.2.2.1 hold
        rcases hk with hb | hb | hb
        · exact absurd (((hsi (sIdx i h)).2.2 p2).2.2.2.2 k |>.2.2.2
            (Or.inl hb)).2 hgs
        · exact absurd (((hsi (sIdx i h)).2.2 p2).2.2.2.2 k |>.2.2.2
            (Or.inr (Or.inl hb))).2 hgs
        · exact absurd (((hsi (sIdx i h)).2.2 p2).2.2.2.2 k |>.2.2.2
            (Or.inr (Or.inr hb))).2 hgs
  have hpageOrNew_other : ∀ p2 : Fin 64, p2 ≠ pIdx i →
      (bget ((j.pageOrNew (sIdx i h)).data p2).created_mask
        = bget ((j.data (sIdx i h)).data p2).created_mask ∧
       bget ((j.pageOrNew (sIdx i h)).data p2).changed_mask
        = bget ((j.data (sIdx i h)).data p2).changed_mask ∧
       bget ((j.pageOrNew (sIdx i h)).data p2).removed_mask
        = bget ((j.data (sIdx i h)).data p2).removed_mask) ∧
      (∀ k : Fin 64,
        (bget ((j.data (sIdx i h)).data p2).changed_mask k.val = true ∨
         bget ((j.data (sIdx i h)).data p2).removed_mask k.val = true) →
        ((j.pageOrNew (sIdx i h)).data p2).data k
          = ((j.data (sIdx i h)).data p2).data k) := by
    intro p2 _
    unfold RollbackStorage.pageOrNew
    by_cases hgs : bget j.changed_mask (sIdx i h).val
    · simp [hgs]
    · simp only [hgs, Bool.false_eq_true, if_false]
      have hzero : ∀ k : Fin 64,
          bget ((j.data (sIdx i h)).data p2).created_mask k.val = false ∧
          bget ((j.data (sIdx i h)).data p2).changed_mask k.val = false ∧
          bget ((j.data (sIdx i h)).data p2).removed_mask k.val = false := by
        intro k
        have hsum := ((hsi (sIdx i h)).2.2 p2).2.2.2.2 k |>.2.2.2
        refine ⟨?_, ?_, ?_⟩
        · cases hb : bget ((j.data (sIdx i h)).data p2).created_mask k.val
          · rfl
          · exact absurd (hsum (Or.inl hb)).2 hgs
        · cases hb : bget ((j.data (sIdx i h)).data p2).changed_mask k.val
          · rfl
          · exact absurd (hsum (Or.inr (Or.inl hb))).2 hgs
        · cases hb : bget ((j.data (sIdx i h)).data p2).removed_mask k.val
          · rfl
          · exact absurd (hsum (Or.inr (Or.inr hb))).2 hgs
      refine ⟨⟨?_, ?_, ?_⟩, ?_⟩
      · funext k2
        by_cases hk2 : k2 < 64
        · rw [(hzero ⟨k2, hk2⟩).1]
          simp [emptyRollbackPage, emptyRollbackChunk, bget]
        · simp [emptyRollbackPage, emptyRollbackChunk, bget]
          rw [Nat.testBit_lt_two_pow]
          exact lt_of_lt_of_le ((hsi (sIdx i h)).2.2 p2).1
            (Nat.pow_le_pow_right (by norm_num) (by omega))
      · funext k2
        by_cases hk2 : k2 < 64
        · rw [(hzero ⟨k2, hk2⟩).2.1]
          simp [emptyRollbackPage, emptyRollbackChunk, bget]
        · simp [emptyRollbackPage, emptyRollbackChunk, bget]
          rw [Nat.testBit_lt_two_pow]
          exact lt_of_lt_of_le ((hsi (sIdx i h)).2.2 p2).2.1
            (Nat.pow_le_pow_right (by norm_num) (by omega))
      · funext k2
        by_cases hk2 : k2 < 64
        · rw [(hzero ⟨k2, hk2⟩).2.2]
          simp [emptyRollbackPage, emptyRollbackChunk, bget]
        · simp [emptyRollbackPage, emptyRollbackChunk, bget]
          rw [Nat.testBit_lt_two_pow]
          exact lt_of_lt_of_le ((hsi (sIdx i h)).2.2 p2).2.2.1
            (Nat.pow_le_pow_right (by norm_num) (by omega))
      · intro k hk
        rcases hk with hb | hb
        · rw [(hzero k).2.1] at hb
          exact absurd hb (by simp)
        · rw [(hzero k).2.2] at hb
          exact absurd hb (by simp)
  have hcon := recordSetC_other ((j.pageOrNew (sIdx i h)).chunkOrNew (pIdx i))
    (cIdx i) wp ov
  have hcself := recordSetC_self ((j.pageOrNew (sIdx i h)).chunkOrNew (pIdx i))
    (cIdx i) wp ov hov
  have hchunk : (r.data (sIdx i h)).data (pIdx i)
      = ((j.pageOrNew (sIdx i h)).chunkOrNew (pIdx i)).recordSetC
          (cIdx i) wp ov := by
    rw [hds]
    simp [Function.update_same]
  have hchunk2 : ∀ p2 : Fin 64, p2 ≠ pIdx i →
      (r.data (sIdx i h)).data p2 = (j.pageOrNew (sIdx i h)).data p2 := by
    intro p2 hne
    rw [hds]
    simp only []
    exact Function.update_noteq hne _ _
  have hgg := hgate (cIdx i)
  refine ⟨hdo, ?_, ?_, ?_, ?_, ?_, ?_, ?_, ?_, ?_, ?_, ?_⟩
  · intro s2
    rw [hcm, bget_bset]
    by_cases hx : s2 = sIdx i h
    · simp [hx]
    · have hvne : s2.val ≠ (sIdx i h).val := fun hv => hx (Fin.ext hv)
      simp [hx, hvne]
  · intro p2
    have hpc : (r.data (sIdx i h)).changed_mask
        = bset (j.pageOrNew (sIdx i h)).changed_mask (pIdx i).val := by
      rw [hds]
    rw [hpc, bget_bset, hpageOrNew_ch p2]
    by_cases hx : p2 = pIdx i
    · simp [hx]
    · have hvne : p2.val ≠ (pIdx i).val := fun hv => hx (Fin.ext hv)
      simp [hx, hvne]
  · intro i2 h2 hne
    by_cases hs2 : sIdx i2 h2 = sIdx i h
    · by_cases hp2 : pIdx i2 = pIdx i
      · have hc2 : cIdx i2 ≠ cIdx i := by
          intro hc
          exact hne (idx_eq_of_paths i2 i h2 h
            (by have := congrArg Fin.val hs2; simpa [sIdx_val] using this)
            (by have := congrArg Fin.val hp2; simpa [pIdx_val] using this)
            (by have := congrArg Fin.val hc; simpa [cIdx_val] using this))
        have hcc := hcon (cIdx i2) hc2
        have hgg2 := chunkOrNew_bits j hwf2 (sIdx i h) (pIdx i) (cIdx i2)
        have e1 : (r.data (sIdx i2 h2)).data (pIdx i2)
            = ((j.pageOrNew (sIdx i h)).chunkOrNew (pIdx i)).recordSetC
                (cIdx i) wp ov := by
          rw [hs2, hp2, hchunk]
        have e2 : (j.data (sIdx i2 h2)).data (pIdx i2)
            = (j.data (sIdx i h)).data (pIdx i) := by
          rw [hs2, hp2]
        refine ⟨?_, ?_, ?_, ?_⟩
        · unfold recCr
          rw [e1, e2]
          exact hcc.1.trans hgg2.1
        · unfold recCh
          rw [e1, e2]
          exact hcc.2.1.trans hgg2.2.1
        · unfold recRm
          rw [e1, e2]
          exact hcc.2.2.1.trans hgg2.2.2.1
        · intro hor
          unfold recVal
          rw [e1, e2]
          refine hcc.2.2.2.trans (hgg2.2.2.2 ?_)
          unfold recCh recRm at hor
          rw [e2] at hor
          rcases hor with hb | hb
          · exact Or.inr (Or.inl hb)
          · exact Or.inr (Or.inr hb)
      · have hpo := hpageOrNew_other (pIdx i2) hp2
        have e1 : (r.data (sIdx i2 h2)).data (pIdx i2)
            = (j.pageOrNew (sIdx i h)).data (pIdx i2) := by
          rw [hs2, hchunk2 (pIdx i2) hp2]
        have e2 : (j.data (sIdx i2 h2)).data (pIdx i2)
            = (j.data (sIdx i h)).data (pIdx i2) := by
          rw [hs2]
        refine ⟨?_, ?_, ?_, ?_⟩
        · unfold recCr
          rw [e1, e2]
          exact congrFun hpo.1.1 (i2 % 64)
        · unfold recCh
          rw [e1, e2]
          exact congrFun hpo.1.2.1 (i2 % 64)
        · unfold recRm
          rw [e1, e2]
          exact congrFun hpo.1.2.2 (i2 % 64)
        · intro hor
          unfold recVal
          rw [e1, e2]
          refine hpo.2 (cIdx i2) ?_
          unfold recCh recRm at hor
          rw [e2] at hor
          exact hor
    · have e1 : r.data (sIdx i2 h2) = j.data (sIdx i2 h2) := hdo _ hs2
      unfold recCr recCh recRm recVal
      rw [e1]
      exact ⟨rfl, rfl, rfl, fun _ => rfl⟩
  · have e1 : recCr r i h
        = bget (((j.pageOrNew (sIdx i h)).chunkOrNew (pIdx i)).recordSetC
            (cIdx i) wp ov).created_mask (cIdx i).val := by
      unfold recCr
      rw [hchunk]
      rfl
    rw [e1, hcself.1, hgg.1, hgg.2.2.1]
    rfl
  · have e1 : recCh r i h
        = bget (((j.pageOrNew (sIdx i h)).chunkOrNew (pIdx i)).recordSetC
            (cIdx i) wp ov).changed_mask (cIdx i).val := by
      unfold recCh
      rw [hchunk]
      rfl
    rw [e1, hcself.2.1, hgg.1, hgg.2.2.1]
    rfl
  · have e1 : recRm r i h
        = bget (((j.pageOrNew (sIdx i h)).chunkOrNew (pIdx i)).recordSetC
            (cIdx i) wp ov).removed_mask (cIdx i).val := by
      unfold recRm
      rw [hchunk]
      rfl
    rw [e1, hcself.2.2.1]
  · intro hor
    have eV : recVal r i h
        = (((j.pageOrNew (sIdx i h)).chunkOrNew (pIdx i)).recordSetC
            (cIdx i) wp ov).data (cIdx i) := by
      unfold recVal
      rw [hchunk]
    have hdata : ((j.pageOrNew (sIdx i h)).chunkOrNew (pIdx i)).data (cIdx i)
        = ((j.data (sIdx i h)).data (pIdx i)).data (cIdx i) := by
      refine hgg.2.2.2 ?_
      unfold recCh recRm at hor
      rcases hor with hb | hb
      · exact Or.inr (Or.inl hb)
      · exact Or.inr (Or.inr hb)
    rw [eV, hcself.2.2.2]
    split
    case isTrue hcond =>
      exfalso
      simp only [Bool.and_eq_true, Bool.not_eq_true'] at hcond
      have hcond2 := hcond.1.2
      have hcond3 := hcond.2
      rw [hgg.2.1] at hcond2
      rw [hgg.2.2.1] at hcond3
      rw [show ((cIdx i : Fin 64)).val = i % 64 from rfl] at hcond2 hcond3
      unfold recCh recRm at hor
      rcases hor with hb | hb
      · rw [hb] at hcond2
        simp at hcond2
      · rw [hb] at hcond3
        simp at hcond3
    case isFalse =>
      exact hdata
  · intro hcond
    simp only [Bool.and_eq_true, Bool.not_eq_true'] at hcond
    have eV : recVal r i h
        = (((j.pageOrNew (sIdx i h)).chunkOrNew (pIdx i)).recordSetC
            (cIdx i) wp ov).data (cIdx i) := by
      unfold recVal
      rw [hchunk]
    rw [eV, hcself.2.2.2, if_pos ?_]
    unfold recCr recCh recRm at hcond
    simp only [Bool.and_eq_true, Bool.not_eq_true']
    rw [hgg.1, hgg.2.1, hgg.2.2.1]
    exact ⟨⟨⟨hcond.1.1.1, hcond.1.1.2⟩, hcond.1.2⟩, hcond.2⟩
  · rw [hcm]
    exact bset_lt64 _ _ hjm (sIdx i h).isLt
  · intro s2
    by_cases hx : s2 = sIdx i h
    · have hpc : (r.data s2).changed_mask
          = bset (j.pageOrNew (sIdx i h)).changed_mask (pIdx i).val := by
        rw [hx, hds]
      rw [hpc]
      refine bset_lt64 _ _ ?_ (pIdx i).isLt
      unfold RollbackStorage.pageOrNew
      split
      · exact (hsi (sIdx i h)).1
      · simp [emptyRollbackPage]
    · rw [hdo s2 hx]
      exact (hsi s2).1
  · intro s2 p2
    by_cases hx : s2 = sIdx i h
    · by_cases hp : p2 = pIdx i
      · have e1 : (r.data s2).data p2
            = ((j.pageOrNew (sIdx i h)).chunkOrNew (pIdx i)).recordSetC
                (cIdx i) wp ov := by
          rw [hx, hp, hchunk]
        rw [e1]
        have hcb : ((j.pageOrNew (sIdx i h)).chunkOrNew (pIdx i)).created_mask
              < 2 ^ 64 ∧
            ((j.pageOrNew (sIdx i h)).chunkOrNew (pIdx i)).changed_mask
              < 2 ^ 64 ∧
            ((j.pageOrNew (sIdx i h)).chunkOrNew (pIdx i)).removed_mask
              < 2 ^ 64 := by
          unfold RollbackStorage.pageOrNew RollbackPage.chunkOrNew
          split
          · split
            · exact ⟨((hsi (sIdx i h)).2.2 (pIdx i)).1,
                ((hsi (sIdx i h)).2.2 (pIdx i)).2.1,
                ((hsi (sIdx i h)).2.2 (pIdx i)).2.2.1⟩
            · norm_num [emptyRollbackChunk]
          · split
            · norm_num [emptyRollbackPage, emptyRollbackChunk]
            · norm_num [emptyRollbackPage, emptyRollbackChunk]
        exact Or.inr (recordSetC_lt _ _ _ _ hcb.1 hcb.2.1 hcb.2.2)
      · have e1 : (r.data s2).data p2 = (j.pageOrNew (sIdx i h)).data p2 := by
          rw [hx, hchunk2 p2 hp]
        rw [e1]
        unfold RollbackStorage.pageOrNew
        split
        · rw [hx]
          exact Or.inl rfl
        · refine Or.inr ?_
          norm_num [emptyRollbackPage, emptyRollbackChunk]
    · rw [hdo s2 hx]
      exact Or.inl rfl

lemma recordRemoveC_other (rc : RollbackChunk V) (ci : Fin 64) (wc : Bool)
    (ov : Option V) (k : Fin 64) (hk : k ≠ ci) :
    (bget (rc.recordRemoveC ci wc ov).created_mask k.val
      = bget rc.created_mask k.val) ∧
    (bget (rc.recordRemoveC ci wc ov).changed_mask k.val
      = bget rc.changed_mask k.val) ∧
    (bget (rc.recordRemoveC ci wc ov).removed_mask k.val
      = bget rc.removed_mask k.val) ∧
    (rc.recordRemoveC ci wc ov).data k = rc.data k := by
  have hkv : k.val ≠ ci.val := fun hv => hk (Fin.ext hv)
  have hks : k.val < 64 := k.isLt
  have hcs : ci.val < 64 := ci.isLt
  unfold RollbackChunk.recordRemoveC
  split
  · simp [bget_bclear _ _ _ hcs hks, hkv]
  · refine ⟨?_, ?_, ?_, ?_⟩
    · simp [bget_bclear _ _ _ hcs hks, hkv]
    · simp [bget_bclear _ _ _ hcs hks, hkv]
    · simp [bget_bset, hkv]
    · simp only []
      split
      · exact Function.update_noteq hk _ _
      · rfl

lemma recordRemoveC_self_false (rc : RollbackChunk V) (ci : Fin 64)
    (ov : Option V) :
    (bget (rc.recordRemoveC ci false ov).created_mask ci.val = false) ∧
    (bget (rc.recordRemoveC ci false ov).changed_mask ci.val = false) ∧
    (bget (rc.recordRemoveC ci false ov).removed_mask ci.val = true) ∧
    ((rc.recordRemoveC ci false ov).data ci =
      if (!bget rc.changed_mask ci.val && !bget rc.removed_mask ci.val) = true
      then ov else rc.data ci) := by
  have hcs : ci.val < 64 := ci.isLt
  unfold RollbackChunk.recordRemoveC
  by_cases hch : bget rc.changed_mask ci.val
  · simp [hch, bget_bset, bget_bclear _ _ _ hcs hcs]
  · by_cases hrm : bget rc.removed_mask ci.val
    · simp [hch, hrm, bget_bset, bget_bclear _ _ _ hcs hcs]
    · simp [hch, hrm, bget_bset, bget_bclear _ _ _ hcs hcs,
        Function.update_same]

lemma recordRemoveC_self_true (rc : RollbackChunk V) (ov : Option V)
    (ci : Fin 64) :
    (bget (rc.recordRemoveC ci true ov).created_mask ci.val = false) ∧
    (bget (rc.recordRemoveC ci true ov).changed_mask ci.val = false) ∧
    (bget (rc.recordRemoveC ci true ov).removed_mask ci.val = false) ∧
    (rc.recordRemoveC ci true ov).data = rc.data := by
  have hcs : ci.val < 64 := ci.isLt
  unfold RollbackChunk.recordRemoveC
  simp [bget_bclear _ _ _ hcs hcs]

lemma recordRemoveC_lt (rc : RollbackChunk V) (ci : Fin 64) (wc : Bool)
    (ov : Option V) (h1 : rc.created_mask < 2 ^ 64)
    (h2 : rc.changed_mask < 2 ^ 64) (h3 : rc.removed_mask < 2 ^ 64) :
    (rc.recordRemoveC ci wc ov).created_mask < 2 ^ 64 ∧
    (rc.recordRemoveC ci wc ov).changed_mask < 2 ^ 64 ∧
    (rc.recordRemoveC ci wc ov).removed_mask < 2 ^ 64 := by
  have hcs : ci.val < 64 := ci.isLt
  unfold RollbackChunk.recordRemoveC
  split
  · exact ⟨bclear_lt64 _ _ hcs, bclear_lt64 _ _ hcs, bclear_lt64 _ _ hcs⟩
  · exact ⟨bclear_lt64 _ _ hcs, bclear_lt64 _ _ hcs,
      bset_lt64 _ _ h3 hcs⟩

lemma recordRemove_proj (j : RollbackStorage V) (hwf : j.wfJ) (i : Nat)
    (h : i < 262144) (ov : Option V) (r : RollbackStorage V)
    (hr : r = j.recordRemove (sIdx i h) (pIdx i) (cIdx i) false ov) :
    (∀ s2 : Fin 64, s2 ≠ sIdx i h → r.data s2 = j.data s2) ∧
    (∀ s2 : Fin 64,
      bget r.changed_mask s2.val
        = (bget j.changed_mask s2.val || decide (s2 = sIdx i h))) ∧
    (∀ p2 : Fin 64,
      bget (r.data (sIdx i h)).changed_mask p2.val
        = (bget (j.data (sIdx i h)).changed_mask p2.val ||
           decide (p2 = pIdx i))) ∧
    (∀ i2 : Nat, ∀ h2 : i2 < 262144, i2 ≠ i →
      recCr r i2 h2 = recCr j i2 h2 ∧
      recCh r i2 h2 = recCh j i2 h2 ∧
      recRm r i2 h2 = recRm j i2 h2 ∧
      ((recCh j i2 h2 = true ∨ recRm j i2 h2 = true) →
        recVal r i2 h2 = recVal j i2 h2)) ∧
    (recCr r i h = false) ∧
    (recCh r i h = false) ∧
    (recRm r i h = true) ∧
    ((recCh j i h = true ∨ recRm j i h = true) →
      recVal r i h = recVal j i h) ∧
    ((!recCh j i h && !recRm j i h) = true →
      recVal r i h = ov) ∧
    r.changed_mask < 2 ^ 64 ∧
    (∀ s2 : Fin 64, (r.data s2).changed_mask < 2 ^ 64) ∧
    (∀ s2 p2 : Fin 64,
      (r.data s2).data p2 = ((j.data s2).data p2) ∨
      ((r.data s2).data p2).created_mask < 2 ^ 64 ∧
      ((r.data s2).data p2).changed_mask < 2 ^ 64 ∧
      ((r.data s2).data p2).removed_mask < 2 ^ 64) := by
  obtain ⟨hjm, hsi⟩ := hwf
  have hwf2 : j.wfJ := ⟨hjm, hsi⟩
  have hgate := chunkOrNew_bits j hwf2 (sIdx i h) (pIdx i)
  have hds : r.data (sIdx i h)
      = { j.pageOrNew (sIdx i h) with
          data := Function.update (j.pageOrNew (sIdx i h)).data (pIdx i)
            (((j.pageOrNew (sIdx i h)).chunkOrNew (pIdx i)).recordRemoveC
              (cIdx i) false ov)
          changed_mask :=
            bset (j.pageOrNew (sIdx i h)).changed_mask (pIdx i).val } := by
    rw [hr]
    unfold RollbackStorage.recordRemove
    simp [Function.update_same]
  have hdo : ∀ s2 : Fin 64, s2 ≠ sIdx i h → r.data s2 = j.data s2 := by
    intro s2 hne
    rw [hr]
    unfold RollbackStorage.recordRemove
    simp only [Bool.false_eq_true, if_false]
    exact Function.update_noteq hne _ _
  have hcm : r.changed_mask = bset j.changed_mask (sIdx i h).val := by
    rw [hr]
    unfold RollbackStorage.recordRemove
    simp only [Bool.false_eq_true, if_false]
  have hpageOrNew_ch : ∀ p2 : Fin 64,
      bget (j.pageOrNew (sIdx i h)).changed_mask p2.val
        = bget (j.data (sIdx i h)).changed_mask p2.val := by
    intro p2
    unfold RollbackStorage.pageOrNew
    by_cases hgs : bget j.changed_mask (sIdx i h).val
    · simp [hgs]
    · simp only [hgs, Bool.false_eq_true, if_false]
      cases hold : bget (j.data (sIdx i h)).changed_mask p2.val
      · simp [emptyRollbackPage, bget]
      · obtain ⟨k, hk⟩ := (hsi (sIdx i h)).2.2 p2 |>.2.2.2.1 hold
        rcases hk with hb | hb | hb
        · exact absurd (((hsi (sIdx i h)).2.2 p2).2.2.2.2 k |>.2.2.2
            (Or.inl hb)).2 hgs
        · exact absurd (((hsi (sIdx i h)).2.2 p2).2.2.2.2 k |>.2.2.2
            (Or.inr (Or.inl hb))).2 hgs
        · exact absurd (((hsi (sIdx i h)).2.2 p2).2.2.2.2 k |>.2.2.2
            (Or.inr (Or.inr hb))).2 hgs
  have hpageOrNew_other : ∀ p2 : Fin 64, p2 ≠ pIdx i →
      (bget ((j.pageOrNew (sIdx i h)).data p2).created_mask
        = bget ((j.data (sIdx i h)).data p2).created_mask ∧
       bget ((j.pageOrNew (sIdx i h)).data p2).changed_mask
        = bget ((j.data (sIdx i h)).data p2).changed_mask ∧
       bget ((j.pageOrNew (sIdx i h)).data p2).removed_mask
        = bget ((j.data (sIdx i h)).data p2).removed_mask) ∧
      (∀ k : Fin 64,
        (bget ((j.data (sIdx i h)).data p2).changed_mask k.val = true ∨
         bget ((j.data (sIdx i h)).data p2).removed_mask k.val = true) →
        ((j.pageOrNew (sIdx i h)).data p2).data k
          = ((j.data (sIdx i h)).data p2).data k) := by
    intro p2 _
    unfold RollbackStorage.pageOrNew
    by_cases hgs : bget j.changed_mask (sIdx i h).val
    · simp [hgs]
    · simp only [hgs, Bool.false_eq_true, if_false]
      have hzero : ∀ k : Fin 64,
          bget ((j.data (sIdx i h)).data p2).created_mask k.val = false ∧
          bget ((j.data (sIdx i h)).data p2).changed_mask k.val = false ∧
          bget ((j.data (sIdx i h)).data p2).removed_mask k.val = false := by
        intro k
        have hsum := ((hsi (sIdx i h)).2.2 p2).2.2.2.2 k |>.2.2.2
        refine ⟨?_, ?_, ?_⟩
        · cases hb : bget ((j.data (sIdx i h)).data p2).created_mask k.val
          · rfl
          · exact absurd (hsum (Or.inl hb)).2 hgs
        · cases hb : bget ((j.data (sIdx i h)).data p2).changed_mask k.val
          · rfl
          · exact absurd (hsum (Or.inr (Or.inl hb))).2 hgs
        · cases hb : bget ((j.data (sIdx i h)).data p2).removed_mask k.val
          · rfl
          · exact absurd (hsum (Or.inr (Or.inr hb))).2 hgs
      refine ⟨⟨?_, ?_, ?_⟩, ?_⟩
      · funext k2
        by_cases hk2 : k2 < 64
        · rw [(hzero ⟨k2, hk2⟩).1]
          simp [emptyRollbackPage, emptyRollbackChunk, bget]
        · simp [emptyRollbackPage, emptyRollbackChunk, bget]
          rw [Nat.testBit_lt_two_pow]
          exact lt_of_lt_of_le ((hsi (sIdx i h)).2.2 p2).1
            (Nat.pow_le_pow_right (by norm_num) (by omega))
      · funext k2
        by_cases hk2 : k2 < 64
        · rw [(hzero ⟨k2, hk2⟩).2.1]
          simp [emptyRollbackPage, emptyRollbackChunk, bget]
        · simp [emptyRollbackPage, emptyRollbackChunk, bget]
          rw [Nat.testBit_lt_two_pow]
          exact lt_of_lt_of_le ((hsi (sIdx i h)).2.2 p2).2.1
            (Nat.pow_le_pow_right (by norm_num) (by omega))
      · funext k2
        by_cases hk2 : k2 < 64
        · rw [(hzero ⟨k2, hk2⟩).2.2]
          simp [emptyRollbackPage, emptyRollbackChunk, bget]
        · simp [emptyRollbackPage, emptyRollbackChunk, bget]
          rw [Nat.testBit_lt_two_pow]
          exact lt_of_lt_of_le ((hsi (sIdx i h)).2.2 p2).2.2.1
            (Nat.pow_le_pow_right (by norm_num) (by omega))
      · intro k hk
        rcases hk with hb | hb
        · rw [(hzero k).2.1] at hb
          exact absurd hb (by simp)
        · rw [(hzero k).2.2] at hb
          exact absurd hb (by simp)
  have hcon := recordRemoveC_other ((j.pageOrNew (sIdx i h)).chunkOrNew (pIdx i))
    (cIdx i) false ov
  have hcself := recordRemoveC_self_false
    ((j.pageOrNew (sIdx i h)).chunkOrNew (pIdx i)) (cIdx i) ov
  have hchunk : (r.data (sIdx i h)).data (pIdx i)
      = ((j.pageOrNew (sIdx i h)).chunkOrNew (pIdx i)).recordRemoveC
          (cIdx i) false ov := by
    rw [hds]
    simp [Function.update_same]
  have hchunk2 : ∀ p2 : Fin 64, p2 ≠ pIdx i →
      (r.data (sIdx i h)).data p2 = (j.pageOrNew (sIdx i h)).data p2 := by
    intro p2 hne
    rw [hds]
    simp only []
    exact Function.update_noteq hne _ _
  have hgg := hgate (cIdx i)
  refine ⟨hdo, ?_, ?_, ?_, ?_, ?_, ?_, ?_, ?_, ?_, ?_, ?_⟩
  · intro s2
    rw [hcm, bget_bset]
    by_cases hx : s2 = sIdx i h
    · simp [hx]
    · have hvne : s2.val ≠ (sIdx i h).val := fun hv => hx (Fin.ext hv)
      simp [hx, hvne]
  · intro p2
    have hpc : (r.data (sIdx i h)).changed_mask
        = bset (j.pageOrNew (sIdx i h)).changed_mask (pIdx i).val := by
      rw [hds]
    rw [hpc, bget_bset, hpageOrNew_ch p2]
    by_cases hx : p2 = pIdx i
    · simp [hx]
    · have hvne : p2.val ≠ (pIdx i).val := fun hv => hx (Fin.ext hv)
      simp [hx, hvne]
  · intro i2 h2 hne
    by_cases hs2 : sIdx i2 h2 = sIdx i h
    · by_cases hp2 : pIdx i2 = pIdx i
      · have hc2 : cIdx i2 ≠ cIdx i := by
          intro hc
          exact hne (idx_eq_of_paths i2 i h2 h
            (by have := congrArg Fin.val hs2; simpa [sIdx_val] using this)
            (by have := congrArg Fin.val hp2; simpa [pIdx_val] using this)
            (by have := congrArg Fin.val hc; simpa [cIdx_val] using this))
        have hcc := hcon (cIdx i2) hc2
        have hgg2 := chunkOrNew_bits j hwf2 (sIdx i h) (pIdx i) (cIdx i2)
        have e1 : (r.data (sIdx i2 h2)).data (pIdx i2)
            = ((j.pageOrNew (sIdx i h)).chunkOrNew (pIdx i)).recordRemoveC
                (cIdx i) false ov := by
          rw [hs2, hp2, hchunk]
        have e2 : (j.data (sIdx i2 h2)).data (pIdx i2)
            = (j.data (sIdx i h)).data (pIdx i) := by
          rw [hs2, hp2]
        refine ⟨?_, ?_, ?_, ?_⟩
        · unfold recCr
          rw [e1, e2]
          exact hcc.1.trans hgg2.1
        · unfold recCh
          rw [e1, e2]
          exact hcc.2.1.trans hgg2.2.1
        · unfold recRm
          rw [e1, e2]
          exact hcc.2.2.1.trans hgg2.2.2.1
        · intro hor
          unfold recVal
          rw [e1, e2]
          refine hcc.2.2.2.trans (hgg2.2.2.2 ?_)
          unfold recCh recRm at hor
          rw [e2] at hor
          rcases hor with hb | hb
          · exact Or.inr (Or.inl hb)
          · exact Or.inr (Or.inr hb)
      · have hpo := hpageOrNew_other (pIdx i2) hp2
        have e1 : (r.data (sIdx i2 h2)).data (pIdx i2)
            = (j.pageOrNew (sIdx i h)).data (pIdx i2) := by
          rw [hs2, hchunk2 (pIdx i2) hp2]
        have e2 : (j.data (sIdx i2 h2)).data (pIdx i2)
            = (j.data (sIdx i h)).data (pIdx i2) := by
          rw [hs2]
        refine ⟨?_, ?_, ?_, ?_⟩
        · unfold recCr
          rw [e1, e2]
          exact congrFun hpo.1.1 (i2 % 64)
        · unfold recCh
          rw [e1, e2]
          exact congrFun hpo.1.2.1 (i2 % 64)
        · unfold recRm
          rw [e1, e2]
          exact congrFun hpo.1.2.2 (i2 % 64)
        · intro hor
          unfold recVal
          rw [e1, e2]
          refine hpo.2 (cIdx i2) ?_
          unfold recCh recRm at hor
          rw [e2] at hor
          exact hor
    · have e1 : r.data (sIdx i2 h2) = j.data (sIdx i2 h2) := hdo _ hs2
      unfold recCr recCh recRm recVal
      rw [e1]
      exact ⟨rfl, rfl, rfl, fun _ => rfl⟩
  · have e1 : recCr r i h
        = bget (((j.pageOrNew (sIdx i h)).chunkOrNew (pIdx i)).recordRemoveC
            (cIdx i) false ov).created_mask (cIdx i).val := by
      unfold recCr
      rw [hchunk]
      rfl
    rw [e1, hcself.1]
  · have e1 : recCh r i h
        = bget (((j.pageOrNew (sIdx i h)).chunkOrNew (pIdx i)).recordRemoveC
            (cIdx i) false ov).changed_mask (cIdx i).val := by
      unfold recCh
      rw [hchunk]
      rfl
    rw [e1, hcself.2.1]
  · have e1 : recRm r i h
        = bget (((j.pageOrNew (sIdx i h)).chunkOrNew (pIdx i)).recordRemoveC
            (cIdx i) false ov).removed_mask (cIdx i).val := by
      unfold recRm
      rw [hchunk]
      rfl
    rw [e1, hcself.2.2.1]
  · intro hor
    have eV : recVal r i h
        = (((j.pageOrNew (sIdx i h)).chunkOrNew (pIdx i)).recordRemoveC
            (cIdx i) false ov).data (cIdx i) := by
      unfold recVal
      rw [hchunk]
    have hdata : ((j.pageOrNew (sIdx i h)).chunkOrNew (pIdx i)).data (cIdx i)
        = ((j.data (sIdx i h)).data (pIdx i)).data (cIdx i) := by
      refine hgg.2.2.2 ?_
      unfold recCh recRm at hor
      rcases hor with hb | hb
      · exact Or.inr (Or.inl hb)
      · exact Or.inr (Or.inr hb)
    rw [eV, hcself.2.2.2]
    split
    case isTrue hcond =>
      exfalso
      simp only [Bool.and_eq_true, Bool.not_eq_true'] at hcond
      have hcond2 := hcond.1
      have hcond3 := hcond.2
      rw [hgg.2.1] at hcond2
      rw [hgg.2.2.1] at hcond3
      rw [show ((cIdx i : Fin 64)).val = i % 64 from rfl] at hcond2 hcond3
      unfold recCh recRm at hor
      rcases hor with hb | hb
      · rw [hb] at hcond2
        simp at hcond2
      · rw [hb] at hcond3
        simp at hcond3
    case isFalse =>
      exact hdata
  · intro hcond
    simp only [Bool.and_eq_true, Bool.not_eq_true'] at hcond
    have eV : recVal r i h
        = (((j.pageOrNew (sIdx i h)).chunkOrNew (pIdx i)).recordRemoveC
            (cIdx i) false ov).data (cIdx i) := by
      unfold recVal
      rw [hchunk]
    rw [eV, hcself.2.2.2, if_pos ?_]
    unfold recCh recRm at hcond
    simp only [Bool.and_eq_true, Bool.not_eq_true']
    rw [hgg.2.1, hgg.2.2.1]
    exact ⟨hcond.1, hcond.2⟩
  · rw [hcm]
    exact bset_lt64 _ _ hjm (sIdx i h).isLt
  · intro s2
    by_cases hx : s2 = sIdx i h
    · have hpc : (r.data s2).changed_mask
          = bset (j.pageOrNew (sIdx i h)).changed_mask (pIdx i).val := by
        rw [hx, hds]
      rw [hpc]
      refine bset_lt64 _ _ ?_ (pIdx i).isLt
      unfold RollbackStorage.pageOrNew
      split
      · exact (hsi (sIdx i h)).1
      · simp [emptyRollbackPage]
    · rw [hdo s2 hx]
      exact (hsi s2).1
  · intro s2 p2
    by_cases hx : s2 = sIdx i h
    · by_cases hp : p2 = pIdx i
      · have e1 : (r.data s2).data p2
            = ((j.pageOrNew (sIdx i h)).chunkOrNew (pIdx i)).recordRemoveC
                (cIdx i) false ov := by
          rw [hx, hp, hchunk]
        rw [e1]
        have hcb : ((j.pageOrNew (sIdx i h)).chunkOrNew (pIdx i)).created_mask
              < 2 ^ 64 ∧
            ((j.pageOrNew (sIdx i h)).chunkOrNew (pIdx i)).changed_mask
              < 2 ^ 64 ∧
            ((j.pageOrNew (sIdx i h)).chunkOrNew (pIdx i)).removed_mask
              < 2 ^ 64 := by
          unfold RollbackStorage.pageOrNew RollbackPage.chunkOrNew
          split
          · split
            · exact ⟨((hsi (sIdx i h)).2.2 (pIdx i)).1,
                ((hsi (sIdx i h)).2.2 (pIdx i)).2.1,
                ((hsi (sIdx i h)).2.2 (pIdx i)).2.2.1⟩
            · norm_num [emptyRollbackChunk]
          · split
            · norm_num [emptyRollbackPage, emptyRollbackChunk]
            · norm_num [emptyRollbackPage, emptyRollbackChunk]
        exact Or.inr (recordRemoveC_lt _ _ _ _ hcb.1 hcb.2.1 hcb.2.2)
      · have e1 : (r.data s2).data p2 = (j.pageOrNew (sIdx i h)).data p2 := by
          rw [hx, hchunk2 p2 hp]
        rw [e1]
        unfold RollbackStorage.pageOrNew
        split
        · rw [hx]
          exact Or.inl rfl
        · refine Or.inr ?_
          norm_num [emptyRollbackPage, emptyRollbackChunk]
    · rw [hdo s2 hx]
      exact Or.inl rfl

lemma path_of_triple (s2 p2 k : Fin 64) :
    ∃ i2 : Nat, ∃ h2 : i2 < 262144,
      sIdx i2 h2 = s2 ∧ pIdx i2 = p2 ∧ cIdx i2 = k := by
  have hs := s2.isLt
  have hp := p2.isLt
  have hk := k.isLt
  refine ⟨s2.val * 4096 + p2.val * 64 + k.val, by omega, ?_, ?_, ?_⟩
  · exact Fin.ext (by rw [sIdx_val]; omega)
  · exact Fin.ext (by rw [pIdx_val]; omega)
  · exact Fin.ext (by rw [cIdx_val]; omega)

lemma recordSet_full (j : RollbackStorage V) (hwf : j.wfJ)
    (A B : Nat → Option V)
    (hrec : ∀ i2 : Nat, ∀ h2 : i2 < 262144, recSpec j i2 h2 (A i2) (B i2))
    (i : Nat) (h : i < 262144) (v : V) (r : RollbackStorage V)
    (hr : r = j.recordSet (sIdx i h) (pIdx i) (cIdx i) (B i).isSome (B i)) :
    r.wfJ ∧
    (∀ i2 : Nat, ∀ h2 : i2 < 262144,
      recSpec r i2 h2 (A i2) (if i2 = i then some v else B i2)) ∧
    (recRm j i h = true → recCh r i h = true ∧ recVal r i h = recVal j i h) ∧
    (recCr j i h = false ∧ recCh j i h = false ∧ recRm j i h = false ∧
      B i = none → recCr r i h = true) := by
  have hov : (B i).isSome = true → (B i).isSome = true := fun x => x
  obtain ⟨hdo, hsm, hpm, hoth, hcr, hch, hrm, hvkeep, hvov, hb1, hb2, hb3⟩ :=
    recordSet_proj j hwf i h (B i).isSome (B i) hov r hr
  have hrecI := hrec i h
  have hexcl : ∀ i2 : Nat, ∀ h2 : i2 < 262144,
      (recCr j i2 h2 = true → recCh j i2 h2 = false ∧ recRm j i2 h2 = false) ∧
      (recCh j i2 h2 = true → recRm j i2 h2 = false) ∧
      ((recCh j i2 h2 = true ∨ recRm j i2 h2 = true) →
        (recVal j i2 h2).isSome = true) ∧
      ((recCr j i2 h2 = true ∨ recCh j i2 h2 = true ∨ recRm j i2 h2 = true) →
        bget (j.data (sIdx i2 h2)).changed_mask (pIdx i2).val = true ∧
        bget j.changed_mask (sIdx i2 h2).val = true) := by
    intro i2 h2
    have hk := (hwf.2 (sIdx i2 h2)).2.2 (pIdx i2) |>.2.2.2.2 (cIdx i2)
    refine ⟨?_, ?_, ?_, ?_⟩
    · intro hb
      have hthis := hk.1 hb
      refine ⟨?_, ?_⟩
      · cases hx : recCh j i2 h2
        · rfl
        · exact absurd hx hthis.1
      · cases hx : recRm j i2 h2
        · rfl
        · exact absurd hx hthis.2
    · intro hb
      have hthis := hk.2.1 hb
      cases hx : recRm j i2 h2
      · rfl
      · exact absurd hx hthis
    · exact fun hb => hk.2.2.1 hb
    · exact fun hb => hk.2.2.2 hb
  -- the new record at `i` is `created` or `changed`
  have hself_or : recCr r i h = true ∨ recCh r i h = true := by
    rw [hcr, hch]
    cases hx : recCr j i h
    · cases hw : (B i).isSome
      · cases hz : recRm j i h
        · simp
        · simp
      · simp
    · simp
  refine ⟨?_, ?_, ?_, ?_⟩
  · -- well-formedness of the updated journal
    refine ⟨hb1, ?_⟩
    intro s2
    refine ⟨hb2 s2, ?_, ?_⟩
    · intro hbit
      by_cases hx : s2 = sIdx i h
      · subst hx
        refine ⟨pIdx i, ?_⟩
        rw [hpm (pIdx i)]
        simp
      · rw [hsm s2] at hbit
        have hold : bget j.changed_mask s2.val = true := by
          rcases Bool.or_eq_true_iff.mp hbit with hb | hb
          · exact hb
          · exact absurd (of_decide_eq_true hb) hx
        obtain ⟨p2, hp2⟩ := (hwf.2 s2).2.1 hold
        refine ⟨p2, ?_⟩
        rw [hdo s2 hx]
        exact hp2
    · intro p2
      obtain ⟨i2, h2, his, hip, hic⟩ := path_of_triple s2 p2 0
      refine ⟨?_, ?_, ?_, ?_, ?_⟩
      · rcases hb3 s2 p2 with he | hb
        · rw [he]
          exact ((hwf.2 s2).2.2 p2).1
        · exact hb.1
      · rcases hb3 s2 p2 with he | hb
        · rw [he]
          exact ((hwf.2 s2).2.2 p2).2.1
        · exact hb.2.1
      · rcases hb3 s2 p2 with he | hb
        · rw [he]
          exact ((hwf.2 s2).2.2 p2).2.2.1
        · exact hb.2.2
      · -- page summary justification
        intro hbit
        by_cases hx : s2 = sIdx i h
        · by_cases hp : p2 = pIdx i
          · subst hx; subst hp
            rcases hself_or with hs | hs
            · exact ⟨cIdx i, Or.inl (by
                unfold recCr at hs
                exact hs)⟩
            · exact ⟨cIdx i, Or.inr (Or.inl (by
                unfold recCh at hs
                exact hs))⟩
          · subst hx
            rw [hpm p2] at hbit
            have hold : bget (j.data (sIdx i h)).changed_mask p2.val
                = true := by
              rcases Bool.or_eq_true_iff.mp hbit with hb | hb
              · exact hb
              · exact absurd (of_decide_eq_true hb) hp
            obtain ⟨k, hk⟩ := ((hwf.2 (sIdx i h)).2.2 p2).2.2.2.1 hold
            obtain ⟨i3, h3, his3, hip3, hic3⟩ := path_of_triple (sIdx i h) p2 k
            have hne3 : i3 ≠ i := by
              intro he
              refine hp ?_
              rw [← hip3, he]
            obtain ⟨g1, g2, g3, _⟩ := hoth i3 h3 hne3
            refine ⟨k, ?_⟩
            have hkv : i3 % 64 = k.val := by
              have hh3 := congrArg Fin.val hic3
              rw [cIdx_val] at hh3
              exact hh3
            have ecr : bget ((r.data (sIdx i h)).data p2).created_mask k.val
                = bget ((j.data (sIdx i h)).data p2).created_mask k.val := by
              have e1 : recCr r i3 h3 = recCr j i3 h3 := g1
              unfold recCr at e1
              rw [his3, hip3, hkv] at e1
              exact e1
            have ech : bget ((r.data (sIdx i h)).data p2).changed_mask k.val
                = bget ((j.data (sIdx i h)).data p2).changed_mask k.val := by
              have e1 : recCh r i3 h3 = recCh j i3 h3 := g2
              unfold recCh at e1
              rw [his3, hip3, hkv] at e1
              exact e1
            have erm : bget ((r.data (sIdx i h)).data p2).removed_mask k.val
                = bget ((j.data (sIdx i h)).data p2).removed_mask k.val := by
              have e1 : recRm r i3 h3 = recRm j i3 h3 := g3
              unfold recRm at e1
              rw [his3, hip3, hkv] at e1
              exact e1
            rcases hk with hb | hb | hb
            · exact Or.inl (ecr.trans hb)
            · exact Or.inr (Or.inl (ech.trans hb))
            · exact Or.inr (Or.inr (erm.trans hb))
        · rw [hdo s2 hx] at hbit ⊢
          obtain ⟨k, hk⟩ := ((hwf.2 s2).2.2 p2).2.2.2.1 hbit
          exact ⟨k, hk⟩
      · -- per-slot exclusivity, J2, J3
        intro k
        obtain ⟨i2, h2, his, hip, hic⟩ := path_of_triple s2 p2 k
        have hkv : k.val = i2 % 64 := by
          have := congrArg Fin.val hic
          rw [cIdx_val] at this
          exact this.symm
        by_cases hii : i2 = i
        · subst hii
          have hcrr : bget ((r.data s2).data p2).created_mask k.val
              = recCr r i2 h := by
            unfold recCr
            rw [his, hip, hkv]
          have hchr : bget ((r.data s2).data p2).changed_mask k.val
              = recCh r i2 h := by
            unfold recCh
            rw [his, hip, hkv]
          have hrmr : bget ((r.data s2).data p2).removed_mask k.val
              = recRm r i2 h := by
            unfold recRm
            rw [his, hip, hkv]
          have hvr : ((r.data s2).data p2).data k = recVal r i2 h := by
            unfold recVal
            rw [his, hip, hic]
          rw [hcrr, hchr, hrmr, hvr, hcr, hch, hrm]
          obtain ⟨hn, hc, hh, hm⟩ := hrecI
          obtain ⟨he1, he2, he3, he4⟩ := hexcl i2 h
          refine ⟨?_, ?_, ?_, ?_⟩
          · intro hb
            constructor
            · cases hx : recCr j i2 h
              · rw [hx] at hb
                simp at hb
                simp [hx, hb]
              · simp [hx, (he1 hx).2]
            · simp
          · intro _
            simp
          · intro hb
            rcases hb with hb | hb
            · simp only [Bool.and_eq_true, Bool.not_eq_true'] at hb
              by_cases hx : recCh j i2 h = true ∨ recRm j i2 h = true
              · rw [hvkeep hx]
                exact he3 hx
              · push_neg at hx
                have hx1 : recCh j i2 h = false := by
                  cases hy : recCh j i2 h
                  · rfl
                  · exact absurd hy hx.1
                have hx2 : recRm j i2 h = false := by
                  cases hy : recRm j i2 h
                  · rfl
                  · exact absurd hy hx.2
                have hwp : (B i2).isSome = true := by
                  rcases Bool.or_eq_true_iff.mp hb.2 with hw | hw
                  · exact hw
                  · exact absurd hw (by simp [hx2])
                rw [hvov (by simp [hb.1, hwp, hx1, hx2])]
                exact hwp
            · simp at hb
          · intro _
            constructor
            · rw [← his, ← hip, hpm (pIdx i2)]
              simp
            · rw [← his, hsm (sIdx i2 h)]
              simp
        · obtain ⟨g1, g2, g3, g4⟩ := hoth i2 h2 hii
          have hcrr : bget ((r.data s2).data p2).created_mask k.val
              = recCr r i2 h2 := by
            unfold recCr
            rw [his, hip, hkv]
          have hchr : bget ((r.data s2).data p2).changed_mask k.val
              = recCh r i2 h2 := by
            unfold recCh
            rw [his, hip, hkv]
          have hrmr : bget ((r.data s2).data p2).removed_mask k.val
              = recRm r i2 h2 := by
            unfold recRm
            rw [his, hip, hkv]
          have hvr : ((r.data s2).data p2).data k = recVal r i2 h2 := by
            unfold recVal
            rw [his, hip, hic]
          obtain ⟨he1, he2, he3, he4⟩ := hexcl i2 h2
          rw [hcrr, hchr, hrmr, hvr, g1, g2, g3]
          refine ⟨?_, ?_, ?_, ?_⟩
          · intro hb
            exact ⟨by simp [(he1 hb).1], by simp [(he1 hb).2]⟩
          · intro hb
            simp [he2 hb]
          · intro hb
            rw [g4 hb]
            exact he3 hb
          · intro hb
            have hold := he4 hb
            rw [his, hip] at hold
            constructor
            · by_cases hx : s2 = sIdx i h
              · rw [hx, hpm p2]
                rw [hx] at hold
                rw [hold.1]
                simp
              · rw [hdo s2 hx]
                exact hold.1
            · rw [hsm s2, hold.2]
              simp
  · -- recSpec of every slot against the updated current state
    intro i2 h2
    by_cases hii : i2 = i
    · subst hii
      simp only [if_pos rfl]
      obtain ⟨hn, hc, hh, hm⟩ := hrecI
      obtain ⟨he1, he2, he3, he4⟩ := hexcl i2 h
      refine ⟨?_, ?_, ?_, ?_⟩
      · intro hb
        exfalso
        rcases hself_or with hs | hs
        · exact absurd hs (by simp [hb.1])
        · exact absurd hs (by simp [hb.2.1])
      · intro hb
        rw [hcr] at hb
        constructor
        · by_cases hz : recCr j i2 h = true
          · exact (hc hz).1
          · have hcrf : recCr j i2 h = false := by
              cases hz2 : recCr j i2 h
              · rfl
              · exact absurd hz2 hz
            have hx : (!(B i2).isSome && !recRm j i2 h) = true := by
              rcases Bool.or_eq_true_iff.mp hb with hw | hw
              · exact absurd hw hz
              · exact hw
            simp only [Bool.and_eq_true, Bool.not_eq_true'] at hx
            have hni : (B i2).isSome = false := hx.1
            by_cases hy : recCh j i2 h = true
            · exact absurd (hh hy).2.2 (by simp [hni])
            · have hy1 : recCh j i2 h = false := by
                cases hz2 : recCh j i2 h
                · rfl
                · exact absurd hz2 hy
              have hAB := hn ⟨by simp [hcrf], by simp [hy1], by simp [hx.2]⟩
              rw [← hAB]
              cases hbi : B i2
              · rfl
              · rw [hbi] at hni
                simp at hni
        · simp
      · intro hb
        rw [hch] at hb
        simp only [Bool.and_eq_true, Bool.not_eq_true'] at hb
        have hcrj : recCr j i2 h = false := hb.1
        refine ⟨?_, ?_, by simp⟩
        · by_cases hx : recCh j i2 h = true ∨ recRm j i2 h = true
          · rw [hvkeep hx]
            rcases hx with hx | hx
            · exact (hh hx).1
            · exact (hm hx).1
          · push_neg at hx
            have hx1 : recCh j i2 h = false := by
              cases hy : recCh j i2 h
              · rfl
              · exact absurd hy hx.1
            have hx2 : recRm j i2 h = false := by
              cases hy : recRm j i2 h
              · rfl
              · exact absurd hy hx.2
            have hwp : (B i2).isSome = true := by
              rcases Bool.or_eq_true_iff.mp hb.2 with hw | hw
              · exact hw
              · exact absurd hw (by simp [hx2])
            rw [hvov (by simp [hcrj, hwp, hx1, hx2])]
            have := hn ⟨by simp [hcrj], by simp [hx1], by simp [hx2]⟩
            rw [this]
        · by_cases hx : recCh j i2 h = true ∨ recRm j i2 h = true
          · rcases hx with hx | hx
            · exact (hh hx).2.1
            · exact (hm hx).2.1
          · push_neg at hx
            have hx1 : recCh j i2 h = false := by
              cases hy : recCh j i2 h
              · rfl
              · exact absurd hy hx.1
            have hx2 : recRm j i2 h = false := by
              cases hy : recRm j i2 h
              · rfl
              · exact absurd hy hx.2
            have hwp : (B i2).isSome = true := by
              rcases Bool.or_eq_true_iff.mp hb.2 with hw | hw
              · exact hw
              · exact absurd hw (by simp [hx2])
            have := hn ⟨by simp [hcrj], by simp [hx1], by simp [hx2]⟩
            rw [← this]
            exact hwp
      · intro hb
        rw [hrm] at hb
        simp at hb
    · simp only [if_neg hii]
      obtain ⟨g1, g2, g3, g4⟩ := hoth i2 h2 hii
      obtain ⟨hn, hc, hh, hm⟩ := hrec i2 h2
      unfold recSpec
      rw [g1, g2, g3]
      refine ⟨hn, hc, ?_, ?_⟩
      · intro hb
        refine ⟨?_, (hh hb).2.1, (hh hb).2.2⟩
        rw [g4 (Or.inl hb)]
        exact (hh hb).1
      · intro hb
        refine ⟨?_, (hm hb).2.1, (hm hb).2.2⟩
        rw [g4 (Or.inr hb)]
        exact (hm hb).1
  · intro hb
    obtain ⟨he1, he2, he3, he4⟩ := hexcl i h
    have hcrj : recCr j i h = false := by
      cases hx : recCr j i h
      · rfl
      · exact absurd hb (by simp [(he1 hx).2])
    constructor
    · rw [hch, hcrj, hb]
      simp
    · exact hvkeep (Or.inr hb)
  · rintro ⟨hx1, hx2, hx3, hx4⟩
    rw [hcr, hx1, hx3, hx4]
    simp

lemma recordRemove_full (j : RollbackStorage V) (hwf : j.wfJ)
    (A B : Nat → Option V)
    (hrec : ∀ i2 : Nat, ∀ h2 : i2 < 262144, recSpec j i2 h2 (A i2) (B i2))
    (i : Nat) (h : i < 262144) (r : RollbackStorage V)
    (hBi : (B i).isSome = true) (hncr : recCr j i h = false)
    (hr : r = j.recordRemove (sIdx i h) (pIdx i) (cIdx i) false (B i)) :
    r.wfJ ∧
    (∀ i2 : Nat, ∀ h2 : i2 < 262144,
      recSpec r i2 h2 (A i2) (if i2 = i then none else B i2)) ∧
    (recCh j i h = false ∧ recRm j i h = false →
      recRm r i h = true ∧ recVal r i h = B i) := by
  obtain ⟨hdo, hsm, hpm, hoth, hcr, hch, hrm, hvkeep, hvov, hb1, hb2, hb3⟩ :=
    recordRemove_proj j hwf i h (B i) r hr
  obtain ⟨hn, hc, hh, hm⟩ := hrec i h
  have hexcl : ∀ i2 : Nat, ∀ h2 : i2 < 262144,
      (recCr j i2 h2 = true → recCh j i2 h2 = false ∧ recRm j i2 h2 = false) ∧
      (recCh j i2 h2 = true → recRm j i2 h2 = false) ∧
      ((recCh j i2 h2 = true ∨ recRm j i2 h2 = true) →
        (recVal j i2 h2).isSome = true) ∧
      ((recCr j i2 h2 = true ∨ recCh j i2 h2 = true ∨ recRm j i2 h2 = true) →
        bget (j.data (sIdx i2 h2)).changed_mask (pIdx i2).val = true ∧
        bget j.changed_mask (sIdx i2 h2).val = true) := by
    intro i2 h2
    have hk := (hwf.2 (sIdx i2 h2)).2.2 (pIdx i2) |>.2.2.2.2 (cIdx i2)
    refine ⟨?_, ?_, ?_, ?_⟩
    · intro hb
      have hthis := hk.1 hb
      refine ⟨?_, ?_⟩
      · cases hx : recCh j i2 h2
        · rfl
        · exact absurd hx hthis.1
      · cases hx : recRm j i2 h2
        · rfl
        · exact absurd hx hthis.2
    · intro hb
      have hthis := hk.2.1 hb
      cases hx : recRm j i2 h2
      · rfl
      · exact absurd hx hthis
    · exact fun hb => hk.2.2.1 hb
    · exact fun hb => hk.2.2.2 hb
  have hrmj : recRm j i h = false := by
    cases hx : recRm j i h
    · rfl
    · exact absurd hBi (by simp [(hm hx).2.2])
  have hvalA : recVal r i h = A i ∧ (A i).isSome = true := by
    by_cases hx : recCh j i h = true
    · exact ⟨(hvkeep (Or.inl hx)).trans (hh hx).1, (hh hx).2.1⟩
    · have hx1 : recCh j i h = false := by
        cases hz : recCh j i h
        · rfl
        · exact absurd hz hx
      have hab := hn ⟨by simp [hncr], by simp [hx1], by simp [hrmj]⟩
      refine ⟨(hvov (by simp [hx1, hrmj])).trans hab, ?_⟩
      rw [← hab]
      exact hBi
  refine ⟨?_, ?_, ?_⟩
  · -- well-formedness of the updated journal
    refine ⟨hb1, ?_⟩
    intro s2
    refine ⟨hb2 s2, ?_, ?_⟩
    · intro hbit
      by_cases hx : s2 = sIdx i h
      · subst hx
        refine ⟨pIdx i, ?_⟩
        rw [hpm (pIdx i)]
        simp
      · rw [hsm s2] at hbit
        have hold : bget j.changed_mask s2.val = true := by
          rcases Bool.or_eq_true_iff.mp hbit with hb | hb
          · exact hb
          · exact absurd (of_decide_eq_true hb) hx
        obtain ⟨p2, hp2⟩ := (hwf.2 s2).2.1 hold
        refine ⟨p2, ?_⟩
        rw [hdo s2 hx]
        exact hp2
    · intro p2
      obtain ⟨i2, h2, his, hip, hic⟩ := path_of_triple s2 p2 0
      refine ⟨?_, ?_, ?_, ?_, ?_⟩
      · rcases hb3 s2 p2 with he | hb
        · rw [he]
          exact ((hwf.2 s2).2.2 p2).1
        · exact hb.1
      · rcases hb3 s2 p2 with he | hb
        · rw [he]
          exact ((hwf.2 s2).2.2 p2).2.1
        · exact hb.2.1
      · rcases hb3 s2 p2 with he | hb
        · rw [he]
          exact ((hwf.2 s2).2.2 p2).2.2.1
        · exact hb.2.2
      · -- page summary justification
        intro hbit
        by_cases hx : s2 = sIdx i h
        · by_cases hp : p2 = pIdx i
          · subst hx; subst hp
            refine ⟨cIdx i, Or.inr (Or.inr ?_)⟩
            have hs := hrm
            unfold recRm at hs
            exact hs
          · subst hx
            rw [hpm p2] at hbit
            have hold : bget (j.data (sIdx i h)).changed_mask p2.val
                = true := by
              rcases Bool.or_eq_true_iff.mp hbit with hb | hb
              · exact hb
              · exact absurd (of_decide_eq_true hb) hp
            obtain ⟨k, hk⟩ := ((hwf.2 (sIdx i h)).2.2 p2).2.2.2.1 hold
            obtain ⟨i3, h3, his3, hip3, hic3⟩ := path_of_triple (sIdx i h) p2 k
            have hne3 : i3 ≠ i := by
              intro he
              refine hp ?_
              rw [← hip3, he]
            obtain ⟨g1, g2, g3, _⟩ := hoth i3 h3 hne3
            refine ⟨k, ?_⟩
            have hkv : i3 % 64 = k.val := by
              have hh3 := congrArg Fin.val hic3
              rw [cIdx_val] at hh3
              exact hh3
            have ecr : bget ((r.data (sIdx i h)).data p2).created_mask k.val
                = bget ((j.data (sIdx i h)).data p2).created_mask k.val := by
              have e1 : recCr r i3 h3 = recCr j i3 h3 := g1
              unfold recCr at e1
              rw [his3, hip3, hkv] at e1
              exact e1
            have ech : bget ((r.data (sIdx i h)).data p2).changed_mask k.val
                = bget ((j.data (sIdx i h)).data p2).changed_mask k.val := by
              have e1 : recCh r i3 h3 = recCh j i3 h3 := g2
              unfold recCh at e1
              rw [his3, hip3, hkv] at e1
              exact e1
            have erm : bget ((r.data (sIdx i h)).data p2).removed_mask k.val
                = bget ((j.data (sIdx i h)).data p2).removed_mask k.val := by
              have e1 : recRm r i3 h3 = recRm j i3 h3 := g3
              unfold recRm at e1
              rw [his3, hip3, hkv] at e1
              exact e1
            rcases hk with hb | hb | hb
            · exact Or.inl (ecr.trans hb)
            · exact Or.inr (Or.inl (ech.trans hb))
            · exact Or.inr (Or.inr (erm.trans hb))
        · rw [hdo s2 hx] at hbit ⊢
          obtain ⟨k, hk⟩ := ((hwf.2 s2).2.2 p2).2.2.2.1 hbit
          exact ⟨k, hk⟩
      · -- per-slot exclusivity, J2, J3
        intro k
        obtain ⟨i2, h2, his, hip, hic⟩ := path_of_triple s2 p2 k
        have hkv : k.val = i2 % 64 := by
          have := congrArg Fin.val hic
          rw [cIdx_val] at this
          exact this.symm
        by_cases hii : i2 = i
        · subst hii
          have hcrr : bget ((r.data s2).data p2).created_mask k.val
              = recCr r i2 h := by
            unfold recCr
            rw [his, hip, hkv]
          have hchr : bget ((r.data s2).data p2).changed_mask k.val
              = recCh r i2 h := by
            unfold recCh
            rw [his, hip, hkv]
          have hrmr : bget ((r.data s2).data p2).removed_mask k.val
              = recRm r i2 h := by
            unfold recRm
            rw [his, hip, hkv]
          have hvr : ((r.data s2).data p2).data k = recVal r i2 h := by
            unfold recVal
            rw [his, hip, hic]
          rw [hcrr, hchr, hrmr, hvr, hcr, hch, hrm]
          refine ⟨?_, ?_, ?_, ?_⟩
          · intro hb
            exact absurd hb (by simp)
          · intro hb
            exact absurd hb (by simp)
          · intro _
            rw [hvalA.1]
            exact hvalA.2
          · intro _
            constructor
            · rw [← his, ← hip, hpm (pIdx i2)]
              simp
            · rw [← his, hsm (sIdx i2 h)]
              simp
        · obtain ⟨g1, g2, g3, g4⟩ := hoth i2 h2 hii
          have hcrr : bget ((r.data s2).data p2).created_mask k.val
              = recCr r i2 h2 := by
            unfold recCr
            rw [his, hip, hkv]
          have hchr : bget ((r.data s2).data p2).changed_mask k.val
              = recCh r i2 h2 := by
            unfold recCh
            rw [his, hip, hkv]
          have hrmr : bget ((r.data s2).data p2).removed_mask k.val
              = recRm r i2 h2 := by
            unfold recRm
            rw [his, hip, hkv]
          have hvr : ((r.data s2).data p2).data k = recVal r i2 h2 := by
            unfold recVal
            rw [his, hip, hic]
          obtain ⟨he1, he2, he3, he4⟩ := hexcl i2 h2
          rw [hcrr, hchr, hrmr, hvr, g1, g2, g3]
          refine ⟨?_, ?_, ?_, ?_⟩
          · intro hb
            exact ⟨by simp [(he1 hb).1], by simp [(he1 hb).2]⟩
          · intro hb
            simp [he2 hb]
          · intro hb
            rw [g4 hb]
            exact he3 hb
          · intro hb
            have hold := he4 hb
            rw [his, hip] at hold
            constructor
            · by_cases hx : s2 = sIdx i h
              · rw [hx, hpm p2]
                rw [hx] at hold
                rw [hold.1]
                simp
              · rw [hdo s2 hx]
                exact hold.1
            · rw [hsm s2, hold.2]
              simp
  · -- recSpec of every slot against the updated current state
    intro i2 h2
    by_cases hii : i2 = i
    · subst hii
      simp only [if_pos rfl]
      refine ⟨?_, ?_, ?_, ?_⟩
      · intro hb
        exact absurd hrm hb.2.2
      · intro hb
        rw [hcr] at hb
        exact absurd hb (by simp)
      · intro hb
        rw [hch] at hb
        exact absurd hb (by simp)
      · intro _
        exact ⟨hvalA.1, hvalA.2, rfl⟩
    · simp only [if_neg hii]
      obtain ⟨g1, g2, g3, g4⟩ := hoth i2 h2 hii
      obtain ⟨hn2, hc2, hh2, hm2⟩ := hrec i2 h2
      unfold recSpec
      rw [g1, g2, g3]
      refine ⟨hn2, hc2, ?_, ?_⟩
      · intro hb
        refine ⟨?_, (hh2 hb).2.1, (hh2 hb).2.2⟩
        rw [g4 (Or.inl hb)]
        exact (hh2 hb).1
      · intro hb
        refine ⟨?_, (hm2 hb).2.1, (hm2 hb).2.2⟩
        rw [g4 (Or.inr hb)]
        exact (hm2 hb).1
  · rintro ⟨hx1, hx2⟩
    exact ⟨hrm, hvov (by simp [hx1, hx2])⟩


lemma recordRemove_created_common (j : RollbackStorage V) (hwf : j.wfJ)
    (A B : Nat → Option V)
    (hrec : ∀ i2 : Nat, ∀ h2 : i2 < 262144, recSpec j i2 h2 (A i2) (B i2))
    (i : Nat) (h : i < 262144) (ov : Option V) (r : RollbackStorage V)
    (hcrj : recCr j i h = true)
    (hdo : ∀ s2 : Fin 64, s2 ≠ sIdx i h → r.data s2 = j.data s2)
    (hcd : (r.data (sIdx i h)).data
      = Function.update (j.data (sIdx i h)).data (pIdx i)
          (((j.data (sIdx i h)).data (pIdx i)).recordRemoveC (cIdx i) true ov))
    (hpm1 : ∀ p2 : Fin 64, p2 ≠ pIdx i →
      bget (r.data (sIdx i h)).changed_mask p2.val
        = bget (j.data (sIdx i h)).changed_mask p2.val)
    (hpm2 : (∃ k : Fin 64,
        bget (((j.data (sIdx i h)).data (pIdx i)).recordRemoveC
          (cIdx i) true ov).created_mask k.val = true ∨
        bget (((j.data (sIdx i h)).data (pIdx i)).recordRemoveC
          (cIdx i) true ov).changed_mask k.val = true ∨
        bget (((j.data (sIdx i h)).data (pIdx i)).recordRemoveC
          (cIdx i) true ov).removed_mask k.val = true) →
      bget (r.data (sIdx i h)).changed_mask (pIdx i).val = true)
    (hpm3 : bget (r.data (sIdx i h)).changed_mask (pIdx i).val = true →
      ∃ k : Fin 64,
        bget (((j.data (sIdx i h)).data (pIdx i)).recordRemoveC
          (cIdx i) true ov).created_mask k.val = true ∨
        bget (((j.data (sIdx i h)).data (pIdx i)).recordRemoveC
          (cIdx i) true ov).changed_mask k.val = true ∨
        bget (((j.data (sIdx i h)).data (pIdx i)).recordRemoveC
          (cIdx i) true ov).removed_mask k.val = true)
    (hsm1 : ∀ s2 : Fin 64, s2 ≠ sIdx i h →
      bget r.changed_mask s2.val = bget j.changed_mask s2.val)
    (hsm2 : bget r.changed_mask (sIdx i h).val = true →
      ∃ p2 : Fin 64, bget (r.data (sIdx i h)).changed_mask p2.val = true)
    (hsm3 : ∀ p2 : Fin 64,
      bget (r.data (sIdx i h)).changed_mask p2.val = true →
      bget r.changed_mask (sIdx i h).val = true)
    (hbm1 : r.changed_mask < 2 ^ 64)
    (hbm2 : (r.data (sIdx i h)).changed_mask < 2 ^ 64) :
    r.wfJ ∧
    (∀ i2 : Nat, ∀ h2 : i2 < 262144,
      recSpec r i2 h2 (A i2) (if i2 = i then none else B i2)) ∧
    recCr r i h = false ∧ recCh r i h = false ∧ recRm r i h = false := by
  obtain ⟨hjm, hsi⟩ := hwf
  have hch_pi : (r.data (sIdx i h)).data (pIdx i)
      = ((j.data (sIdx i h)).data (pIdx i)).recordRemoveC (cIdx i) true ov := by
    rw [hcd]
    exact Function.update_same _ _ _
  have hch_other : ∀ p2 : Fin 64, p2 ≠ pIdx i →
      (r.data (sIdx i h)).data p2 = (j.data (sIdx i h)).data p2 := by
    intro p2 hne
    rw [hcd]
    exact Function.update_noteq hne _ _
  have hself := recordRemoveC_self_true ((j.data (sIdx i h)).data (pIdx i))
    ov (cIdx i)
  have hclt := recordRemoveC_lt ((j.data (sIdx i h)).data (pIdx i))
    (cIdx i) true ov ((hsi (sIdx i h)).2.2 (pIdx i)).1
    ((hsi (sIdx i h)).2.2 (pIdx i)).2.1 ((hsi (sIdx i h)).2.2 (pIdx i)).2.2.1
  have hoth : ∀ i2 : Nat, ∀ h2 : i2 < 262144, i2 ≠ i →
      recCr r i2 h2 = recCr j i2 h2 ∧ recCh r i2 h2 = recCh j i2 h2 ∧
      recRm r i2 h2 = recRm j i2 h2 ∧ recVal r i2 h2 = recVal j i2 h2 := by
    intro i2 h2 hne
    by_cases hs2 : sIdx i2 h2 = sIdx i h
    · by_cases hp2 : pIdx i2 = pIdx i
      · have hc2 : cIdx i2 ≠ cIdx i := by
          intro hc
          exact hne (idx_eq_of_paths i2 i h2 h
            (by have := congrArg Fin.val hs2; simpa [sIdx_val] using this)
            (by have := congrArg Fin.val hp2; simpa [pIdx_val] using this)
            (by have := congrArg Fin.val hc; simpa [cIdx_val] using this))
        have hcc := recordRemoveC_other ((j.data (sIdx i h)).data (pIdx i))
          (cIdx i) true ov (cIdx i2) hc2
        have e1 : (r.data (sIdx i2 h2)).data (pIdx i2)
            = ((j.data (sIdx i h)).data (pIdx i)).recordRemoveC
                (cIdx i) true ov := by
          rw [hs2, hp2, hch_pi]
        have e2 : (j.data (sIdx i2 h2)).data (pIdx i2)
            = (j.data (sIdx i h)).data (pIdx i) := by
          rw [hs2, hp2]
        refine ⟨?_, ?_, ?_, ?_⟩
        · unfold recCr
          rw [e1, e2]
          exact hcc.1
        · unfold recCh
          rw [e1, e2]
          exact hcc.2.1
        · unfold recRm
          rw [e1, e2]
          exact hcc.2.2.1
        · unfold recVal
          rw [e1, e2]
          exact hcc.2.2.2
      · have e1 : (r.data (sIdx i2 h2)).data (pIdx i2)
            = (j.data (sIdx i h)).data (pIdx i2) := by
          rw [hs2, hch_other (pIdx i2) hp2]
        have e2 : (j.data (sIdx i2 h2)).data (pIdx i2)
            = (j.data (sIdx i h)).data (pIdx i2) := by
          rw [hs2]
        unfold recCr recCh recRm recVal
        rw [e1, e2]
        exact ⟨rfl, rfl, rfl, rfl⟩
    · have e1 : r.data (sIdx i2 h2) = j.data (sIdx i2 h2) := hdo _ hs2
      unfold recCr recCh recRm recVal
      rw [e1]
      exact ⟨rfl, rfl, rfl, rfl⟩
  have hbits : recCr r i h = false ∧ recCh r i h = false ∧
      recRm r i h = false := by
    have e1 : recCr r i h
        = bget (((j.data (sIdx i h)).data (pIdx i)).recordRemoveC
            (cIdx i) true ov).created_mask (cIdx i).val := by
      unfold recCr
      rw [hch_pi]
      rfl
    have e2 : recCh r i h
        = bget (((j.data (sIdx i h)).data (pIdx i)).recordRemoveC
            (cIdx i) true ov).changed_mask (cIdx i).val := by
      unfold recCh
      rw [hch_pi]
      rfl
    have e3 : recRm r i h
        = bget (((j.data (sIdx i h)).data (pIdx i)).recordRemoveC
            (cIdx i) true ov).removed_mask (cIdx i).val := by
      unfold recRm
      rw [hch_pi]
      rfl
    exact ⟨e1.trans hself.1, e2.trans hself.2.1, e3.trans hself.2.2.1⟩
  refine ⟨?_, ?_, hbits⟩
  · -- well-formedness of the updated journal
    refine ⟨hbm1, ?_⟩
    intro s2
    by_cases hx : s2 = sIdx i h
    · subst hx
      refine ⟨hbm2, hsm2, ?_⟩
      intro p2
      by_cases hp : p2 = pIdx i
      · subst hp
        rw [hch_pi]
        refine ⟨hclt.1, hclt.2.1, hclt.2.2, hpm3, ?_⟩
        intro k
        by_cases hk : k = cIdx i
        · subst hk
          rw [hself.1, hself.2.1, hself.2.2.1]
          refine ⟨?_, ?_, ?_, ?_⟩
          · intro hb
            exact absurd hb (by simp)
          · intro hb
            exact absurd hb (by simp)
          · rintro (hb | hb) <;> exact absurd hb (by simp)
          · rintro (hb | hb | hb) <;> exact absurd hb (by simp)
        · have hcc := recordRemoveC_other ((j.data (sIdx i h)).data (pIdx i))
            (cIdx i) true ov k hk
          rw [hcc.1, hcc.2.1, hcc.2.2.1, hcc.2.2.2]
          have hold := ((hsi (sIdx i h)).2.2 (pIdx i)).2.2.2.2 k
          refine ⟨hold.1, hold.2.1, hold.2.2.1, ?_⟩
          intro hb
          have hpbit : bget (r.data (sIdx i h)).changed_mask (pIdx i).val
              = true := by
            refine hpm2 ⟨k, ?_⟩
            rcases hb with hb | hb | hb
            · exact Or.inl (by rw [hcc.1]; exact hb)
            · exact Or.inr (Or.inl (by rw [hcc.2.1]; exact hb))
            · exact Or.inr (Or.inr (by rw [hcc.2.2.1]; exact hb))
          exact ⟨hpbit, hsm3 (pIdx i) hpbit⟩
      · rw [hch_other p2 hp]
        have holdp := (hsi (sIdx i h)).2.2 p2
        refine ⟨holdp.1, holdp.2.1, holdp.2.2.1, ?_, ?_⟩
        · intro hb
          rw [hpm1 p2 hp] at hb
          exact holdp.2.2.2.1 hb
        · intro k
          have hold := holdp.2.2.2.2 k
          refine ⟨hold.1, hold.2.1, hold.2.2.1, ?_⟩
          intro hb
          have hpbit : bget (r.data (sIdx i h)).changed_mask p2.val
              = true := by
            rw [hpm1 p2 hp]
            exact (hold.2.2.2 hb).1
          exact ⟨hpbit, hsm3 p2 hpbit⟩
    · rw [hdo s2 hx, hsm1 s2 hx]
      refine ⟨(hsi s2).1, (hsi s2).2.1, ?_⟩
      intro p2
      exact (hsi s2).2.2 p2
  · -- recSpec of every slot against the updated current state
    intro i2 h2
    by_cases hii : i2 = i
    · subst hii
      simp only [if_pos rfl]
      refine ⟨?_, ?_, ?_, ?_⟩
      · intro _
        exact ((hrec i2 h2).2.1 hcrj).1.symm
      · intro hb
        rw [hbits.1] at hb
        exact absurd hb (by simp)
      · intro hb
        rw [hbits.2.1] at hb
        exact absurd hb (by simp)
      · intro hb
        rw [hbits.2.2] at hb
        exact absurd hb (by simp)
    · simp only [if_neg hii]
      obtain ⟨g1, g2, g3, g4⟩ := hoth i2 h2 hii
      obtain ⟨hn2, hc2, hh2, hm2⟩ := hrec i2 h2
      unfold recSpec
      rw [g1, g2, g3, g4]
      exact ⟨hn2, hc2, hh2, hm2⟩

lemma or_eq_zero_left (a b : Nat) (h : a ||| b = 0) : a = 0 := by
  refine Nat.eq_of_testBit_eq ?_
  intro k
  rw [Nat.zero_testBit]
  cases hb : a.testBit k
  · rfl
  · have hob : (a ||| b).testBit k = true := by
      rw [Nat.testBit_or, hb]
      simp
    rw [h, Nat.zero_testBit] at hob
    exact absurd hob (by simp)

lemma or_eq_zero_right (a b : Nat) (h : a ||| b = 0) : b = 0 := by
  refine Nat.eq_of_testBit_eq ?_
  intro k
  rw [Nat.zero_testBit]
  cases hb : b.testBit k
  · rfl
  · have hob : (a ||| b).testBit k = true := by
      rw [Nat.testBit_or, hb]
      simp
    rw [h, Nat.zero_testBit] at hob
    exact absurd hob (by simp)

lemma recordRemove_full_created (j : RollbackStorage V) (hwf : j.wfJ)
    (A B : Nat → Option V)
    (hrec : ∀ i2 : Nat, ∀ h2 : i2 < 262144, recSpec j i2 h2 (A i2) (B i2))
    (i : Nat) (h : i < 262144) (ov : Option V) (r : RollbackStorage V)
    (hcrj : recCr j i h = true)
    (hr : r = j.recordRemove (sIdx i h) (pIdx i) (cIdx i) true ov) :
    r.wfJ ∧
    (∀ i2 : Nat, ∀ h2 : i2 < 262144,
      recSpec r i2 h2 (A i2) (if i2 = i then none else B i2)) ∧
    recCr r i h = false ∧ recCh r i h = false ∧ recRm r i h = false := by
  obtain ⟨hjm, hsi⟩ := hwf
  have hwf2 : j.wfJ := ⟨hjm, hsi⟩
  have hps := ((hsi (sIdx i h)).2.2 (pIdx i)).2.2.2.2 (cIdx i) |>.2.2.2
    (Or.inl hcrj)
  have hpb : bget (j.data (sIdx i h)).changed_mask (pIdx i).val = true :=
    hps.1
  have hsb : bget j.changed_mask (sIdx i h).val = true := hps.2
  have hpon : j.pageOrNew (sIdx i h) = j.data (sIdx i h) := by
    unfold RollbackStorage.pageOrNew
    simp [hsb]
  have hcon2 : (j.data (sIdx i h)).chunkOrNew (pIdx i)
      = (j.data (sIdx i h)).data (pIdx i) := by
    unfold RollbackPage.chunkOrNew
    simp [hpb]
  have hclt := recordRemoveC_lt ((j.data (sIdx i h)).data (pIdx i))
    (cIdx i) true ov ((hsi (sIdx i h)).2.2 (pIdx i)).1
    ((hsi (sIdx i h)).2.2 (pIdx i)).2.1 ((hsi (sIdx i h)).2.2 (pIdx i)).2.2.1
  have hre := hr
  unfold RollbackStorage.recordRemove RollbackPage.getChunk at hre
  rw [hpon, hcon2] at hre
  simp only [eq_self_iff_true, if_true, hsb, hpb, Function.update_same] at hre
  by_cases hcho :
      ((((j.data (sIdx i h)).data (pIdx i)).recordRemoveC (cIdx i) true
          ov).created_mask |||
        (((j.data (sIdx i h)).data (pIdx i)).recordRemoveC (cIdx i) true
          ov).changed_mask |||
        (((j.data (sIdx i h)).data (pIdx i)).recordRemoveC (cIdx i) true
          ov).removed_mask) ≠ 0
  · -- a diff remains in the chunk: summaries untouched
    rw [if_neg (by simp [hcho])] at hre
    have hp1 : r.data (sIdx i h)
        = { j.data (sIdx i h) with
            data := Function.update (j.data (sIdx i h)).data (pIdx i)
              (((j.data (sIdx i h)).data (pIdx i)).recordRemoveC
                (cIdx i) true ov) } := by
      rw [hre]
      exact Function.update_same _ _ _
    have hdo : ∀ s2 : Fin 64, s2 ≠ sIdx i h → r.data s2 = j.data s2 := by
      intro s2 hne
      rw [hre]
      exact Function.update_noteq hne _ _
    have hcm : r.changed_mask = j.changed_mask := by
      rw [hre]
    have hpmask : (r.data (sIdx i h)).changed_mask
        = (j.data (sIdx i h)).changed_mask := by
      rw [hp1]
    refine recordRemove_created_common j hwf2 A B hrec i h ov r hcrj hdo
      (by rw [hp1]) ?_ ?_ ?_ ?_ ?_ ?_ ?_ ?_
    · intro p2 _
      rw [hpmask]
    · intro _
      rw [hpmask]
      exact hpb
    · intro _
      obtain ⟨k, hk⟩ := (mask_ne_zero_iff _
        (Nat.or_lt_two_pow (Nat.or_lt_two_pow hclt.1 hclt.2.1)
          hclt.2.2)).mp hcho
      refine ⟨k, ?_⟩
      rw [Nat.testBit_or, Nat.testBit_or] at hk
      rcases Bool.or_eq_true_iff.mp hk with hb | hb
      · rcases Bool.or_eq_true_iff.mp hb with hb2 | hb2
        · exact Or.inl hb2
        · exact Or.inr (Or.inl hb2)
      · exact Or.inr (Or.inr hb)
    · intro s2 _
      rw [hcm]
    · intro _
      exact ⟨pIdx i, by rw [hpmask]; exact hpb⟩
    · intro p2 _
      rw [hcm]
      exact hsb
    · rw [hcm]
      exact hjm
    · rw [hpmask]
      exact (hsi (sIdx i h)).1
  · -- the chunk diff vanished entirely: clear the page summary bit
    push_neg at hcho
    have hmz : (((j.data (sIdx i h)).data (pIdx i)).recordRemoveC (cIdx i)
          true ov).created_mask = 0 ∧
        (((j.data (sIdx i h)).data (pIdx i)).recordRemoveC (cIdx i)
          true ov).changed_mask = 0 ∧
        (((j.data (sIdx i h)).data (pIdx i)).recordRemoveC (cIdx i)
          true ov).removed_mask = 0 := by
      refine ⟨or_eq_zero_left _ _ (or_eq_zero_left _ _ hcho),
        or_eq_zero_right _ _ (or_eq_zero_left _ _ hcho),
        or_eq_zero_right _ _ hcho⟩
    rw [if_pos (by simp [hcho])] at hre
    have hpm2 : (∃ k : Fin 64,
        bget (((j.data (sIdx i h)).data (pIdx i)).recordRemoveC
          (cIdx i) true ov).created_mask k.val = true ∨
        bget (((j.data (sIdx i h)).data (pIdx i)).recordRemoveC
          (cIdx i) true ov).changed_mask k.val = true ∨
        bget (((j.data (sIdx i h)).data (pIdx i)).recordRemoveC
          (cIdx i) true ov).removed_mask k.val = true) →
        bget (r.data (sIdx i h)).changed_mask (pIdx i).val = true := by
      rintro ⟨k, hk⟩
      exfalso
      rcases hk with hb | hb | hb
      · rw [hmz.1] at hb
        simp [bget] at hb
      · rw [hmz.2.1] at hb
        simp [bget] at hb
      · rw [hmz.2.2] at hb
        simp [bget] at hb
    by_cases hpz : bclear (j.data (sIdx i h)).changed_mask (pIdx i).val = 0
    · -- the page summary emptied too: clear the storage bit
      rw [if_pos (by simp [hpz])] at hre
      have hp1 : r.data (sIdx i h)
          = { j.data (sIdx i h) with
              data := Function.update (j.data (sIdx i h)).data (pIdx i)
                (((j.data (sIdx i h)).data (pIdx i)).recordRemoveC
                  (cIdx i) true ov)
              changed_mask :=
                bclear (j.data (sIdx i h)).changed_mask (pIdx i).val } := by
        rw [hre]
        exact Function.update_same _ _ _
      have hdo : ∀ s2 : Fin 64, s2 ≠ sIdx i h → r.data s2 = j.data s2 := by
        intro s2 hne
        rw [hre]
        simp only []
        rw [Function.update_noteq hne _ _]
        exact Function.update_noteq hne _ _
      have hcm : r.changed_mask = bclear j.changed_mask (sIdx i h).val := by
        rw [hre]
      have hpmask : (r.data (sIdx i h)).changed_mask
          = bclear (j.data (sIdx i h)).changed_mask (pIdx i).val := by
        rw [hp1]
      refine recordRemove_created_common j hwf2 A B hrec i h ov r hcrj hdo
        (by rw [hp1]) ?_ hpm2 ?_ ?_ ?_ ?_ ?_ ?_
      · intro p2 hne
        have hvne : p2.val ≠ (pIdx i).val := fun hv => hne (Fin.ext hv)
        rw [hpmask, bget_bclear _ _ _ (pIdx i).isLt p2.isLt]
        simp [hvne]
      · intro hb
        exfalso
        rw [hpmask, hpz] at hb
        simp [bget] at hb
      · intro s2 hne
        have hvne : s2.val ≠ (sIdx i h).val := fun hv => hne (Fin.ext hv)
        rw [hcm, bget_bclear _ _ _ (sIdx i h).isLt s2.isLt]
        simp [hvne]
      · intro hb
        exfalso
        rw [hcm, bget_bclear _ _ _ (sIdx i h).isLt (sIdx i h).isLt] at hb
        simp at hb
      · intro p2 hb
        exfalso
        rw [hpmask, hpz] at hb
        simp [bget] at hb
      · rw [hcm]
        exact bclear_lt64 _ _ (sIdx i h).isLt
      · rw [hpmask]
        exact bclear_lt64 _ _ (pIdx i).isLt
    · -- other chunks still have diffs: keep the storage bit
      rw [if_neg (by simp [hpz])] at hre
      have hp1 : r.data (sIdx i h)
          = { j.data (sIdx i h) with
              data := Function.update (j.data (sIdx i h)).data (pIdx i)
                (((j.data (sIdx i h)).data (pIdx i)).recordRemoveC
                  (cIdx i) true ov)
              changed_mask :=
                bclear (j.data (sIdx i h)).changed_mask (pIdx i).val } := by
        rw [hre]
        exact Function.update_same _ _ _
      have hdo : ∀ s2 : Fin 64, s2 ≠ sIdx i h → r.data s2 = j.data s2 := by
        intro s2 hne
        rw [hre]
        simp only []
        rw [Function.update_noteq hne _ _]
        exact Function.update_noteq hne _ _
      have hcm : r.changed_mask = j.changed_mask := by
        rw [hre]
      have hpmask : (r.data (sIdx i h)).changed_mask
          = bclear (j.data (sIdx i h)).changed_mask (pIdx i).val := by
        rw [hp1]
      refine recordRemove_created_common j hwf2 A B hrec i h ov r hcrj hdo
        (by rw [hp1]) ?_ hpm2 ?_ ?_ ?_ ?_ ?_ ?_
      · intro p2 hne
        have hvne : p2.val ≠ (pIdx i).val := fun hv => hne (Fin.ext hv)
        rw [hpmask, bget_bclear _ _ _ (pIdx i).isLt p2.isLt]
        simp [hvne]
      · intro hb
        exfalso
        rw [hpmask, bget_bclear _ _ _ (pIdx i).isLt (pIdx i).isLt] at hb
        simp at hb
      · intro s2 _
        rw [hcm]
      · intro _
        obtain ⟨p2, hp2⟩ := (mask_ne_zero_iff _
          (bclear_lt64 _ _ (pIdx i).isLt)).mp hpz
        exact ⟨p2, by rw [hpmask]; exact hp2⟩
      · intro p2 _
        rw [hcm]
        exact hsb
      · rw [hcm]
        exact hjm
      · rw [hpmask]
        exact bclear_lt64 _ _ (pIdx i).isLt

lemma get_congr (s t : Storage V)
    (hc : ∀ a b : Fin 64, (t.data a).data b = (s.data a).data b) :
    ∀ i2 : Nat, t.get i2 = s.get i2 := by
  intro i2
  unfold Storage.get
  by_cases h2 : i2 < 262144
  · rw [dif_pos h2, dif_pos h2]
    simp only []
    rw [hc (sIdx i2 h2) (pIdx i2)]
  · rw [dif_neg h2, dif_neg h2]

lemma allocPageIfAbsent_parts (s : Storage V) (hw : s.treeWF) (si : Fin 64) :
    (s.allocPageIfAbsent si).data = s.data ∧
    bget (s.allocPageIfAbsent si).presence_mask si.val = true ∧
    (s.allocPageIfAbsent si).treeWF ∧
    (s.allocPageIfAbsent si).rollback = s.rollback ∧
    (s.allocPageIfAbsent si).prev = s.prev ∧
    (s.allocPageIfAbsent si).count = s.count := by
  unfold Storage.allocPageIfAbsent
  by_cases hp : bget s.presence_mask si.val
  · rw [if_pos hp]
    exact ⟨rfl, hp, hw, rfl, rfl, rfl⟩
  · have he : s.data si = emptyPage V := (hw si).1 hp
    rw [if_neg hp]
    have hd : Function.update s.data si (emptyPage V) = s.data := by
      rw [← he]
      exact Function.update_eq_self si s.data
    refine ⟨hd, ?_, ?_, rfl, rfl, rfl⟩
    · show bget (bset s.presence_mask si.val) si.val = true
      rw [bget_bset]
      simp
    · intro a
      constructor
      · intro ha
        have ha2 : ¬ bget (bset s.presence_mask si.val) a.val = true := ha
        rw [bget_bset] at ha2
        simp only [Bool.or_eq_true, decide_eq_true_eq, not_or] at ha2
        have := (hw a).1 (by simp [ha2.1])
        show Function.update s.data si (emptyPage V) a = emptyPage V
        rw [hd]
        exact this
      · intro b
        show (¬ bget ((Function.update s.data si (emptyPage V)) a).presence_mask
            b.val → (Function.update s.data si (emptyPage V) a).data b
              = emptyChunk V) ∧ _
        rw [hd]
        exact (hw a).2 b

lemma allocChunkIfAbsent_parts (page : Page V)
    (hco : ∀ b : Fin 64, ¬ bget page.presence_mask b.val →
      page.data b = emptyChunk V) (pi : Fin 64) :
    (page.allocChunkIfAbsent pi).data = page.data ∧
    bget (page.allocChunkIfAbsent pi).presence_mask pi.val = true ∧
    (∀ b : Fin 64, ¬ bget (page.allocChunkIfAbsent pi).presence_mask b.val →
      (page.allocChunkIfAbsent pi).data b = emptyChunk V) ∧
    (page.allocChunkIfAbsent pi).count = page.count := by
  unfold Page.allocChunkIfAbsent
  by_cases hp : bget page.presence_mask pi.val
  · rw [if_pos hp]
    exact ⟨rfl, hp, hco, rfl⟩
  · have he : page.data pi = emptyChunk V := hco pi hp
    rw [if_neg hp]
    have hd : Function.update page.data pi (emptyChunk V) = page.data := by
      rw [← he]
      exact Function.update_eq_self pi page.data
    refine ⟨hd, ?_, ?_, rfl⟩
    · show bget (bset page.presence_mask pi.val) pi.val = true
      rw [bget_bset]
      simp
    · intro b hb
      have hb2 : ¬ bget (bset page.presence_mask pi.val) b.val = true := hb
      rw [bget_bset] at hb2
      simp only [Bool.or_eq_true, decide_eq_true_eq, not_or] at hb2
      show Function.update page.data pi (emptyChunk V) b = emptyChunk V
      rw [hd]
      exact hco b (by simp [hb2.1])

lemma get_path (s : Storage V) (i2 : Nat) (h2 : i2 < 262144) :
    s.get i2 = slotObs ((s.data (sIdx i2 h2)).data (pIdx i2)) (cIdx i2) := by
  unfold Storage.get slotObs
  rw [dif_pos h2]
  rfl

lemma writeSlot_parts (s : Storage V) (i : Nat) (h : i < 262144) (v : V)
    (hw : s.treeWF)
    (hsp : bget s.presence_mask (sIdx i h).val = true)
    (hpp : bget (s.data (sIdx i h)).presence_mask (pIdx i).val = true) :
    (∀ i2 : Nat, (s.writeSlot (sIdx i h) (pIdx i) (cIdx i) v).get i2
      = if i2 = i then some v else s.get i2) ∧
    (s.writeSlot (sIdx i h) (pIdx i) (cIdx i) v).treeWF ∧
    (s.writeSlot (sIdx i h) (pIdx i) (cIdx i) v).rollback = s.rollback ∧
    (s.writeSlot (sIdx i h) (pIdx i) (cIdx i) v).prev = s.prev ∧
    (s.writeSlot (sIdx i h) (pIdx i) (cIdx i) v).presence_mask
      = s.presence_mask := by
  set t := s.writeSlot (sIdx i h) (pIdx i) (cIdx i) v with ht
  have hds : ∀ a : Fin 64, a ≠ sIdx i h → t.data a = s.data a := by
    intro a hne
    rw [ht]
    unfold Storage.writeSlot
    simp only []
    exact Function.update_noteq hne _ _
  have hpd : (t.data (sIdx i h)).data
      = Function.update (s.data (sIdx i h)).data (pIdx i)
          { (s.data (sIdx i h)).data (pIdx i) with
            presence_mask :=
              bset ((s.data (sIdx i h)).data (pIdx i)).presence_mask
                (cIdx i).val
            fullness_mask :=
              bset ((s.data (sIdx i h)).data (pIdx i)).fullness_mask
                (cIdx i).val
            changed_mask :=
              bset ((s.data (sIdx i h)).data (pIdx i)).changed_mask
                (cIdx i).val
            data := Function.update ((s.data (sIdx i h)).data (pIdx i)).data
              (cIdx i) (some v) } := by
    rw [ht]
    unfold Storage.writeSlot
    simp only []
    rw [Function.update_same]
  have hppm : (t.data (sIdx i h)).presence_mask
      = (s.data (sIdx i h)).presence_mask := by
    rw [ht]
    unfold Storage.writeSlot
    simp only []
    rw [Function.update_same]
  have hchunko : ∀ b : Fin 64, b ≠ pIdx i →
      (t.data (sIdx i h)).data b = (s.data (sIdx i h)).data b := by
    intro b hne
    rw [hpd]
    exact Function.update_noteq hne _ _
  have hcpres : ((t.data (sIdx i h)).data (pIdx i)).presence_mask
      = bset ((s.data (sIdx i h)).data (pIdx i)).presence_mask
          (cIdx i).val := by
    rw [hpd, Function.update_same]
  have hcdata : ((t.data (sIdx i h)).data (pIdx i)).data
      = Function.update ((s.data (sIdx i h)).data (pIdx i)).data
          (cIdx i) (some v) := by
    rw [hpd, Function.update_same]
  have hrb : t.rollback = s.rollback := by
    rw [ht]
    unfold Storage.writeSlot
    simp only []
  have hpv : t.prev = s.prev := by
    rw [ht]
    unfold Storage.writeSlot
    simp only []
  have hsm : t.presence_mask = s.presence_mask := by
    rw [ht]
    unfold Storage.writeSlot
    simp only []
  refine ⟨?_, ?_, hrb, hpv, hsm⟩
  · intro i2
    by_cases h2 : i2 < 262144
    · by_cases hii : i2 = i
      · subst hii
        rw [if_pos rfl, get_path t i2 h2]
        have e1 : (t.data (sIdx i2 h2)).data (pIdx i2)
            = (t.data (sIdx i2 h)).data (pIdx i2) := rfl
        rw [e1]
        unfold slotObs
        rw [hcpres, bget_bset]
        simp only [decide_True, Bool.or_true, if_true]
        rw [hcdata]
        exact Function.update_same _ _ _
      · by_cases hs2 : sIdx i2 h2 = sIdx i h
        · by_cases hp2 : pIdx i2 = pIdx i
          · have hc2 : cIdx i2 ≠ cIdx i := by
              intro hc
              exact hii (idx_eq_of_paths i2 i h2 h
                (by have := congrArg Fin.val hs2; simpa [sIdx_val] using this)
                (by have := congrArg Fin.val hp2; simpa [pIdx_val] using this)
                (by have := congrArg Fin.val hc; simpa [cIdx_val] using this))
            rw [if_neg hii, get_path t i2 h2, get_path s i2 h2]
            have e1 : (t.data (sIdx i2 h2)).data (pIdx i2)
                = (t.data (sIdx i h)).data (pIdx i) := by
              rw [hs2, hp2]
            have e2 : (s.data (sIdx i2 h2)).data (pIdx i2)
                = (s.data (sIdx i h)).data (pIdx i) := by
              rw [hs2, hp2]
            rw [e1, e2]
            unfold slotObs
            have hkv : (cIdx i2).val ≠ (cIdx i).val :=
              fun hv => hc2 (Fin.ext hv)
            rw [hcpres, bget_bset]
            simp only [hkv, decide_False, Bool.or_false]
            rw [hcdata, Function.update_noteq hc2]
          · rw [if_neg hii, get_path t i2 h2, get_path s i2 h2]
            have e1 : (t.data (sIdx i2 h2)).data (pIdx i2)
                = (s.data (sIdx i2 h2)).data (pIdx i2) := by
              rw [hs2, hchunko (pIdx i2) hp2]
            rw [e1]
        · rw [if_neg hii, get_path t i2 h2, get_path s i2 h2,
            hds (sIdx i2 h2) hs2]
    · have hii : i2 ≠ i := fun he => h2 (he ▸ h)
      rw [if_neg hii]
      unfold Storage.get
      rw [dif_neg h2, dif_neg h2]
  · intro a
    constructor
    · intro ha
      rw [hsm] at ha
      by_cases hx : a = sIdx i h
      · subst hx
        exact absurd hsp ha
      · rw [hds a hx]
        exact (hw a).1 ha
    · intro b
      by_cases hx : a = sIdx i h
      · subst hx
        constructor
        · intro hb
          rw [hppm] at hb
          by_cases hy : b = pIdx i
          · subst hy
            exact absurd hpp hb
          · rw [hchunko b hy]
            exact ((hw (sIdx i h)).2 b).1 hb
        · intro k
          by_cases hy : b = pIdx i
          · subst hy
            by_cases hz : k = cIdx i
            · subst hz
              rw [hcpres, hcdata, Function.update_same, bget_bset]
              simp
            · have hkv : k.val ≠ (cIdx i).val := fun hv => hz (Fin.ext hv)
              rw [hcpres, hcdata, Function.update_noteq hz, bget_bset]
              simp only [hkv, decide_False, Bool.or_false]
              exact ((hw (sIdx i h)).2 (pIdx i)).2 k
          · rw [hchunko b hy]
            exact ((hw (sIdx i h)).2 b).2 k
      · rw [hds a hx]
        exact (hw a).2 b

lemma setMaskPhase_parts (s : Storage V) (si pi : Fin 64) (cf bump : Bool)
    (hw : s.treeWF) :
    (∀ a b : Fin 64, ((s.setMaskPhase si pi cf bump).data a).data b
      = (s.data a).data b) ∧
    (s.setMaskPhase si pi cf bump).treeWF ∧
    (s.setMaskPhase si pi cf bump).rollback = s.rollback ∧
    (s.setMaskPhase si pi cf bump).prev = s.prev := by
  set t := s.setMaskPhase si pi cf bump with ht
  have hds : ∀ a : Fin 64, a ≠ si → t.data a = s.data a := by
    intro a hne
    rw [ht]
    unfold Storage.setMaskPhase
    simp only []
    exact Function.update_noteq hne _ _
  have hpp : (t.data si).data = (s.data si).data := by
    rw [ht]
    unfold Storage.setMaskPhase
    simp only []
    rw [Function.update_same]
  have hppm : (t.data si).presence_mask
      = bset (s.data si).presence_mask pi.val := by
    rw [ht]
    unfold Storage.setMaskPhase
    simp only []
    rw [Function.update_same]
  have hsm : t.presence_mask = bset s.presence_mask si.val := by
    rw [ht]
    unfold Storage.setMaskPhase
    simp only []
  have hrb : t.rollback = s.rollback := by
    rw [ht]
    unfold Storage.setMaskPhase
    simp only []
  have hpv : t.prev = s.prev := by
    rw [ht]
    unfold Storage.setMaskPhase
    simp only []
  have hcd : ∀ a b : Fin 64, (t.data a).data b = (s.data a).data b := by
    intro a b
    by_cases hx : a = si
    · subst hx
      rw [hpp]
    · rw [hds a hx]
  refine ⟨hcd, ?_, hrb, hpv⟩
  intro a
  constructor
  · intro ha
    rw [hsm] at ha
    have ha2 : ¬ bget (bset s.presence_mask si.val) a.val = true := ha
    rw [bget_bset] at ha2
    simp only [Bool.or_eq_true, decide_eq_true_eq, not_or] at ha2
    have hane : a ≠ si := fun he => ha2.2 (by rw [he])
    rw [hds a hane]
    exact (hw a).1 (by simp [ha2.1])
  · intro b
    by_cases hx : a = si
    · subst hx
      constructor
      · intro hb
        rw [hppm] at hb
        have hb2 : ¬ bget (bset (s.data a).presence_mask pi.val) b.val
            = true := hb
        rw [bget_bset] at hb2
        simp only [Bool.or_eq_true, decide_eq_true_eq, not_or] at hb2
        rw [hpp]
        exact ((hw a).2 b).1 (by simp [hb2.1])
      · intro k
        rw [hpp]
        exact ((hw a).2 b).2 k
    · rw [hds a hx]
      exact (hw a).2 b

lemma get_eq_of_data (s t : Storage V) (hd : t.data = s.data) :
    ∀ i2 : Nat, t.get i2 = s.get i2 := by
  intro i2
  unfold Storage.get
  rw [hd]

lemma treeWF_congr (s t : Storage V) (hd : t.data = s.data)
    (hp : t.presence_mask = s.presence_mask) (hw : s.treeWF) : t.treeWF := by
  unfold Storage.treeWF at hw ⊢
  rw [hd, hp]
  exact hw

lemma ensureRollbackTick_parts (s : Storage V) (ct : Nat) :
    (s.ensureRollbackTick ct).data = s.data ∧
    (s.ensureRollbackTick ct).presence_mask = s.presence_mask ∧
    (s.ensureRollbackTick ct).count = s.count ∧
    (s.ensureRollbackTick ct).generation = s.generation ∧
    (s.ensureRollbackTick ct).rollback
      = (if s.rollback.tick = ct then s.rollback else freshRollback V ct) ∧
    (s.ensureRollbackTick ct).prev
      = (if s.rollback.tick = ct then s.prev
         else (s.prev ++ [s.rollback]).drop (s.prev.length + 1 - 64)) := by
  unfold Storage.ensureRollbackTick
  by_cases hx : s.rollback.tick = ct
  · rw [if_pos hx, if_pos hx, if_pos hx]
    exact ⟨rfl, rfl, rfl, rfl, rfl, rfl⟩
  · rw [if_neg hx, if_neg hx, if_neg hx]
    refine ⟨rfl, rfl, rfl, rfl, rfl, ?_⟩
    simp only [List.length_append, List.length_singleton]

lemma get_isSome_presence (s : Storage V) (hw : s.treeWF) (i : Nat)
    (h : i < 262144) :
    bget ((s.data (sIdx i h)).data (pIdx i)).presence_mask (cIdx i).val
      = (s.get i).isSome := by
  rw [get_path s i h]
  unfold slotObs
  by_cases hb : bget ((s.data (sIdx i h)).data (pIdx i)).presence_mask
      (cIdx i).val
  · rw [if_pos hb]
    rw [((hw (sIdx i h)).2 (pIdx i)).2 (cIdx i)]
  · rw [if_neg hb]
    cases hx : bget ((s.data (sIdx i h)).data (pIdx i)).presence_mask
        (cIdx i).val
    · rfl
    · exact absurd hx hb

lemma set_state_parts (s : Storage V) (hw : s.treeWF) (ct : Nat) (i : Nat)
    (h : i < 262144) (v : V) :
    (s.set ct i v).panicMsg = none ∧
    (∀ i2 : Nat, (s.set ct i v).state.get i2
      = if i2 = i then some v else s.get i2) ∧
    (s.set ct i v).state.treeWF ∧
    (s.set ct i v).state.rollback
      = (if s.rollback.tick = ct then s.rollback
         else freshRollback V ct).recordSet (sIdx i h) (pIdx i) (cIdx i)
          (s.get i).isSome (s.get i) ∧
    (s.set ct i v).state.prev
      = (if s.rollback.tick = ct then s.prev
         else (s.prev ++ [s.rollback]).drop (s.prev.length + 1 - 64)) := by
  have hnn : ¬ ¬ i < 262144 := not_not_intro h
  obtain ⟨ha1, ha2, ha3, ha4, ha5, ha6⟩ := allocPageIfAbsent_parts s hw
    (sIdx i h)
  set s1 := s.allocPageIfAbsent (sIdx i h) with hs1
  obtain ⟨hb1, hb2, hb3, hb4⟩ := allocChunkIfAbsent_parts
    (s1.data (sIdx i h)) (fun b hb => ((ha3 (sIdx i h)).2 b).1 hb) (pIdx i)
  set s2 : Storage V :=
    { s1 with
      data := Function.update s1.data (sIdx i h)
        ((s1.data (sIdx i h)).allocChunkIfAbsent (pIdx i)) } with hs2
  have hc2d : ∀ a : Fin 64, a ≠ sIdx i h → s2.data a = s.data a := by
    intro a hne
    rw [hs2]
    simp only []
    rw [Function.update_noteq hne _ _, ha1]
  have hc2si : s2.data (sIdx i h)
      = (s1.data (sIdx i h)).allocChunkIfAbsent (pIdx i) := by
    rw [hs2]
    simp only []
    rw [Function.update_same]
  have hc2 : ∀ a b : Fin 64, (s2.data a).data b = (s.data a).data b := by
    intro a b
    by_cases hx : a = sIdx i h
    · subst hx
      rw [hc2si, hb1, ha1]
    · rw [hc2d a hx]
  have hw2 : s2.treeWF := by
    intro a
    constructor
    · intro ha
      have hpm : s2.presence_mask = s1.presence_mask := by
        rw [hs2]
      rw [hpm] at ha
      by_cases hx : a = sIdx i h
      · subst hx
        exact absurd ha2 ha
      · rw [hs2]
        simp only []
        rw [Function.update_noteq hx _ _]
        exact (ha3 a).1 ha
    · intro b
      by_cases hx : a = sIdx i h
      · subst hx
        rw [hc2si]
        constructor
        · exact hb3 b
        · intro k
          rw [hb1, ha1]
          exact ((hw (sIdx i h)).2 b).2 k
      · rw [hc2d a hx]
        exact (hw a).2 b
  have hp2s : bget s2.presence_mask (sIdx i h).val = true := by
    have hpm : s2.presence_mask = s1.presence_mask := by
      rw [hs2]
    rw [hpm]
    exact ha2
  have hp2p : bget (s2.data (sIdx i h)).presence_mask (pIdx i).val = true := by
    rw [hc2si]
    exact hb2
  have hrb2 : s2.rollback = s.rollback := by
    rw [hs2]
    simp only []
    rw [ha4]
  have hpv2 : s2.prev = s.prev := by
    rw [hs2]
    simp only []
    rw [ha5]
  obtain ⟨hw1g, hw2t, hw3r, hw4p, hw5m⟩ := writeSlot_parts s2 i h v hw2
    hp2s hp2p
  set s3 := s2.writeSlot (sIdx i h) (pIdx i) (cIdx i) v with hs3
  obtain ⟨he1, he2, he3, he4, he5, he6⟩ := ensureRollbackTick_parts s3 ct
  set s4 := s3.ensureRollbackTick ct with hs4
  set s5 : Storage V :=
    { s4 with
      rollback := s4.rollback.recordSet (sIdx i h) (pIdx i) (cIdx i)
        (bget ((s2.data (sIdx i h)).data (pIdx i)).presence_mask (cIdx i).val)
        (if bget ((s2.data (sIdx i h)).data (pIdx i)).presence_mask
            (cIdx i).val
         then ((s2.data (sIdx i h)).data (pIdx i)).data (cIdx i) else none) }
    with hs5
  set s6 := s5.setMaskPhase (sIdx i h) (pIdx i)
    (bset ((s2.data (sIdx i h)).data (pIdx i)).presence_mask (cIdx i).val
      == ones 64)
    (!(bget ((s2.data (sIdx i h)).data (pIdx i)).presence_mask (cIdx i).val))
    with hs6
  have hset : s.set ct i v = { panicMsg := none, state := s6 } := by
    unfold Storage.set
    rw [dif_neg hnn]
  have hw5 : s5.treeWF := by
    refine treeWF_congr s3 s5 ?_ ?_ hw2t
    · rw [hs5]
      simp only []
      rw [he1]
    · rw [hs5]
      simp only []
      rw [he2]
  obtain ⟨hm1, hm2, hm3, hm4⟩ := setMaskPhase_parts s5 (sIdx i h) (pIdx i)
    (bset ((s2.data (sIdx i h)).data (pIdx i)).presence_mask (cIdx i).val
      == ones 64)
    (!(bget ((s2.data (sIdx i h)).data (pIdx i)).presence_mask (cIdx i).val))
    hw5
  have hwpv : bget ((s2.data (sIdx i h)).data (pIdx i)).presence_mask
      (cIdx i).val = (s.get i).isSome := by
    rw [hc2 (sIdx i h) (pIdx i)]
    exact get_isSome_presence s hw i h
  have hovv : (if bget ((s2.data (sIdx i h)).data (pIdx i)).presence_mask
        (cIdx i).val
      then ((s2.data (sIdx i h)).data (pIdx i)).data (cIdx i) else none)
      = s.get i := by
    rw [get_path s i h]
    unfold slotObs
    rw [hc2 (sIdx i h) (pIdx i)]
  have hrb3 : s3.rollback = s.rollback := hw3r.trans hrb2
  have hpv3 : s3.prev = s.prev := hw4p.trans hpv2
  refine ⟨?_, ?_, ?_, ?_, ?_⟩
  · rw [hset]
  · intro i2
    rw [hset]
    show s6.get i2 = _
    have hg6 : s6.get i2 = s5.get i2 := get_congr s5 s6 hm1 i2
    have hg5 : s5.get i2 = s4.get i2 := by
      refine get_eq_of_data s4 s5 ?_ i2
      rw [hs5]
    have hg4 : s4.get i2 = s3.get i2 := get_eq_of_data s3 s4 he1 i2
    rw [hg6, hg5, hg4, hw1g i2]
    by_cases hii : i2 = i
    · rw [if_pos hii, if_pos hii]
    · rw [if_neg hii, if_neg hii]
      exact get_congr s s2 hc2 i2
  · rw [hset]
    exact hm2
  · rw [hset]
    show s6.rollback = _
    rw [hm3]
    have hr5 : s5.rollback = s4.rollback.recordSet (sIdx i h) (pIdx i)
        (cIdx i)
        (bget ((s2.data (sIdx i h)).data (pIdx i)).presence_mask (cIdx i).val)
        (if bget ((s2.data (sIdx i h)).data (pIdx i)).presence_mask
            (cIdx i).val
         then ((s2.data (sIdx i h)).data (pIdx i)).data (cIdx i) else none)
        := by
      rw [hs5]
    rw [hr5, hovv, hwpv, he5, hrb3]
  · rw [hset]
    show s6.prev = _
    rw [hm4]
    have hp5 : s5.prev = s4.prev := by
      rw [hs5]
    rw [hp5, he6, hrb3, hpv3]

lemma removeClearSlot_parts (s : Storage V) (i : Nat) (h : i < 262144)
    (hw : s.treeWF)
    (hsp : bget s.presence_mask (sIdx i h).val = true)
    (hpp : bget (s.data (sIdx i h)).presence_mask (pIdx i).val = true) :
    (∀ i2 : Nat, (s.removeClearSlot (sIdx i h) (pIdx i) (cIdx i)).get i2
      = if i2 = i then none else s.get i2) ∧
    (s.removeClearSlot (sIdx i h) (pIdx i) (cIdx i)).treeWF ∧
    (s.removeClearSlot (sIdx i h) (pIdx i) (cIdx i)).rollback = s.rollback ∧
    (s.removeClearSlot (sIdx i h) (pIdx i) (cIdx i)).prev = s.prev ∧
    (s.removeClearSlot (sIdx i h) (pIdx i) (cIdx i)).presence_mask
      = s.presence_mask ∧
    (s.removeClearSlot (sIdx i h) (pIdx i) (cIdx i)).count = s.count ∧
    ((s.removeClearSlot (sIdx i h) (pIdx i) (cIdx i)).data
        (sIdx i h)).presence_mask = (s.data (sIdx i h)).presence_mask ∧
    (((s.removeClearSlot (sIdx i h) (pIdx i) (cIdx i)).data
        (sIdx i h)).data (pIdx i)).presence_mask
      = bclear ((s.data (sIdx i h)).data (pIdx i)).presence_mask
          (cIdx i).val := by
  set t := s.removeClearSlot (sIdx i h) (pIdx i) (cIdx i) with ht
  have hds : ∀ a : Fin 64, a ≠ sIdx i h → t.data a = s.data a := by
    intro a hne
    rw [ht]
    unfold Storage.removeClearSlot
    simp only []
    exact Function.update_noteq hne _ _
  have hpd : (t.data (sIdx i h)).data
      = Function.update (s.data (sIdx i h)).data (pIdx i)
          { (s.data (sIdx i h)).data (pIdx i) with
            presence_mask :=
              bclear ((s.data (sIdx i h)).data (pIdx i)).presence_mask
                (cIdx i).val
            fullness_mask :=
              bclear ((s.data (sIdx i h)).data (pIdx i)).fullness_mask
                (cIdx i).val
            changed_mask :=
              bset ((s.data (sIdx i h)).data (pIdx i)).changed_mask
                (cIdx i).val
            data := Function.update ((s.data (sIdx i h)).data (pIdx i)).data
              (cIdx i) none } := by
    rw [ht]
    unfold Storage.removeClearSlot
    simp only []
    rw [Function.update_same]
  have hppm : (t.data (sIdx i h)).presence_mask
      = (s.data (sIdx i h)).presence_mask := by
    rw [ht]
    unfold Storage.removeClearSlot
    simp only []
    rw [Function.update_same]
  have hchunko : ∀ b : Fin 64, b ≠ pIdx i →
      (t.data (sIdx i h)).data b = (s.data (sIdx i h)).data b := by
    intro b hne
    rw [hpd]
    exact Function.update_noteq hne _ _
  have hcpres : ((t.data (sIdx i h)).data (pIdx i)).presence_mask
      = bclear ((s.data (sIdx i h)).data (pIdx i)).presence_mask
          (cIdx i).val := by
    rw [hpd, Function.update_same]
  have hcdata : ((t.data (sIdx i h)).data (pIdx i)).data
      = Function.update ((s.data (sIdx i h)).data (pIdx i)).data
          (cIdx i) none := by
    rw [hpd, Function.update_same]
  have hrb : t.rollback = s.rollback := by
    rw [ht]
    unfold Storage.removeClearSlot
    simp only []
  have hpv : t.prev = s.prev := by
    rw [ht]
    unfold Storage.removeClearSlot
    simp only []
  have hsm : t.presence_mask = s.presence_mask := by
    rw [ht]
    unfold Storage.removeClearSlot
    simp only []
  have hcnt : t.count = s.count := by
    rw [ht]
    unfold Storage.removeClearSlot
    simp only []
  refine ⟨?_, ?_, hrb, hpv, hsm, hcnt, hppm, hcpres⟩
  · intro i2
    by_cases h2 : i2 < 262144
    · by_cases hii : i2 = i
      · subst hii
        rw [if_pos rfl, get_path t i2 h2]
        have e1 : (t.data (sIdx i2 h2)).data (pIdx i2)
            = (t.data (sIdx i2 h)).data (pIdx i2) := rfl
        rw [e1]
        unfold slotObs
        rw [hcpres, bget_bclear _ _ _ (cIdx i2).isLt (cIdx i2).isLt]
        simp
      · by_cases hs2 : sIdx i2 h2 = sIdx i h
        · by_cases hp2 : pIdx i2 = pIdx i
          · have hc2 : cIdx i2 ≠ cIdx i := by
              intro hc
              exact hii (idx_eq_of_paths i2 i h2 h
                (by have := congrArg Fin.val hs2; simpa [sIdx_val] using this)
                (by have := congrArg Fin.val hp2; simpa [pIdx_val] using this)
                (by have := congrArg Fin.val hc; simpa [cIdx_val] using this))
            rw [if_neg hii, get_path t i2 h2, get_path s i2 h2]
            have e1 : (t.data (sIdx i2 h2)).data (pIdx i2)
                = (t.data (sIdx i h)).data (pIdx i) := by
              rw [hs2, hp2]
            have e2 : (s.data (sIdx i2 h2)).data (pIdx i2)
                = (s.data (sIdx i h)).data (pIdx i) := by
              rw [hs2, hp2]
            rw [e1, e2]
            unfold slotObs
            have hkv : (cIdx i2).val ≠ (cIdx i).val :=
              fun hv => hc2 (Fin.ext hv)
            rw [hcpres, bget_bclear _ _ _ (cIdx i).isLt (cIdx i2).isLt]
            simp only [hkv, decide_False, Bool.not_false, Bool.and_true]
            rw [hcdata, Function.update_noteq hc2]
          · rw [if_neg hii, get_path t i2 h2, get_path s i2 h2]
            have e1 : (t.data (sIdx i2 h2)).data (pIdx i2)
                = (s.data (sIdx i2 h2)).data (pIdx i2) := by
              rw [hs2, hchunko (pIdx i2) hp2]
            rw [e1]
        · rw [if_neg hii, get_path t i2 h2, get_path s i2 h2,
            hds (sIdx i2 h2) hs2]
    · have hii : i2 ≠ i := fun he => h2 (he ▸ h)
      rw [if_neg hii]
      unfold Storage.get
      rw [dif_neg h2, dif_neg h2]
  · intro a
    constructor
    · intro ha
      rw [hsm] at ha
      by_cases hx : a = sIdx i h
      · subst hx
        exact absurd hsp ha
      · rw [hds a hx]
        exact (hw a).1 ha
    · intro b
      by_cases hx : a = sIdx i h
      · subst hx
        constructor
        · intro hb
          rw [hppm] at hb
          by_cases hy : b = pIdx i
          · subst hy
            exact absurd hpp hb
          · rw [hchunko b hy]
            exact ((hw (sIdx i h)).2 b).1 hb
        · intro k
          by_cases hy : b = pIdx i
          · subst hy
            by_cases hz : k = cIdx i
            · subst hz
              rw [hcpres, hcdata, Function.update_same,
                bget_bclear _ _ _ (cIdx i).isLt (cIdx i).isLt]
              simp
            · have hkv : k.val ≠ (cIdx i).val := fun hv => hz (Fin.ext hv)
              rw [hcpres, hcdata, Function.update_noteq hz,
                bget_bclear _ _ _ (cIdx i).isLt k.isLt]
              simp only [hkv, decide_False, Bool.not_false, Bool.and_true]
              exact ((hw (sIdx i h)).2 (pIdx i)).2 k
          · rw [hchunko b hy]
            exact ((hw (sIdx i h)).2 b).2 k
      · rw [hds a hx]
        exact (hw a).2 b

lemma removePagePhase_parts (s : Storage V) (i : Nat) (h : i < 262144)
    (hw : s.treeWF) (chp : Bool)
    (hsp : bget s.presence_mask (sIdx i h).val = true)
    (hchp : chp = (((s.data (sIdx i h)).data (pIdx i)).presence_mask != 0)) :
    (∀ i2 : Nat, (s.removePagePhase (sIdx i h) (pIdx i) chp).get i2
      = s.get i2) ∧
    (s.removePagePhase (sIdx i h) (pIdx i) chp).treeWF ∧
    (s.removePagePhase (sIdx i h) (pIdx i) chp).rollback = s.rollback ∧
    (s.removePagePhase (sIdx i h) (pIdx i) chp).prev = s.prev ∧
    (s.removePagePhase (sIdx i h) (pIdx i) chp).presence_mask
      = s.presence_mask := by
  set t := s.removePagePhase (sIdx i h) (pIdx i) chp with ht
  have hds : ∀ a : Fin 64, a ≠ sIdx i h → t.data a = s.data a := by
    intro a hne
    rw [ht]
    unfold Storage.removePagePhase
    simp only []
    exact Function.update_noteq hne _ _
  have hrb : t.rollback = s.rollback := by
    rw [ht]
    unfold Storage.removePagePhase
    simp only []
  have hpv : t.prev = s.prev := by
    rw [ht]
    unfold Storage.removePagePhase
    simp only []
  have hsm : t.presence_mask = s.presence_mask := by
    rw [ht]
    unfold Storage.removePagePhase
    simp only []
  cases hchpb : chp
  · -- the chunk emptied: it is freed
    have hz : ((s.data (sIdx i h)).data (pIdx i)).presence_mask = 0 := by
      rw [hchpb] at hchp
      simpa using hchp.symm
    have hnone : ∀ k : Fin 64,
        ((s.data (sIdx i h)).data (pIdx i)).data k = none := by
      intro k
      have hi6 := ((hw (sIdx i h)).2 (pIdx i)).2 k
      rw [hz] at hi6
      simp only [bget, Nat.zero_testBit] at hi6
      cases hx : ((s.data (sIdx i h)).data (pIdx i)).data k
      · rfl
      · rw [hx] at hi6
        simp at hi6
    have hpd : (t.data (sIdx i h)).data
        = Function.update (s.data (sIdx i h)).data (pIdx i)
            (emptyChunk V) := by
      rw [ht, hchpb]
      unfold Storage.removePagePhase
      simp only [Bool.not_false, if_true, Bool.false_eq_true, if_false]
      rw [Function.update_same]
    have hppm : (t.data (sIdx i h)).presence_mask
        = bclear (s.data (sIdx i h)).presence_mask (pIdx i).val := by
      rw [ht, hchpb]
      unfold Storage.removePagePhase
      simp only [Bool.not_false, if_true, Bool.false_eq_true, if_false]
      rw [Function.update_same]
    have hchunk : ∀ b k : Fin 64,
        slotObs ((t.data (sIdx i h)).data b) k
          = slotObs ((s.data (sIdx i h)).data b) k := by
      intro b k
      by_cases hy : b = pIdx i
      · subst hy
        rw [hpd, Function.update_same]
        unfold slotObs
        rw [hz, hnone k]
        simp [emptyChunk, bget, Nat.zero_testBit]
      · rw [hpd, Function.update_noteq hy]
    refine ⟨?_, ?_, hrb, hpv, hsm⟩
    · intro i2
      by_cases h2 : i2 < 262144
      · rw [get_path t i2 h2, get_path s i2 h2]
        by_cases hs2 : sIdx i2 h2 = sIdx i h
        · rw [hs2]
          exact hchunk (pIdx i2) (cIdx i2)
        · rw [hds (sIdx i2 h2) hs2]
      · unfold Storage.get
        rw [dif_neg h2, dif_neg h2]
    · intro a
      constructor
      · intro ha
        rw [hsm] at ha
        by_cases hx : a = sIdx i h
        · subst hx
          exact absurd hsp ha
        · rw [hds a hx]
          exact (hw a).1 ha
      · intro b
        by_cases hx : a = sIdx i h
        · subst hx
          constructor
          · intro hb
            by_cases hy : b = pIdx i
            · subst hy
              rw [hpd, Function.update_same]
            · rw [hppm] at hb
              rw [bget_bclear _ _ _ (pIdx i).isLt b.isLt] at hb
              have hvb : b.val ≠ (pIdx i).val := fun hv => hy (Fin.ext hv)
              simp only [hvb, decide_False, Bool.not_false, Bool.and_true]
                at hb
              rw [hpd, Function.update_noteq hy]
              exact ((hw (sIdx i h)).2 b).1 hb
          · intro k
            by_cases hy : b = pIdx i
            · subst hy
              rw [hpd, Function.update_same]
              simp [emptyChunk, bget, Nat.zero_testBit]
            · rw [hpd, Function.update_noteq hy]
              exact ((hw (sIdx i h)).2 b).2 k
        · rw [hds a hx]
          exact (hw a).2 b
  · -- the chunk still has occupants: kept in place
    have hpd : (t.data (sIdx i h)).data = (s.data (sIdx i h)).data := by
      rw [ht, hchpb]
      unfold Storage.removePagePhase
      simp only [Bool.not_true, Bool.false_eq_true, if_false, if_true]
      rw [Function.update_same]
    have hppm : (t.data (sIdx i h)).presence_mask
        = bset (s.data (sIdx i h)).presence_mask (pIdx i).val := by
      rw [ht, hchpb]
      unfold Storage.removePagePhase
      simp only [Bool.not_true, Bool.false_eq_true, if_false, if_true]
      rw [Function.update_same]
    have hcd : ∀ a b : Fin 64, (t.data a).data b = (s.data a).data b := by
      intro a b
      by_cases hx : a = sIdx i h
      · subst hx
        rw [hpd]
      · rw [hds a hx]
    refine ⟨get_congr s t hcd, ?_, hrb, hpv, hsm⟩
    intro a
    constructor
    · intro ha
      rw [hsm] at ha
      by_cases hx : a = sIdx i h
      · subst hx
        exact absurd hsp ha
      · rw [hds a hx]
        exact (hw a).1 ha
    · intro b
      by_cases hx : a = sIdx i h
      · subst hx
        constructor
        · intro hb
          rw [hppm] at hb
          rw [bget_bset] at hb
          simp only [Bool.or_eq_true, decide_eq_true_eq, not_or] at hb
          rw [hpd]
          exact ((hw (sIdx i h)).2 b).1 (by simp [hb.1])
        · intro k
          rw [hpd]
          exact ((hw (sIdx i h)).2 b).2 k
      · rw [hds a hx]
        exact (hw a).2 b

/-- The add-then-remove-within-tick test of `Storage::remove`
(storage.rs:409-418), phrased over the pre-operation storage. -/
def removeWasCreated (s : Storage V) (ct : Nat) (si pi ci : Fin 64) : Bool :=
  if s.rollback.tick ≠ ct then false
  else
    let rc := (s.rollback.pageOrNew si).chunkOrNew pi
    bget rc.created_mask ci.val &&
      !(bget rc.changed_mask ci.val || bget rc.removed_mask ci.val)

lemma removeStoragePhase_parts (s : Storage V) (si : Fin 64) :
    (s.removeStoragePhase si).data = s.data ∧
    (s.removeStoragePhase si).rollback = s.rollback ∧
    (s.removeStoragePhase si).prev = s.prev ∧
    (s.removeStoragePhase si).presence_mask
      = (if ((s.data si).presence_mask != 0) = true
         then bset s.presence_mask si.val
         else bclear s.presence_mask si.val) := by
  unfold Storage.removeStoragePhase
  exact ⟨rfl, rfl, rfl, rfl⟩

lemma remove_state_parts (s : Storage V) (hw : s.treeWF) (ct i : Nat)
    (h : i < 262144) (hpres : (s.get i).isSome = true) :
    (s.remove ct i).1 = true ∧
    (∀ i2 : Nat, (s.remove ct i).2.get i2
      = if i2 = i then none else s.get i2) ∧
    (s.remove ct i).2.treeWF ∧
    (s.remove ct i).2.rollback
      = (if s.rollback.tick = ct then s.rollback
         else freshRollback V ct).recordRemove (sIdx i h) (pIdx i) (cIdx i)
          (removeWasCreated s ct (sIdx i h) (pIdx i) (cIdx i)) (s.get i) ∧
    (s.remove ct i).2.prev
      = (if s.rollback.tick = ct then s.prev
         else (s.prev ++ [s.rollback]).drop (s.prev.length + 1 - 64)) ∧
    (removeWasCreated s ct (sIdx i h) (pIdx i) (cIdx i) = true →
      s.rollback.tick = ct) := by
  have hnn : ¬ ¬ i < 262144 := not_not_intro h
  have hcp : bget ((s.data (sIdx i h)).data (pIdx i)).presence_mask
      (cIdx i).val = true := by
    rw [get_isSome_presence s hw i h]
    exact hpres
  have hsp : bget s.presence_mask (sIdx i h).val = true := by
    by_cases hx : bget s.presence_mask (sIdx i h).val = true
    · exact hx
    · exfalso
      have he := (hw (sIdx i h)).1 hx
      rw [he] at hcp
      simp [emptyPage, emptyChunk, bget, Nat.zero_testBit] at hcp
  have hpp : bget (s.data (sIdx i h)).presence_mask (pIdx i).val = true := by
    by_cases hx : bget (s.data (sIdx i h)).presence_mask (pIdx i).val = true
    · exact hx
    · exfalso
      have he := ((hw (sIdx i h)).2 (pIdx i)).1 hx
      rw [he] at hcp
      simp [emptyChunk, bget, Nat.zero_testBit] at hcp
  obtain ⟨hr1g, hr1w, hr1r, hr1p, hr1m, hr1c, hr1pm, hr1cp⟩ :=
    removeClearSlot_parts s i h hw hsp hpp
  set s1 := s.removeClearSlot (sIdx i h) (pIdx i) (cIdx i) with hs1
  set wcb : Bool :=
    (if s1.rollback.tick ≠ ct then false
     else
       bget ((s1.rollback.pageOrNew (sIdx i h)).chunkOrNew
         (pIdx i)).created_mask (cIdx i).val &&
       !(bget ((s1.rollback.pageOrNew (sIdx i h)).chunkOrNew
           (pIdx i)).changed_mask (cIdx i).val ||
         bget ((s1.rollback.pageOrNew (sIdx i h)).chunkOrNew
           (pIdx i)).removed_mask (cIdx i).val)) with hwcb
  set s2 : Storage V := if wcb = true then s1 else s1.ensureRollbackTick ct
    with hs2
  have hwc : wcb = removeWasCreated s ct (sIdx i h) (pIdx i) (cIdx i) := by
    rw [hwcb, hr1r]
    unfold removeWasCreated
    rfl
  have hd2 : s2.data = s1.data := by
    rw [hs2]
    by_cases hb : wcb = true
    · rw [if_pos hb]
    · rw [if_neg hb]
      exact (ensureRollbackTick_parts s1 ct).1
  have hm2 : s2.presence_mask = s1.presence_mask := by
    rw [hs2]
    by_cases hb : wcb = true
    · rw [if_pos hb]
    · rw [if_neg hb]
      exact (ensureRollbackTick_parts s1 ct).2.1
  have hw2 : s2.treeWF := treeWF_congr s1 s2 hd2 hm2 hr1w
  have hg2 : ∀ i2 : Nat, s2.get i2 = s1.get i2 := get_eq_of_data s1 s2 hd2
  obtain ⟨hp3g, hp3w, hp3r, hp3p, hp3m⟩ := removePagePhase_parts s2 i h hw2
    (((s1.data (sIdx i h)).data (pIdx i)).presence_mask != 0)
    (by rw [hm2, hr1m]; exact hsp)
    (by rw [hd2])
  set s3 := s2.removePagePhase (sIdx i h) (pIdx i)
    (((s1.data (sIdx i h)).data (pIdx i)).presence_mask != 0) with hs3
  set phpb : Bool := ((s3.data (sIdx i h)).presence_mask != 0) with hphpb
  obtain ⟨ht4d, ht4r, ht4p, ht4m⟩ := removeStoragePhase_parts s3 (sIdx i h)
  set s4 := s3.removeStoragePhase (sIdx i h) with hs4
  set s5 : Storage V :=
    { s4 with
      rollback := s4.rollback.recordRemove (sIdx i h) (pIdx i) (cIdx i) wcb
        (((s.data (sIdx i h)).data (pIdx i)).data (cIdx i)) } with hs5
  set s6 : Storage V :=
    if !phpb
    then { s5 with
           data := Function.update s5.data (sIdx i h) (emptyPage V) }
    else s5 with hs6
  have hset : s.remove ct i = (true, s6) := by
    unfold Storage.remove
    rw [dif_neg hnn, if_neg (not_not_intro hsp), if_neg (not_not_intro hpp),
      if_neg (not_not_intro hcp)]
  have hd5 : s5.data = s3.data := by
    rw [hs5]
    show s4.data = s3.data
    exact ht4d
  have hm5 : s5.presence_mask = s4.presence_mask := by
    rw [hs5]
  have hov : ((s.data (sIdx i h)).data (pIdx i)).data (cIdx i) = s.get i := by
    rw [get_path s i h]
    unfold slotObs
    rw [if_pos hcp]
  have htkwc : removeWasCreated s ct (sIdx i h) (pIdx i) (cIdx i) = true →
      s.rollback.tick = ct := by
    intro hwcv
    unfold removeWasCreated at hwcv
    by_cases hx : s.rollback.tick = ct
    · exact hx
    · rw [if_pos hx] at hwcv
      exact absurd hwcv (by simp)
  refine ⟨?_, ?_, ?_, ?_, ?_, htkwc⟩
  · rw [hset]
  · intro i2
    rw [hset]
    show s6.get i2 = _
    have hg6 : s6.get i2 = s3.get i2 := by
      rw [hs6]
      by_cases hb : phpb = true
      · rw [if_neg (by simp [hb])]
        exact get_eq_of_data s3 s5 hd5 i2
      · have hb2 : phpb = false := by
          cases hx : phpb
          · rfl
          · exact absurd hx hb
        rw [if_pos (by simp [hb2])]
        have hz : (s3.data (sIdx i h)).presence_mask = 0 := by
          rw [hphpb] at hb2
          simpa using hb2
        have hco3 : ∀ b : Fin 64,
            (s3.data (sIdx i h)).data b = emptyChunk V := by
          intro b
          refine ((hp3w (sIdx i h)).2 b).1 ?_
          rw [hz]
          simp [bget, Nat.zero_testBit]
        by_cases h2 : i2 < 262144
        · rw [get_path _ i2 h2, get_path s3 i2 h2]
          by_cases hx : sIdx i2 h2 = sIdx i h
          · have e1 : (({ s5 with
                data := Function.update s5.data (sIdx i h)
                  (emptyPage V) } : Storage V).data (sIdx i2 h2)).data
                  (pIdx i2) = emptyChunk V := by
              rw [hx]
              show (Function.update s5.data (sIdx i h) (emptyPage V)
                (sIdx i h)).data (pIdx i2) = emptyChunk V
              rw [Function.update_same]
              rfl
            have e2 : (s3.data (sIdx i2 h2)).data (pIdx i2)
                = emptyChunk V := by
              rw [hx]
              exact hco3 (pIdx i2)
            rw [e1, e2]
          · have e1 : ({ s5 with
                data := Function.update s5.data (sIdx i h)
                  (emptyPage V) } : Storage V).data (sIdx i2 h2)
                = s3.data (sIdx i2 h2) := by
              show Function.update s5.data (sIdx i h) (emptyPage V)
                (sIdx i2 h2) = s3.data (sIdx i2 h2)
              rw [Function.update_noteq hx]
              exact congrFun hd5 (sIdx i2 h2)
            rw [e1]
        · unfold Storage.get
          rw [dif_neg h2, dif_neg h2]
    rw [hg6, hp3g i2, hg2 i2, hr1g i2]
  · rw [hset]
    show s6.treeWF
    rw [hs6]
    by_cases hb : phpb = true
    · rw [if_neg (by simp [hb])]
      have hphp2 := hb
      rw [hphpb] at hphp2
      intro a
      constructor
      · intro ha
        have ha2 : ¬ bget s5.presence_mask a.val = true := ha
        rw [hm5, ht4m, if_pos hphp2, bget_bset] at ha2
        simp only [Bool.or_eq_true, decide_eq_true_eq, not_or] at ha2
        show s5.data a = emptyPage V
        rw [congrFun hd5 a]
        exact (hp3w a).1 (by simp [ha2.1])
      · intro b
        show (¬ bget ((s5.data a).presence_mask) b.val → _) ∧ _
        rw [congrFun hd5 a]
        exact (hp3w a).2 b
    · have hb2 : phpb = false := by
        cases hx : phpb
        · rfl
        · exact absurd hx hb
      rw [if_pos (by simp [hb2])]
      have hphp2 := hb2
      rw [hphpb] at hphp2
      have hphp3 : ¬ ((s3.data (sIdx i h)).presence_mask != 0) = true := by
        rw [hphp2]
        simp
      intro a
      constructor
      · intro ha
        by_cases hx : a = sIdx i h
        · subst hx
          show Function.update s5.data (sIdx i h) (emptyPage V) (sIdx i h)
            = emptyPage V
          rw [Function.update_same]
        · have ha2 : ¬ bget (bclear s3.presence_mask (sIdx i h).val) a.val
              = true := by
            intro hb3
            refine ha ?_
            show bget ({ s5 with
              data := Function.update s5.data (sIdx i h)
                (emptyPage V) } : Storage V).presence_mask a.val = true
            show bget s5.presence_mask a.val = true
            rw [hm5, ht4m, if_neg hphp3]
            exact hb3
          rw [bget_bclear _ _ _ (sIdx i h).isLt a.isLt] at ha2
          have hvne : a.val ≠ (sIdx i h).val := fun hv => hx (Fin.ext hv)
          simp only [hvne, decide_False, Bool.not_false, Bool.and_true]
            at ha2
          show Function.update s5.data (sIdx i h) (emptyPage V) a
            = emptyPage V
          rw [Function.update_noteq hx, congrFun hd5 a]
          exact (hp3w a).1 ha2
      · intro b
        by_cases hx : a = sIdx i h
        · subst hx
          have e2 : ({ s5 with
              data := Function.update s5.data (sIdx i h)
                (emptyPage V) } : Storage V).data (sIdx i h)
              = emptyPage V := by
            show Function.update s5.data (sIdx i h) (emptyPage V) (sIdx i h)
              = emptyPage V
            rw [Function.update_same]
          constructor
          · intro _
            rw [e2]
            rfl
          · intro k
            rw [e2]
            simp [emptyPage, emptyChunk, bget, Nat.zero_testBit]
        · have e1 : ({ s5 with
              data := Function.update s5.data (sIdx i h)
                (emptyPage V) } : Storage V).data a = s3.data a := by
            show Function.update s5.data (sIdx i h) (emptyPage V) a
              = s3.data a
            rw [Function.update_noteq hx]
            exact congrFun hd5 a
          rw [e1]
          exact (hp3w a).2 b
  · rw [hset]
    show s6.rollback = _
    have hr6 : s6.rollback = s5.rollback := by
      rw [hs6]
      by_cases hb : phpb = true
      · rw [if_neg (by simp [hb])]
      · have hb2 : phpb = false := by
          cases hx : phpb
          · rfl
          · exact absurd hx hb
        rw [if_pos (by simp [hb2])]
    rw [hr6]
    have hr5 : s5.rollback = s4.rollback.recordRemove (sIdx i h) (pIdx i)
        (cIdx i) wcb
        (((s.data (sIdx i h)).data (pIdx i)).data (cIdx i)) := by
      rw [hs5]
    rw [hr5, hov, hwc, ht4r, hp3r]
    have hr2 : s2.rollback = (if s.rollback.tick = ct then s.rollback
        else freshRollback V ct) := by
      rw [hs2]
      by_cases hb : wcb = true
      · rw [if_pos hb]
        have hrwc : removeWasCreated s ct (sIdx i h) (pIdx i) (cIdx i)
            = true := by
          rw [← hwc]
          exact hb
        rw [if_pos (htkwc hrwc), hr1r]
      · rw [if_neg hb]
        rw [(ensureRollbackTick_parts s1 ct).2.2.2.2.1, hr1r]
    rw [hr2]
  · rw [hset]
    show s6.prev = _
    have hr6 : s6.prev = s5.prev := by
      rw [hs6]
      by_cases hb : phpb = true
      · rw [if_neg (by simp [hb])]
      · have hb2 : phpb = false := by
          cases hx : phpb
          · rfl
          · exact absurd hx hb
        rw [if_pos (by simp [hb2])]
    have hr5 : s5.prev = s4.prev := by
      rw [hs5]
    rw [hr6, hr5, ht4p, hp3p]
    rw [hs2]
    by_cases hb : wcb = true
    · rw [if_pos hb]
      have hrwc : removeWasCreated s ct (sIdx i h) (pIdx i) (cIdx i)
          = true := by
        rw [← hwc]
        exact hb
      rw [if_pos (htkwc hrwc), hr1p]
    · rw [if_neg hb]
      rw [(ensureRollbackTick_parts s1 ct).2.2.2.2.2, hr1r, hr1p]

lemma getD_append_last {α : Type} (l : List α) (x d : α) :
    (l ++ [x]).getD l.length d = x := by
  induction l with
  | nil => rfl
  | cons a t ih => simpa using ih

lemma freshRollback_wfJ (t : Nat) : (freshRollback V t).wfJ := by
  constructor
  · norm_num [freshRollback]
  · intro si
    refine ⟨?_, ?_, ?_⟩
    · norm_num [freshRollback, emptyRollbackPage]
    · intro hb
      simp [freshRollback, bget, Nat.zero_testBit] at hb
    · intro pi
      refine ⟨?_, ?_, ?_, ?_, ?_⟩
      · norm_num [freshRollback, emptyRollbackPage, emptyRollbackChunk]
      · norm_num [freshRollback, emptyRollbackPage, emptyRollbackChunk]
      · norm_num [freshRollback, emptyRollbackPage, emptyRollbackChunk]
      · intro hb
        simp [freshRollback, emptyRollbackPage, bget, Nat.zero_testBit] at hb
      · intro k
        refine ⟨?_, ?_, ?_, ?_⟩
        · intro hb
          simp [freshRollback, emptyRollbackPage, emptyRollbackChunk, bget,
            Nat.zero_testBit] at hb
        · intro hb
          simp [freshRollback, emptyRollbackPage, emptyRollbackChunk, bget,
            Nat.zero_testBit] at hb
        · intro hb
          rcases hb with hb | hb <;>
            simp [freshRollback, emptyRollbackPage, emptyRollbackChunk, bget,
              Nat.zero_testBit] at hb
        · intro hb
          rcases hb with hb | hb | hb <;>
            simp [freshRollback, emptyRollbackPage, emptyRollbackChunk, bget,
              Nat.zero_testBit] at hb

lemma freshRollback_recSpec (t : Nat) (a : Option V) (i : Nat)
    (h : i < 262144) : recSpec (freshRollback V t) i h a a := by
  have hcr : recCr (freshRollback V t) i h = false := by
    simp [recCr, freshRollback, emptyRollbackPage, emptyRollbackChunk, bget,
      Nat.zero_testBit]
  have hch : recCh (freshRollback V t) i h = false := by
    simp [recCh, freshRollback, emptyRollbackPage, emptyRollbackChunk, bget,
      Nat.zero_testBit]
  have hrm : recRm (freshRollback V t) i h = false := by
    simp [recRm, freshRollback, emptyRollbackPage, emptyRollbackChunk, bget,
      Nat.zero_testBit]
  refine ⟨fun _ => rfl, ?_, ?_, ?_⟩
  · intro hb
    rw [hcr] at hb
    exact absurd hb (by simp)
  · intro hb
    rw [hch] at hb
    exact absurd hb (by simp)
  · intro hb
    rw [hrm] at hb
    exact absurd hb (by simp)

lemma jtrack_rotate (rb : RollbackStorage V)
    (prev : List (RollbackStorage V)) (hist : List (TickSpan V))
    (st0 stc : Nat → Option V) (tcur ct : Nat)
    (hj : JTrack rb prev hist st0 stc tcur) (hlt : tcur < ct) :
    JTrack (freshRollback V ct) ((prev ++ [rb]).drop (prev.length + 1 - 64))
      ((hist ++ [({ pre := st0, tk := tcur, post := stc } : TickSpan V)]).drop
        (hist.length + 1 - 64))
      stc stc ct := by
  obtain ⟨hj1, hj2, hj3, hj4, hj5, hj6, hj7, hj8⟩ := hj
  set entry : TickSpan V := { pre := st0, tk := tcur, post := stc }
    with hentry
  have hlen : ((hist ++ [entry]).drop (hist.length + 1 - 64)).length
      = hist.length + 1 - (hist.length + 1 - 64) := by
    rw [List.length_drop, List.length_append, List.length_singleton]
  have hlenp : ((prev ++ [rb]).drop (prev.length + 1 - 64)).length
      = hist.length + 1 - (hist.length + 1 - 64) := by
    rw [List.length_drop, List.length_append, List.length_singleton, hj4]
  refine ⟨rfl, freshRollback_wfJ ct, ?_, ?_, ?_, ?_, ?_, ?_⟩
  · intro i h
    exact freshRollback_recSpec ct (stc i) i h
  · rw [hlen, hlenp]
  · intro k hk
    rw [hlen] at hk
    rw [getD_drop, getD_drop, hj4]
    have hklt : hist.length + 1 - 64 + k < hist.length + 1 := by omega
    by_cases hcase : hist.length + 1 - 64 + k < hist.length
    · have e1 : (prev ++ [rb]).getD (hist.length + 1 - 64 + k)
          (freshRollback V 0)
          = prev.getD (hist.length + 1 - 64 + k) (freshRollback V 0) :=
        List.getD_append _ _ _ _ (by rw [hj4]; exact hcase)
      have e2 : (hist ++ [entry]).getD (hist.length + 1 - 64 + k) default
          = hist.getD (hist.length + 1 - 64 + k) default :=
        List.getD_append _ _ _ _ hcase
      rw [e1, e2]
      exact hj5 (hist.length + 1 - 64 + k) hcase
    · have he : hist.length + 1 - 64 + k = hist.length := by omega
      rw [he]
      have e1 : (prev ++ [rb]).getD hist.length (freshRollback V 0)
          = rb := by
        rw [← hj4]
        exact getD_append_last _ _ _
      have e2 : (hist ++ [entry]).getD hist.length default = entry :=
        getD_append_last _ _ _
      rw [e1, e2]
      exact ⟨hj1, hj2, fun i h2 => hj3 i h2⟩
  · intro k hk1 i hi
    rw [hlen] at hk1
    rw [getD_drop, getD_drop]
    by_cases hcase : hist.length + 1 - 64 + (k + 1) < hist.length
    · have e1 : (hist ++ [entry]).getD (hist.length + 1 - 64 + k) default
          = hist.getD (hist.length + 1 - 64 + k) default :=
        List.getD_append _ _ _ _ (by omega)
      have e2 : (hist ++ [entry]).getD (hist.length + 1 - 64 + (k + 1))
          default
          = hist.getD (hist.length + 1 - 64 + (k + 1)) default :=
        List.getD_append _ _ _ _ hcase
      rw [e1, e2]
      have e4 : hist.length + 1 - 64 + (k + 1)
          = (hist.length + 1 - 64 + k) + 1 := by omega
      rw [e4]
      exact hj6 (hist.length + 1 - 64 + k) (by omega) i hi
    · have he : hist.length + 1 - 64 + (k + 1) = hist.length := by omega
      have e1 : (hist ++ [entry]).getD (hist.length + 1 - 64 + k) default
          = hist.getD (hist.length + 1 - 64 + k) default :=
        List.getD_append _ _ _ _ (by omega)
      rw [he, getD_append_last, e1]
      have hne : hist ≠ [] := by
        intro hnil
        rw [hnil] at he
        simp at he
      have hlast : hist.length + 1 - 64 + k = hist.length - 1 := by omega
      rw [hlast]
      exact hj7 hne i hi
  · intro hne i hi
    rw [hlen, getD_drop]
    have he : hist.length + 1 - 64
        + (hist.length + 1 - (hist.length + 1 - 64) - 1) = hist.length := by
      omega
    rw [he, getD_append_last]
  · have hm1 : ((hist ++ [entry]).drop (hist.length + 1 - 64)).map
        (fun e => e.tk)
        = ((hist.map (fun e => e.tk)) ++ [tcur]).drop
            (hist.length + 1 - 64) := by
      rw [List.map_drop, List.map_append]
      rfl
    rw [hm1]
    have hdle : hist.length + 1 - 64 ≤ (hist.map (fun e => e.tk)).length := by
      rw [List.length_map]
      omega
    rw [List.drop_append_of_le_length hdle]
    refine List.chain'_append.mpr ⟨?_, List.chain'_singleton ct, ?_⟩
    · have hsub : (hist.map (fun e => e.tk)).drop (hist.length + 1 - 64)
          ++ [tcur]
          <:+ hist.map (fun e => e.tk) ++ [tcur] := by
        obtain ⟨pre, hpre⟩ := List.drop_suffix (hist.length + 1 - 64)
          (hist.map (fun e => e.tk))
        exact ⟨pre, by rw [← List.append_assoc, hpre]⟩
      exact hj8.suffix hsub
    · intro x hx y hy
      have hxv : x = tcur := by
        rw [List.getLast?_concat] at hx
        exact (Option.mem_some_iff.mp hx).symm
      have hyv : y = ct := by
        simp only [List.head?] at hy
        exact (Option.mem_some_iff.mp hy).symm
      rw [hxv, hyv]
      exact hlt

lemma jtrack_replace_rb (rb rb' : RollbackStorage V)
    (prev : List (RollbackStorage V)) (hist : List (TickSpan V))
    (st0 stc stc' : Nat → Option V) (tcur : Nat)
    (hj : JTrack rb prev hist st0 stc tcur)
    (htick : rb'.tick = rb.tick) (hwf : rb'.wfJ)
    (hrec : ∀ i : Nat, ∀ h : i < 262144, recSpec rb' i h (st0 i) (stc' i)) :
    JTrack rb' prev hist st0 stc' tcur := by
  obtain ⟨hj1, hj2, hj3, hj4, hj5, hj6, hj7, hj8⟩ := hj
  exact ⟨htick.trans hj1, hwf, hrec, hj4, hj5, hj6, hj7, hj8⟩

lemma freshRollback_bits (t : Nat) (i : Nat) (h : i < 262144) :
    recCr (freshRollback V t) i h = false ∧
    recCh (freshRollback V t) i h = false ∧
    recRm (freshRollback V t) i h = false := by
  refine ⟨?_, ?_, ?_⟩
  · simp [recCr, freshRollback, emptyRollbackPage, emptyRollbackChunk, bget,
      Nat.zero_testBit]
  · simp [recCh, freshRollback, emptyRollbackPage, emptyRollbackChunk, bget,
      Nat.zero_testBit]
  · simp [recRm, freshRollback, emptyRollbackPage, emptyRollbackChunk, bget,
      Nat.zero_testBit]

lemma removeWasCreated_eq (s : Storage V) (hwf : s.rollback.wfJ) (ct : Nat)
    (i : Nat) (h : i < 262144) :
    removeWasCreated s ct (sIdx i h) (pIdx i) (cIdx i)
      = (if s.rollback.tick = ct
         then (recCr s.rollback i h &&
               !(recCh s.rollback i h || recRm s.rollback i h))
         else false) := by
  unfold removeWasCreated
  have hgg := chunkOrNew_bits s.rollback hwf (sIdx i h) (pIdx i) (cIdx i)
  by_cases hx : s.rollback.tick = ct
  · rw [if_neg (not_not_intro hx), if_pos hx]
    simp only []
    rw [hgg.1, hgg.2.1, hgg.2.2.1]
    rfl
  · rw [if_pos hx, if_neg hx]

lemma recordSet_tick (j : RollbackStorage V) (si pi ci : Fin 64) (wp : Bool)
    (ov : Option V) : (j.recordSet si pi ci wp ov).tick = j.tick := rfl

lemma recordRemove_tick (j : RollbackStorage V) (si pi ci : Fin 64)
    (wc : Bool) (ov : Option V) :
    (j.recordRemove si pi ci wc ov).tick = j.tick := by
  unfold RollbackStorage.recordRemove
  by_cases hwc : wc = true
  · rw [if_pos hwc]
    simp only []
    by_cases h1 : bget j.changed_mask si.val = true
    · rw [if_pos h1]
      by_cases h2 : (!(match
          ({ j.pageOrNew si with
             data := Function.update (j.pageOrNew si).data pi
               ((( j.pageOrNew si).chunkOrNew pi).recordRemoveC ci wc ov)
           } : RollbackPage V).getChunk pi with
          | some c =>
            (c.created_mask ||| c.changed_mask ||| c.removed_mask) != 0
          | none => false)) = true
      · rw [if_pos h2]
        split
        · rfl
        · rfl
      · rw [if_neg h2]
    · rw [if_neg h1]
  · rw [if_neg hwc]

lemma set_tracks (s : Storage V) (hist : List (TickSpan V))
    (st0 stc : Nat → Option V) (tcur : Nat)
    (ht : Tracks s hist st0 stc tcur) (ct i : Nat) (h : i < 262144) (v : V) :
    (s.set ct i v).panicMsg = none ∧
    (tcur = ct →
      Tracks (s.set ct i v).state hist st0
        (fun i2 => if i2 = i then some v else stc i2) ct) ∧
    (tcur < ct →
      Tracks (s.set ct i v).state
        ((hist ++ [({ pre := st0, tk := tcur, post := stc } :
          TickSpan V)]).drop (hist.length + 1 - 64))
        stc (fun i2 => if i2 = i then some v else stc i2) ct) := by
  obtain ⟨htg, htw, htj⟩ := ht
  obtain ⟨hp1, hp2, hp3, hp4, hp5⟩ := set_state_parts s htw ct i h v
  rw [htg i h] at hp4
  have hgets : ∀ i2 : Nat, ∀ h2 : i2 < 262144,
      (s.set ct i v).state.get i2
        = (fun i2 => if i2 = i then some v else stc i2) i2 := by
    intro i2 h2
    rw [hp2 i2]
    show _ = if i2 = i then some v else stc i2
    by_cases hx : i2 = i
    · rw [if_pos hx, if_pos hx]
    · rw [if_neg hx, if_neg hx, htg i2 h2]
  refine ⟨hp1, ?_, ?_⟩
  · intro heq
    subst heq
    have htick : s.rollback.tick = tcur := htj.1
    rw [if_pos htick] at hp4 hp5
    have hfull := recordSet_full s.rollback htj.2.1 st0 stc htj.2.2.1 i h v
      (s.set tcur i v).state.rollback hp4
    refine ⟨hgets, hp3, ?_⟩
    rw [hp5]
    refine jtrack_replace_rb s.rollback _ s.prev hist st0 stc _ tcur htj ?_
      hfull.1 hfull.2.1
    rw [hp4, recordSet_tick]
  · intro hlt
    have htick : ¬ s.rollback.tick = ct := by
      rw [htj.1]
      omega
    rw [if_neg htick] at hp4 hp5
    have hrot := jtrack_rotate s.rollback s.prev hist st0 stc tcur ct htj hlt
    have hfull := recordSet_full (freshRollback V ct) (freshRollback_wfJ ct)
      stc stc (fun i2 h2 => freshRollback_recSpec ct (stc i2) i2 h2) i h v
      (s.set ct i v).state.rollback hp4
    refine ⟨hgets, hp3, ?_⟩
    rw [hp5]
    refine jtrack_replace_rb (freshRollback V ct) _ _ _ stc stc _ ct hrot ?_
      hfull.1 hfull.2.1
    rw [hp4, recordSet_tick]

lemma remove_tracks (s : Storage V) (hist : List (TickSpan V))
    (st0 stc : Nat → Option V) (tcur : Nat)
    (ht : Tracks s hist st0 stc tcur) (ct i : Nat) (h : i < 262144)
    (hlive : (stc i).isSome = true) :
    (s.remove ct i).1 = true ∧
    (tcur = ct →
      Tracks (s.remove ct i).2 hist st0
        (fun i2 => if i2 = i then none else stc i2) ct) ∧
    (tcur < ct →
      Tracks (s.remove ct i).2
        ((hist ++ [({ pre := st0, tk := tcur, post := stc } :
          TickSpan V)]).drop (hist.length + 1 - 64))
        stc (fun i2 => if i2 = i then none else stc i2) ct) := by
  obtain ⟨htg, htw, htj⟩ := ht
  have hpres : (s.get i).isSome = true := by
    rw [htg i h]
    exact hlive
  obtain ⟨hp1, hp2, hp3, hp4, hp5, hp6⟩ := remove_state_parts s htw ct i h
    hpres
  rw [htg i h] at hp4
  have hwce := removeWasCreated_eq s htj.2.1 ct i h
  have hgets : ∀ i2 : Nat, ∀ h2 : i2 < 262144,
      (s.remove ct i).2.get i2
        = (fun i2 => if i2 = i then none else stc i2) i2 := by
    intro i2 h2
    rw [hp2 i2]
    show _ = if i2 = i then none else stc i2
    by_cases hx : i2 = i
    · rw [if_pos hx, if_pos hx]
    · rw [if_neg hx, if_neg hx, htg i2 h2]
  refine ⟨hp1, ?_, ?_⟩
  · intro heq
    subst heq
    have htick : s.rollback.tick = tcur := htj.1
    rw [if_pos htick] at hp4 hp5
    rw [if_pos htick] at hwce
    by_cases hwc : removeWasCreated s tcur (sIdx i h) (pIdx i) (cIdx i)
        = true
    · have hcrj : recCr s.rollback i h = true := by
        rw [hwce] at hwc
        exact (Bool.and_eq_true_iff.mp hwc).1
      rw [hwc] at hp4
      have hfull := recordRemove_full_created s.rollback htj.2.1 st0 stc
        htj.2.2.1 i h (stc i) (s.remove tcur i).2.rollback hcrj hp4
      refine ⟨hgets, hp3, ?_⟩
      rw [hp5]
      refine jtrack_replace_rb s.rollback _ s.prev hist st0 stc _ tcur htj ?_
        hfull.1 hfull.2.1
      rw [hp4, recordRemove_tick]
    · have hwcf : removeWasCreated s tcur (sIdx i h) (pIdx i) (cIdx i)
          = false := by
        cases hy : removeWasCreated s tcur (sIdx i h) (pIdx i) (cIdx i)
        · rfl
        · exact absurd hy hwc
      rw [hwcf] at hp4
      have hncr : recCr s.rollback i h = false := by
        by_cases hz : recCr s.rollback i h = true
        · exfalso
          have hk := (htj.2.1.2 (sIdx i h)).2.2 (pIdx i) |>.2.2.2.2 (cIdx i)
          have hcc := hk.1 hz
          have hch : recCh s.rollback i h = false := by
            cases hy : recCh s.rollback i h
            · rfl
            · exact absurd hy hcc.1
          have hrm : recRm s.rollback i h = false := by
            cases hy : recRm s.rollback i h
            · rfl
            · exact absurd hy hcc.2
          rw [hwce, hz, hch, hrm] at hwcf
          simp at hwcf
        · cases hy : recCr s.rollback i h
          · rfl
          · exact absurd hy hz
      have hfull := recordRemove_full s.rollback htj.2.1 st0 stc htj.2.2.1
        i h (s.remove tcur i).2.rollback hlive hncr hp4
      refine ⟨hgets, hp3, ?_⟩
      rw [hp5]
      refine jtrack_replace_rb s.rollback _ s.prev hist st0 stc _ tcur htj ?_
        hfull.1 hfull.2.1
      rw [hp4, recordRemove_tick]
  · intro hlt
    have htick : ¬ s.rollback.tick = ct := by
      rw [htj.1]
      omega
    rw [if_neg htick] at hp4 hp5 hwce
    rw [hwce] at hp4
    have hrot := jtrack_rotate s.rollback s.prev hist st0 stc tcur ct htj hlt
    have hfull := recordRemove_full (freshRollback V ct)
      (freshRollback_wfJ ct) stc stc
      (fun i2 h2 => freshRollback_recSpec ct (stc i2) i2 h2) i h
      (s.remove ct i).2.rollback hlive (freshRollback_bits ct i h).1 hp4
    refine ⟨hgets, hp3, ?_⟩
    rw [hp5]
    refine jtrack_replace_rb (freshRollback V ct) _ _ _ stc stc _ ct hrot ?_
      hfull.1 hfull.2.1
    rw [hp4, recordRemove_tick]

lemma tracks_congr_stc (s : Storage V) (hist : List (TickSpan V))
    (st0 stc stc2 : Nat → Option V) (tcur : Nat)
    (ht : Tracks s hist st0 stc tcur) (he : ∀ i : Nat, stc i = stc2 i) :
    Tracks s hist st0 stc2 tcur := by
  obtain ⟨g, w, j1, j2, j3, j4, j5, j6, j7, j8⟩ := ht
  exact ⟨fun i h => (g i h).trans (he i), w, j1, j2,
    fun i h => he i ▸ j3 i h, j4, j5, j6, j7, j8⟩

lemma applyOp_tracks_same (s : Storage V) (hist : List (TickSpan V))
    (st0 stc : Nat → Option V) (ct : Nat)
    (ht : Tracks s hist st0 stc ct) (o : Op V)
    (hok : (match o with
            | Op.set i _ => decide (i < 262144)
            | Op.del i => decide (i < 262144) && (stc i).isSome) = true) :
    Tracks (s.applyOp ct o) hist st0 (applyPure stc o) ct := by
  cases o with
  | set i v =>
    have hi : i < 262144 := of_decide_eq_true hok
    have h1 := (set_tracks s hist st0 stc ct ht ct i hi v).2.1 rfl
    refine tracks_congr_stc _ _ _ _ _ _ h1 ?_
    intro i2
    show (if i2 = i then some v else stc i2)
      = if i < 262144 ∧ i2 = i then some v else stc i2
    by_cases hx : i2 = i
    · rw [if_pos hx, if_pos ⟨hi, hx⟩]
    · rw [if_neg hx, if_neg (fun hc => hx hc.2)]
  | del i =>
    simp only [Bool.and_eq_true, decide_eq_true_eq] at hok
    have h1 := (remove_tracks s hist st0 stc ct ht ct i hok.1 hok.2).2.1 rfl
    refine tracks_congr_stc _ _ _ _ _ _ h1 ?_
    intro i2
    show (if i2 = i then none else stc i2)
      = if i < 262144 ∧ i2 = i then none else stc i2
    by_cases hx : i2 = i
    · rw [if_pos hx, if_pos ⟨hok.1, hx⟩]
    · rw [if_neg hx, if_neg (fun hc => hx hc.2)]

lemma applyOp_tracks_rot (s : Storage V) (hist : List (TickSpan V))
    (st0 stc : Nat → Option V) (tcur : Nat)
    (ht : Tracks s hist st0 stc tcur) (ct : Nat) (hlt : tcur < ct) (o : Op V)
    (hok : (match o with
            | Op.set i _ => decide (i < 262144)
            | Op.del i => decide (i < 262144) && (stc i).isSome) = true) :
    Tracks (s.applyOp ct o)
      ((hist ++ [({ pre := st0, tk := tcur, post := stc } :
        TickSpan V)]).drop (hist.length + 1 - 64))
      stc (applyPure stc o) ct := by
  cases o with
  | set i v =>
    have hi : i < 262144 := of_decide_eq_true hok
    have h1 := (set_tracks s hist st0 stc tcur ht ct i hi v).2.2 hlt
    refine tracks_congr_stc _ _ _ _ _ _ h1 ?_
    intro i2
    show (if i2 = i then some v else stc i2)
      = if i < 262144 ∧ i2 = i then some v else stc i2
    by_cases hx : i2 = i
    · rw [if_pos hx, if_pos ⟨hi, hx⟩]
    · rw [if_neg hx, if_neg (fun hc => hx hc.2)]
  | del i =>
    simp only [Bool.and_eq_true, decide_eq_true_eq] at hok
    have h1 := (remove_tracks s hist st0 stc tcur ht ct i hok.1 hok.2).2.2 hlt
    refine tracks_congr_stc _ _ _ _ _ _ h1 ?_
    intro i2
    show (if i2 = i then none else stc i2)
      = if i < 262144 ∧ i2 = i then none else stc i2
    by_cases hx : i2 = i
    · rw [if_pos hx, if_pos ⟨hok.1, hx⟩]
    · rw [if_neg hx, if_neg (fun hc => hx hc.2)]

lemma runOps_tracks_same (ops : List (Op V)) :
    ∀ (s : Storage V) (hist : List (TickSpan V))
      (st0 stc : Nat → Option V) (ct : Nat),
    Tracks s hist st0 stc ct → opsOK stc ops = true →
    Tracks (ops.foldl (fun s2 o => s2.applyOp ct o) s) hist st0
      (ops.foldl applyPure stc) ct := by
  induction ops with
  | nil =>
    intro s hist st0 stc ct ht _
    exact ht
  | cons o rest ih =>
    intro s hist st0 stc ct ht hok
    simp only [opsOK, Bool.and_eq_true] at hok
    exact ih (s.applyOp ct o) hist st0 (applyPure stc o) ct
      (applyOp_tracks_same s hist st0 stc ct ht o hok.1) hok.2

lemma runTick_tracks (s : Storage V) (hist : List (TickSpan V))
    (st0 stc : Nat → Option V) (tcur : Nat)
    (ht : Tracks s hist st0 stc tcur) (p : Nat × List (Op V))
    (hlt : tcur < p.1) (hne : p.2 ≠ []) (hok : opsOK stc p.2 = true) :
    Tracks (s.runTick p)
      ((hist ++ [({ pre := st0, tk := tcur, post := stc } :
        TickSpan V)]).drop (hist.length + 1 - 64))
      stc (runPureTick stc p) p.1 := by
  obtain ⟨t, ops⟩ := p
  cases ops with
  | nil => exact absurd rfl hne
  | cons o rest =>
    simp only [opsOK, Bool.and_eq_true] at hok
    have h1 := applyOp_tracks_rot s hist st0 stc tcur ht t hlt o hok.1
    exact runOps_tracks_same rest (s.applyOp t o) _ stc (applyPure stc o) t
      h1 hok.2

lemma emptyStorage_tracks :
    Tracks (emptyStorage V) [] (fun _ => none) (fun _ => none) 0 := by
  refine ⟨?_, ?_, rfl, freshRollback_wfJ 0, ?_, rfl, ?_, ?_, ?_, ?_⟩
  · intro i h
    unfold Storage.get
    rw [dif_pos h]
    simp [emptyStorage, emptyPage, emptyChunk, bget, Nat.zero_testBit]
  · intro a
    refine ⟨fun _ => rfl, ?_⟩
    intro b
    refine ⟨fun _ => rfl, ?_⟩
    intro k
    simp [emptyStorage, emptyPage, emptyChunk, bget, Nat.zero_testBit]
  · intro i h
    exact freshRollback_recSpec 0 none i h
  · intro k hk
    simp at hk
  · intro k hk
    simp at hk
  · intro hne
    exact absurd rfl hne
  · simp

lemma runProg_tracks (prog : List (Nat × List (Op V))) :
    ∀ (s : Storage V) (hist : List (TickSpan V))
      (st0 stc : Nat → Option V) (tcur : Nat),
    Tracks s hist st0 stc tcur → progOK stc prog = true →
    List.Chain' (· < ·) (tcur :: prog.map (fun p => p.1)) →
    Tracks (s.runProg prog)
      (prog.foldl progStep (hist, st0, stc, tcur)).1
      (prog.foldl progStep (hist, st0, stc, tcur)).2.1
      (prog.foldl progStep (hist, st0, stc, tcur)).2.2.1
      (prog.foldl progStep (hist, st0, stc, tcur)).2.2.2 := by
  induction prog with
  | nil =>
    intro s hist st0 stc tcur ht _ _
    exact ht
  | cons p rest ih =>
    intro s hist st0 stc tcur ht hok hchain
    simp only [progOK, Bool.and_eq_true] at hok
    simp only [List.map_cons] at hchain
    have hlt : tcur < p.1 := (List.chain'_cons.mp hchain).1
    have hchain2 : List.Chain' (· < ·) (p.1 :: rest.map (fun q => q.1)) :=
      (List.chain'_cons.mp hchain).2
    have hne : p.2 ≠ [] := by
      intro hnil
      have := hok.1.1
      rw [hnil] at this
      simp at this
    have h1 := runTick_tracks s hist st0 stc tcur ht p hlt hne hok.1.2
    have hstep : progStep (hist, st0, stc, tcur) p
        = ((hist ++ [({ pre := st0, tk := tcur, post := stc } :
            TickSpan V)]).drop (hist.length + 1 - 64), stc,
           runPureTick stc p, p.1) := by
      unfold progStep
      rw [if_neg (by simp only []; omega)]
    have h2 := ih (s.runTick p)
      ((hist ++ [({ pre := st0, tk := tcur, post := stc } :
        TickSpan V)]).drop (hist.length + 1 - 64))
      stc (runPureTick stc p) p.1 h1 hok.2 hchain2
    show Tracks ((p :: rest).foldl Storage.runTick s) _ _ _ _
    rw [List.foldl_cons, List.foldl_cons, hstep]
    exact h2

lemma foldl_obs_untouched {S A : Type} (f : S → Nat → S) (obs : S → A)
    (k : Nat) (hunt : ∀ s : S, ∀ j : Nat, j ≠ k → obs (f s j) = obs s) :
    ∀ (l : List Nat) (s : S), k ∉ l → obs (l.foldl f s) = obs s := by
  intro l
  induction l with
  | nil =>
    intro s _
    rfl
  | cons a t ih =>
    intro s hk
    have ha : a ≠ k := fun he => hk (he ▸ List.mem_cons_self a t)
    have ht : k ∉ t := fun hm => hk (List.mem_cons_of_mem a hm)
    rw [List.foldl_cons, ih (f s a) ht, hunt s a ha]

lemma foldl_obs_touched {S A : Type} (f : S → Nat → S) (obs : S → A)
    (k : Nat) (tval : A)
    (hunt : ∀ s : S, ∀ j : Nat, j ≠ k → obs (f s j) = obs s)
    (htouch : ∀ s : S, obs (f s k) = tval) :
    ∀ (l : List Nat) (s : S), k ∈ l → obs (l.foldl f s) = tval := by
  intro l
  induction l with
  | nil =>
    intro s hk
    simp at hk
  | cons a t ih =>
    intro s hk
    by_cases hx : k ∈ t
    · exact ih (f s a) hx
    · have ha : a = k := by
        rcases List.mem_cons.mp hk with he | he
        · exact he.symm
        · exact absurd he hx
      rw [List.foldl_cons, foldl_obs_untouched f obs k hunt t (f s a) hx, ha,
        htouch s]

/-- Whether some journal of the chain records a change or removal at the
slot. -/
def chainChrm (chain : List (RollbackStorage V)) (i : Nat)
    (h : i < 262144) : Bool :=
  chain.any (fun j => recCh j i h || recRm j i h)

/-- Whether the slot's first record along the chain (oldest first) is a
creation that no change/removal precedes. -/
def chainPend (chain : List (RollbackStorage V)) (i : Nat)
    (h : i < 262144) : Bool :=
  match chain with
  | [] => false
  | j :: rest =>
    if recCh j i h || recRm j i h then false
    else if recCr j i h then true
    else chainPend rest i h

/-- The stored old value of the first change/removal record along the
chain. -/
def chainVal (chain : List (RollbackStorage V)) (i : Nat)
    (h : i < 262144) : Option V :=
  match chain with
  | [] => none
  | j :: rest =>
    if recCh j i h || recRm j i h then recVal j i h
    else chainVal rest i h

lemma chainOutcome_decomp (i : Nat) (h : i < 262144) :
    ∀ (chain : List (RollbackStorage V)), (∀ j ∈ chain, j.wfJ) →
    ∀ cur : Option V,
    chainOutcome chain i h cur
      = (if chainPend chain i h = true then none
         else if chainChrm chain i h = true then chainVal chain i h
         else cur) := by
  intro chain
  induction chain with
  | nil =>
    intro _ cur
    simp [chainOutcome, chainPend, chainChrm]
  | cons j rest ih =>
    intro hwf cur
    have hj := hwf j (List.mem_cons_self j rest)
    have hexcl := (hj.2 (sIdx i h)).2.2 (pIdx i) |>.2.2.2.2 (cIdx i) |>.1
    unfold chainOutcome chainPend chainChrm chainVal
    by_cases hcr : recCr j i h = true
    · have hch : recCh j i h = false := by
        cases hy : recCh j i h
        · rfl
        · exact absurd hy (hexcl hcr).1
      have hrm : recRm j i h = false := by
        cases hy : recRm j i h
        · rfl
        · exact absurd hy (hexcl hcr).2
      simp [hcr, hch, hrm]
    · have hcrf : recCr j i h = false := by
        cases hy : recCr j i h
        · rfl
        · exact absurd hy hcr
      rw [hcrf]
      by_cases hcm : (recCh j i h || recRm j i h) = true
      · simp only [Bool.or_eq_true] at hcm
        simp [hcrf, hcm]
      · have hcmf : (recCh j i h || recRm j i h) = false := by
          cases hy : (recCh j i h || recRm j i h)
          · rfl
          · exact absurd hy hcm
        rw [hcmf]
        simp only [Bool.false_eq_true, if_false, List.any_cons, hcmf,
          Bool.false_or]
        exact ih (fun j2 hj2 => hwf j2 (List.mem_cons_of_mem j hj2)) cur

lemma restore_fold_slot (rc : RollbackChunk V) (l : List Nat) (k : Fin 64)
    (st : Chunk V × Nat × Nat) :
    (k.val ∈ l →
      bget ((l.foldl (restoreSlot rc) st).1.presence_mask) k.val = true ∧
      (l.foldl (restoreSlot rc) st).1.data k = rc.data k) ∧
    (k.val ∉ l →
      bget ((l.foldl (restoreSlot rc) st).1.presence_mask) k.val
        = bget st.1.presence_mask k.val ∧
      (l.foldl (restoreSlot rc) st).1.data k = st.1.data k) := by
  have huntp : ∀ (s : Chunk V × Nat × Nat) (j : Nat), j ≠ k.val →
      bget (restoreSlot rc s j).1.presence_mask k.val
        = bget s.1.presence_mask k.val := by
    intro s j hj
    unfold restoreSlot
    by_cases hlt : j < 64
    · rw [dif_pos hlt]
      simp only []
      rw [bget_bset]
      simp [Ne.symm hj]
    · rw [dif_neg hlt]
  have huntd : ∀ (s : Chunk V × Nat × Nat) (j : Nat), j ≠ k.val →
      (restoreSlot rc s j).1.data k = s.1.data k := by
    intro s j hj
    unfold restoreSlot
    by_cases hlt : j < 64
    · rw [dif_pos hlt]
      simp only []
      exact Function.update_noteq (fun he => hj (congrArg Fin.val he).symm)
        _ _
    · rw [dif_neg hlt]
  have htp : ∀ s : Chunk V × Nat × Nat,
      bget (restoreSlot rc s k.val).1.presence_mask k.val = true := by
    intro s
    unfold restoreSlot
    rw [dif_pos k.isLt]
    simp only []
    rw [bget_bset]
    simp
  have htd : ∀ s : Chunk V × Nat × Nat,
      (restoreSlot rc s k.val).1.data k = rc.data k := by
    intro s
    unfold restoreSlot
    rw [dif_pos k.isLt]
    simp only []
    have he : (⟨k.val, k.isLt⟩ : Fin 64) = k := Fin.ext rfl
    rw [he, Function.update_same]
  constructor
  · intro hk
    exact ⟨foldl_obs_touched (restoreSlot rc)
        (fun s2 => bget s2.1.presence_mask k.val) k.val true huntp htp l st hk,
      foldl_obs_touched (restoreSlot rc) (fun s2 => s2.1.data k) k.val
        (rc.data k) huntd htd l st hk⟩
  · intro hk
    exact ⟨foldl_obs_untouched (restoreSlot rc)
        (fun s2 => bget s2.1.presence_mask k.val) k.val huntp l st hk,
      foldl_obs_untouched (restoreSlot rc) (fun s2 => s2.1.data k) k.val
        huntd l st hk⟩

lemma removePending_fold_slot (l : List Nat) (k : Fin 64)
    (st : Chunk V × Nat × Nat) :
    (k.val ∈ l → slotObs (l.foldl removePendingSlot st).1 k = none) ∧
    (k.val ∉ l →
      slotObs (l.foldl removePendingSlot st).1 k = slotObs st.1 k) := by
  have hunt : ∀ (s : Chunk V × Nat × Nat) (j : Nat), j ≠ k.val →
      slotObs (removePendingSlot s j).1 k = slotObs s.1 k := by
    intro s j hj
    unfold removePendingSlot
    by_cases hlt : j < 64
    · rw [dif_pos hlt]
      simp only []
      have hb : bget (bclear s.1.presence_mask j) k.val
          = bget s.1.presence_mask k.val := by
        rw [bget_bclear _ _ _ hlt k.isLt]
        simp [Ne.symm hj]
      split
      · unfold slotObs
        simp only []
        rw [hb]
        by_cases hp : bget s.1.presence_mask k.val = true
        · rw [if_pos hp, if_pos hp]
          exact Function.update_noteq
            (fun he => hj (congrArg Fin.val he).symm) _ _
        · rw [if_neg hp, if_neg hp]
      · unfold slotObs
        simp only []
        rw [hb]
    · rw [dif_neg hlt]
  have ht : ∀ s : Chunk V × Nat × Nat,
      slotObs (removePendingSlot s k.val).1 k = none := by
    intro s
    unfold removePendingSlot
    rw [dif_pos k.isLt]
    simp only []
    unfold slotObs
    have hb : bget (bclear s.1.presence_mask k.val) k.val = false := by
      rw [bget_bclear _ _ _ k.isLt k.isLt]
      simp
    split
    · simp only []
      rw [hb]
      simp
    · simp only []
      rw [hb]
      simp
  constructor
  · intro hk
    exact foldl_obs_touched removePendingSlot (fun s2 => slotObs s2.1 k)
      k.val none hunt ht l st hk
  · intro hk
    exact foldl_obs_untouched removePendingSlot (fun s2 => slotObs s2.1 k)
      k.val hunt l st hk

lemma chainChunk_none (j : RollbackStorage V) (hwf : j.wfJ) (i : Nat)
    (h : i < 262144)
    (hn : chainChunk j (sIdx i h) (pIdx i) = none) :
    recCr j i h = false ∧ recCh j i h = false ∧ recRm j i h = false := by
  have hj3 := (hwf.2 (sIdx i h)).2.2 (pIdx i) |>.2.2.2.2 (cIdx i) |>.2.2.2
  have hnb : ¬ (bget (j.data (sIdx i h)).changed_mask (pIdx i).val = true ∧
      bget j.changed_mask (sIdx i h).val = true) := by
    intro hb
    unfold chainChunk RollbackStorage.getPage RollbackPage.getChunk at hn
    rw [if_pos hb.2] at hn
    simp only [] at hn
    rw [if_pos hb.1] at hn
    exact absurd hn (by simp)
  refine ⟨?_, ?_, ?_⟩
  · cases hx : recCr j i h
    · rfl
    · exact absurd (hj3 (Or.inl hx)) hnb
  · cases hx : recCh j i h
    · rfl
    · exact absurd (hj3 (Or.inr (Or.inl hx))) hnb
  · cases hx : recRm j i h
    · rfl
    · exact absurd (hj3 (Or.inr (Or.inr hx))) hnb

lemma chainChunk_some (j : RollbackStorage V) (i : Nat) (h : i < 262144)
    (rc : RollbackChunk V)
    (hs : chainChunk j (sIdx i h) (pIdx i) = some rc) :
    rc = (j.data (sIdx i h)).data (pIdx i) := by
  unfold chainChunk RollbackStorage.getPage RollbackPage.getChunk at hs
  by_cases h1 : bget j.changed_mask (sIdx i h).val = true
  · rw [if_pos h1] at hs
    simp only [] at hs
    by_cases h2 : bget (j.data (sIdx i h)).changed_mask (pIdx i).val = true
    · rw [if_pos h2] at hs
      exact (Option.some_inj.mp hs).symm
    · rw [if_neg h2] at hs
      exact absurd hs (by simp)
  · rw [if_neg h1] at hs
    exact absurd hs (by simp)

lemma chunkScan_slot (i : Nat) (h : i < 262144) :
    ∀ (chain : List (RollbackStorage V)), (∀ j ∈ chain, j.wfJ) →
    ∀ (st : Chunk V × Nat × Nat) (processed pending : Nat),
    processed < 2 ^ 64 → pending < 2 ^ 64 →
    ∀ res : (Chunk V × Nat × Nat) × Nat × Nat,
    res = chain.foldl (chunkScanStep (sIdx i h) (pIdx i))
      (st, processed, pending) →
    res.2.1 < 2 ^ 64 ∧ res.2.2 < 2 ^ 64 ∧
    bget res.2.1 (cIdx i).val
      = (bget processed (cIdx i).val || chainChrm chain i h) ∧
    bget res.2.2 (cIdx i).val
      = (bget pending (cIdx i).val ||
         (!bget processed (cIdx i).val && chainPend chain i h)) ∧
    (bget processed (cIdx i).val = true →
      bget res.1.1.presence_mask (cIdx i).val
        = bget st.1.presence_mask (cIdx i).val ∧
      res.1.1.data (cIdx i) = st.1.data (cIdx i)) ∧
    (bget processed (cIdx i).val = false →
      (chainChrm chain i h = true →
        bget res.1.1.presence_mask (cIdx i).val = true ∧
        res.1.1.data (cIdx i) = chainVal chain i h) ∧
      (chainChrm chain i h = false →
        bget res.1.1.presence_mask (cIdx i).val
          = bget st.1.presence_mask (cIdx i).val ∧
        res.1.1.data (cIdx i) = st.1.data (cIdx i))) := by
  intro chain
  induction chain with
  | nil =>
    intro _ st processed pending hp hq res hres
    subst hres
    refine ⟨hp, hq, ?_, ?_, fun _ => ⟨rfl, rfl⟩, ?_⟩
    · simp [chainChrm]
    · simp [chainPend]
    · intro _
      refine ⟨?_, fun _ => ⟨rfl, rfl⟩⟩
      intro hc
      simp [chainChrm] at hc
  | cons j rest ih =>
    intro hwf st processed pending hp hq res hres
    have hwfj := hwf j (List.mem_cons_self j rest)
    have hwft := fun j2 hj2 => hwf j2 (List.mem_cons_of_mem j hj2)
    rw [List.foldl_cons] at hres
    cases hcc : chainChunk j (sIdx i h) (pIdx i) with
    | none =>
      obtain ⟨hz1, hz2, hz3⟩ := chainChunk_none j hwfj i h hcc
      have hstep : chunkScanStep (sIdx i h) (pIdx i)
          (st, processed, pending) j = (st, processed, pending) := by
        unfold chunkScanStep
        rw [hcc]
      rw [hstep] at hres
      have hcrw : chainChrm (j :: rest) i h = chainChrm rest i h := by
        unfold chainChrm
        rw [List.any_cons, hz2, hz3]
        simp
      have hprw : chainPend (j :: rest) i h = chainPend rest i h := by
        show (if (recCh j i h || recRm j i h) = true then false
          else if recCr j i h = true then true else chainPend rest i h)
          = chainPend rest i h
        rw [hz1, hz2, hz3]
        simp
      have hvrw : chainVal (j :: rest) i h = chainVal rest i h := by
        show (if (recCh j i h || recRm j i h) = true then recVal j i h
          else chainVal rest i h) = chainVal rest i h
        rw [hz2, hz3]
        simp
      rw [hcrw, hprw, hvrw]
      exact ih hwft st processed pending hp hq res hres
    | some rc =>
      have hrc := chainChunk_some j i h rc hcc
      have hc64 : compl64 processed < 2 ^ 64 := by
        unfold compl64
        refine Nat.xor_lt_two_pow hp ?_
        show ones 64 < 2 ^ 64
        unfold ones
        omega
      have htr : (rc.changed_mask ||| rc.removed_mask) &&& compl64 processed
          < 2 ^ 64 :=
        lt_of_le_of_lt Nat.and_le_right hc64
      have hp2 : processed |||
          ((rc.changed_mask ||| rc.removed_mask) &&& compl64 processed)
          < 2 ^ 64 := Nat.or_lt_two_pow hp htr
      have hc64b : compl64 (processed |||
          ((rc.changed_mask ||| rc.removed_mask) &&& compl64 processed))
          < 2 ^ 64 := by
        unfold compl64
        refine Nat.xor_lt_two_pow hp2 ?_
        show ones 64 < 2 ^ 64
        unfold ones
        omega
      have hq2 : pending ||| (rc.created_mask &&& compl64 (processed |||
          ((rc.changed_mask ||| rc.removed_mask) &&& compl64 processed)))
          < 2 ^ 64 :=
        Nat.or_lt_two_pow hq (lt_of_le_of_lt Nat.and_le_right hc64b)
      have hstep : chunkScanStep (sIdx i h) (pIdx i)
          (st, processed, pending) j
          = ((runBits ((rc.changed_mask ||| rc.removed_mask) &&&
                compl64 processed)).foldl (restoreSlot rc) st,
             processed ||| ((rc.changed_mask ||| rc.removed_mask) &&&
                compl64 processed),
             pending ||| (rc.created_mask &&& compl64 (processed |||
                ((rc.changed_mask ||| rc.removed_mask) &&&
                  compl64 processed)))) := by
        unfold chunkScanStep
        rw [hcc]
      rw [hstep] at hres
      have hch : rc.changed_mask.testBit (cIdx i).val = recCh j i h := by
        rw [hrc]
        rfl
      have hrm : rc.removed_mask.testBit (cIdx i).val = recRm j i h := by
        rw [hrc]
        rfl
      have hcr2 : rc.created_mask.testBit (cIdx i).val = recCr j i h := by
        rw [hrc]
        rfl
      have hd64 : decide ((cIdx i).val < 64) = true := by
        simp [(cIdx i).isLt]
      have htrbit : bget ((rc.changed_mask ||| rc.removed_mask) &&&
          compl64 processed) (cIdx i).val
          = ((recCh j i h || recRm j i h) && !bget processed (cIdx i).val)
          := by
        show ((rc.changed_mask ||| rc.removed_mask) &&&
          compl64 processed).testBit (cIdx i).val = _
        rw [Nat.testBit_and, Nat.testBit_or, compl64_testBit _ _ hp, hch,
          hrm, hd64, Bool.and_true]
        rfl
      have hpb : bget (processed ||| ((rc.changed_mask ||| rc.removed_mask)
          &&& compl64 processed)) (cIdx i).val
          = (bget processed (cIdx i).val ||
             ((recCh j i h || recRm j i h) &&
              !bget processed (cIdx i).val)) := by
        show (processed ||| _).testBit (cIdx i).val = _
        rw [Nat.testBit_or]
        rw [show ((rc.changed_mask ||| rc.removed_mask) &&&
          compl64 processed).testBit (cIdx i).val
          = ((recCh j i h || recRm j i h) && !bget processed (cIdx i).val)
          from htrbit]
        rfl
      have hpendb : bget (pending ||| (rc.created_mask &&& compl64
          (processed ||| ((rc.changed_mask ||| rc.removed_mask) &&&
            compl64 processed)))) (cIdx i).val
          = (bget pending (cIdx i).val ||
             (recCr j i h &&
              !(bget processed (cIdx i).val ||
                ((recCh j i h || recRm j i h) &&
                 !bget processed (cIdx i).val)))) := by
        show (pending ||| _).testBit (cIdx i).val = _
        rw [Nat.testBit_or, Nat.testBit_and, compl64_testBit _ _ hp2, hcr2,
          hd64, Bool.and_true]
        rw [show (processed ||| ((rc.changed_mask ||| rc.removed_mask) &&&
          compl64 processed)).testBit (cIdx i).val
          = (bget processed (cIdx i).val ||
             ((recCh j i h || recRm j i h) &&
              !bget processed (cIdx i).val)) from hpb]
        rfl
      have hrfs := restore_fold_slot rc
        (runBits ((rc.changed_mask ||| rc.removed_mask) &&&
          compl64 processed)) (cIdx i) st
      have hmem : (cIdx i).val ∈ runBits ((rc.changed_mask |||
          rc.removed_mask) &&& compl64 processed)
          ↔ ((recCh j i h || recRm j i h) &&
             !bget processed (cIdx i).val) = true := by
        rw [mem_runBits _ htr]
        rw [show ((rc.changed_mask ||| rc.removed_mask) &&&
          compl64 processed).testBit (cIdx i).val
          = ((recCh j i h || recRm j i h) && !bget processed (cIdx i).val)
          from htrbit]
        simp [(cIdx i).isLt]
      obtain ⟨ihb1, ihb2, ihc, ihd, ihp, ihnp⟩ := ih hwft _ _ _ hp2 hq2
        res hres
      have hccons : chainChrm (j :: rest) i h
          = ((recCh j i h || recRm j i h) || chainChrm rest i h) := by
        unfold chainChrm
        rw [List.any_cons]
      have hpcons : chainPend (j :: rest) i h
          = (if (recCh j i h || recRm j i h) = true then false
             else if recCr j i h = true then true
             else chainPend rest i h) := rfl
      have hvcons : chainVal (j :: rest) i h
          = (if (recCh j i h || recRm j i h) = true then recVal j i h
             else chainVal rest i h) := rfl
      refine ⟨ihb1, ihb2, ?_, ?_, ?_, ?_⟩
      · rw [ihc, hpb, hccons]
        cases bget processed (cIdx i).val <;>
          cases (recCh j i h || recRm j i h) <;> simp
      · rw [ihd, hpendb, hpb, hpcons]
        cases hx : bget processed (cIdx i).val <;>
          cases hy : (recCh j i h || recRm j i h) <;>
          cases hz : recCr j i h <;> simp
      · intro hpt
        have hpt2 : bget (processed ||| ((rc.changed_mask |||
            rc.removed_mask) &&& compl64 processed)) (cIdx i).val
            = true := by
          rw [hpb, hpt]
          simp
        have hnm : (cIdx i).val ∉ runBits ((rc.changed_mask |||
            rc.removed_mask) &&& compl64 processed) := by
          rw [hmem, hpt]
          simp
        obtain ⟨hu1, hu2⟩ := hrfs.2 hnm
        obtain ⟨hv1, hv2⟩ := ihp hpt2
        exact ⟨hv1.trans hu1, hv2.trans hu2⟩
      · intro hpf
        by_cases hmj : (recCh j i h || recRm j i h) = true
        · have htrt : ((recCh j i h || recRm j i h) &&
              !bget processed (cIdx i).val) = true := by
            rw [hmj, hpf]
            simp
          have hm2 : (cIdx i).val ∈ runBits ((rc.changed_mask |||
              rc.removed_mask) &&& compl64 processed) := by
            rw [hmem]
            exact htrt
          obtain ⟨hu1, hu2⟩ := hrfs.1 hm2
          have hpt2 : bget (processed ||| ((rc.changed_mask |||
              rc.removed_mask) &&& compl64 processed)) (cIdx i).val
              = true := by
            rw [hpb, hpf]
            simp [hmj]
          obtain ⟨hv1, hv2⟩ := ihp hpt2
          constructor
          · intro _
            refine ⟨hv1.trans hu1, ?_⟩
            rw [hvcons, if_pos hmj, hv2.trans hu2, hrc]
            rfl
          · intro hcf
            rw [hccons, hmj] at hcf
            simp at hcf
        · have hmjf : (recCh j i h || recRm j i h) = false := by
            cases hy : (recCh j i h || recRm j i h)
            · rfl
            · exact absurd hy hmj
          have hnm : (cIdx i).val ∉ runBits ((rc.changed_mask |||
              rc.removed_mask) &&& compl64 processed) := by
            rw [hmem, hmjf]
            simp
          obtain ⟨hu1, hu2⟩ := hrfs.2 hnm
          have hpf2 : bget (processed ||| ((rc.changed_mask |||
              rc.removed_mask) &&& compl64 processed)) (cIdx i).val
              = false := by
            rw [hpb, hpf, hmjf]
            simp
          obtain ⟨hw1, hw2⟩ := ihnp hpf2
          constructor
          · intro hct
            rw [hccons, hmjf] at hct
            simp only [Bool.false_or] at hct
            obtain ⟨hx1, hx2⟩ := hw1 hct
            refine ⟨hx1, ?_⟩
            rw [hvcons, if_neg (by rw [hmjf]; simp), hx2]
          · intro hcf
            rw [hccons, hmjf] at hcf
            simp only [Bool.false_or] at hcf
            obtain ⟨hx1, hx2⟩ := hw2 hcf
            exact ⟨hx1.trans hu1, hx2.trans hu2⟩

lemma chunkRollback_slot (chain : List (RollbackStorage V))
    (hwf : ∀ j ∈ chain, j.wfJ) (i : Nat) (h : i < 262144)
    (c0 : Chunk V) (pc sc : Nat) :
    slotObs (chunkRollback chain (sIdx i h) (pIdx i) (c0, pc, sc)).1 (cIdx i)
      = chainOutcome chain i h (slotObs c0 (cIdx i)) := by
  obtain ⟨hb1, hb2, hc, hd, hpt, hpf⟩ := chunkScan_slot i h chain hwf
    (c0, pc, sc) 0 0 (by norm_num) (by norm_num)
    (chain.foldl (chunkScanStep (sIdx i h) (pIdx i)) ((c0, pc, sc), 0, 0))
    rfl
  have h0 : bget (0 : Nat) (cIdx i).val = false := by
    simp [bget, Nat.zero_testBit]
  rw [h0] at hc hd
  simp only [Bool.false_or, Bool.not_false, Bool.true_and] at hc hd
  have hpf2 := hpf h0
  have hrp := removePending_fold_slot
    (runBits (chain.foldl (chunkScanStep (sIdx i h) (pIdx i))
      ((c0, pc, sc), 0, 0)).2.2) (cIdx i)
    (chain.foldl (chunkScanStep (sIdx i h) (pIdx i)) ((c0, pc, sc), 0, 0)).1
  have hmem : (cIdx i).val ∈ runBits (chain.foldl
      (chunkScanStep (sIdx i h) (pIdx i)) ((c0, pc, sc), 0, 0)).2.2
      ↔ chainPend chain i h = true := by
    rw [mem_runBits _ hb2]
    rw [show (chain.foldl (chunkScanStep (sIdx i h) (pIdx i))
      ((c0, pc, sc), 0, 0)).2.2.testBit (cIdx i).val
      = chainPend chain i h from hd]
    simp [(cIdx i).isLt]
  rw [chainOutcome_decomp i h chain hwf]
  show slotObs ((runBits (chain.foldl (chunkScanStep (sIdx i h) (pIdx i))
      ((c0, pc, sc), 0, 0)).2.2).foldl removePendingSlot
      (chain.foldl (chunkScanStep (sIdx i h) (pIdx i))
        ((c0, pc, sc), 0, 0)).1).1 (cIdx i) = _
  by_cases hpend : chainPend chain i h = true
  · rw [hrp.1 (hmem.mpr hpend), if_pos hpend]
  · rw [hrp.2 (fun hm => hpend (hmem.mp hm)), if_neg hpend]
    by_cases hchrm : chainChrm chain i h = true
    · rw [if_pos hchrm]
      obtain ⟨hx1, hx2⟩ := hpf2.1 hchrm
      unfold slotObs
      rw [hx1, hx2]
      simp
    · have hchrf : chainChrm chain i h = false := by
        cases hx : chainChrm chain i h
        · rfl
        · exact absurd hx hchrm
      rw [if_neg hchrm]
      obtain ⟨hx1, hx2⟩ := hpf2.2 hchrf
      unfold slotObs
      rw [hx1, hx2]

end Decs
